import Mathlib

/-!
# go-proto-validators: the validator plugin

A shallow embedding of `plugin/plugin.go` and `plugin/error_messages.go`.

The plugin is a code generator: every `p.P(...)` call writes one line of Go.  The embedding
keeps the generator functions as they are written, but lets them return the emitted code as a
small abstract syntax (`Stmt`, `Cond`, `Desc`, `Var`) instead of text: a line that opens a block
together with the `p.P("}")` that closes it is one constructor, `p.In()` / `p.Out()` (indentation)
disappear.  The meaning of the emitted code is given by the interpreter `exec`, which runs the
statements on a message instance and returns the violations they append to `fieldsViolations`.

Numbers: integer fields and limits are mathematical integers (a generated comparison between a
field and a constant only compiles when the constant fits the field's type, so no wrap-around
takes place); float fields and limits are exact rationals.
-/

namespace ProtoValidators

/-! ## Message catalogue (`error_messages.go`) -/

def LangPtBr : String := "pt_br"

def LangDefault : String := "default"

/-- Indexing of a Go `map[string]string`: the value stored at the key, `""` when the key is absent. -/
def mapIndex (m : List (String × String)) (key : String) : String :=
  match m with
  | [] => ""
  | (k, v) :: rest => if k = key then v else mapIndex rest key

def errorIntGt : List (String × String) :=
  [(LangPtBr, "ser maior que '%d'"), (LangDefault, "be greater than '%d'")]

def errorIntLt : List (String × String) :=
  [(LangPtBr, "ser menor que '%d'"), (LangDefault, "be less than '%d'")]

def errorIntGte : List (String × String) :=
  [(LangPtBr, "ser maior ou igual que '%d'"), (LangDefault, "be greater or equal than '%d'")]

def errorIntLte : List (String × String) :=
  [(LangPtBr, "ser menor ou igual que '%d'"), (LangDefault, "be less or equal than '%d'")]

def errorIsInEnum : List (String × String) :=
  [(LangPtBr, "ser um válido %s enumerador"), (LangDefault, "be a valid %s enumerator")]

def errorLengthGt : List (String × String) :=
  [(LangPtBr, "ter um comprimento maior que '%d'"), (LangDefault, "have a length greater than '%d'")]

def errorLengthLt : List (String × String) :=
  [(LangPtBr, "ter um comprimento menor que '%d'"), (LangDefault, "have a length smaller than '%d'")]

def errorLengthEq : List (String × String) :=
  [(LangPtBr, "ter um comprimento igual que '%d'"), (LangDefault, "have a length equal than '%d'")]

def errorFloatGt : List (String × String) :=
  [(LangPtBr, "ser estritamente maior que '%.2f'"), (LangDefault, "be strictly greater than '%.2f'")]

def errorFloatGtEpsilon : List (String × String) :=
  [(LangPtBr, " com uma tolerância de '%.2f'"), (LangDefault, " with a tolerance of '%.2f'")]

def errorFloatGte : List (String × String) :=
  [(LangPtBr, "ser maior ou igual a '%.2f'"), (LangDefault, "be greater than or equal to '%.2f'")]

def errorFloatLt : List (String × String) :=
  [(LangPtBr, "ser estritamente menor que '%.2f'"), (LangDefault, "be strictly lower than '%.2f'")]

def errorFloatLtEpsilon : List (String × String) :=
  [(LangPtBr, " com uma tolerância de '%.2f'"), (LangDefault, " with a tolerance of '%.2f'")]

def errorFloatLte : List (String × String) :=
  [(LangPtBr, "ser menor ou igual a '%.2f'"), (LangDefault, "be lower than or equal to '%.2f'")]

def errorRegex : List (String × String) :=
  [(LangPtBr, "estar em conformidade com regex "), (LangDefault, "be a string conforming to regex ")]

def errorStringNotEmpty : List (String × String) :=
  [(LangPtBr, "deve ser preenchido"), (LangDefault, "must not be an empty string")]

def errorTrimmedStringNotEmpty : List (String × String) :=
  [(LangPtBr, "deve ser preenchido"), (LangDefault, "must not be an empty string")]

def errorRepeatedCountMin : List (String × String) :=
  [(LangPtBr, "conter pelo menos %v elementos"), (LangDefault, "contain at least %v elements")]

def errorRepeatedCountMax : List (String × String) :=
  [(LangPtBr, "conter no máximo %v elementos"), (LangDefault, "contain at most %v elements")]

def errorMsgExists : List (String × String) :=
  [(LangPtBr, "os dados devem ser preenchidos"), (LangDefault, "message must exist")]

def errorMsgExistsIfAnotherNot : List (String × String) :=
  [(LangPtBr, "os dados devem ser preenchidos se %s estiver vazio"),
   (LangDefault, "message must exist if message %s is not exists")]

def errorString : List (String × String) :=
  [(LangPtBr, "valor '%v' deve "), (LangDefault, "value '%v' must ")]

def errorOneofValidator : List (String × String) :=
  [(LangPtBr, "um dos campos deve ser definido"), (LangDefault, "one of the fields must be set")]

/-! ## `fmt.Sprintf` with one operand -/

/-- One operand of `fmt.Sprintf`: the text its verb prints for it, and the `type=value` text Go
prints for an operand no verb consumed. -/
structure Operand where
  text : String
  extra : String

/-- Whether a character after `%` starts a directive with flags, width, precision or argument
index. -/
def isDirectiveChar (c : Char) : Bool :=
  c = '#' ∨ c = '0' ∨ c = '+' ∨ c = '-' ∨ c = ' ' ∨ c = '*' ∨ c = '.' ∨ c = '[' ∨ c.isDigit

/-- What `fmt.Sprintf` prints for the rest of a format once its operand is used up: `%%` is a
percent sign, a `%` followed by a verb character `c` is `%!c(MISSING)`, a `%` at the very end is
`%!(NOVERB)`, other text is copied.  Directives with flags, width, precision or argument index
are not modelled (they are copied). -/
def missingVerbs : List Char → List Char
  | [] => []
  | c :: rest =>
    if c = '%' then
      match rest with
      | [] => "%!(NOVERB)".data
      | d :: rest2 =>
        if d = '%' then '%' :: missingVerbs rest2
        else if isDirectiveChar d then '%' :: d :: missingVerbs rest2
        else '%' :: '!' :: d :: ("(MISSING)".data ++ missingVerbs rest2)
    else c :: missingVerbs rest

/-- Replace the first occurrence of `verb` in a format by `arg` and print the rest of the format
without operand; `none` when the format does not hold the verb. -/
def substVerb (verb arg : List Char) : List Char → Option (List Char)
  | [] => none
  | c :: cs =>
    if verb.isPrefixOf (c :: cs) then some (arg ++ missingVerbs ((c :: cs).drop verb.length))
    else (substVerb verb arg cs).map (fun r => c :: r)

/-- Go's `fmt.Sprintf(format, arg)` for a format whose first directive is `verb`: the verb is
replaced by the operand's text, later directives miss their operand (`missingVerbs`); a format
without the verb is followed by `%!(EXTRA type=value)`.  Formats whose first directive is
another one are outside this model. -/
def Sprintf (format verb : String) (arg : Operand) : String :=
  match substVerb verb.data arg.text.data format.data with
  | some r => String.mk r
  | none => format ++ "%!(EXTRA " ++ arg.extra ++ ")"

/-- An `int64` operand (`%d`, `%v`). -/
def int64Operand (n : Int) : Operand :=
  { text := toString n, extra := "int64=" ++ toString n }

/-- A `string` operand (`%s`). -/
def stringOperand (s : String) : Operand :=
  { text := s, extra := "string=" ++ s }

/-- Rendering of floating-point numbers is not modelled: the two renderings the plugin uses are
parameters. -/
structure FloatFmt where
  /-- Text of `%.2f`. -/
  f2 : ℚ → String
  /-- Text of `%v` (also `fmt.Sprint`). -/
  v : ℚ → String

def float64Operand (ff : FloatFmt) (q : ℚ) : Operand :=
  { text := ff.f2 q, extra := "float64=" ++ ff.v q }

/-! ## Constraint model -/

/-- Modelled from the spec: the generated struct `validator.FieldValidator` (`validator.pb.go` is
not among the sources).  One optional (pointer) field per constraint kind, as the plugin reads
them. -/
structure FieldValidator where
  Regex : Option String := none
  IntGt : Option Int := none
  IntLt : Option Int := none
  MsgExists : Option Bool := none
  HumanError : Option String := none
  FloatGt : Option ℚ := none
  FloatLt : Option ℚ := none
  FloatEpsilon : Option ℚ := none
  FloatGte : Option ℚ := none
  FloatLte : Option ℚ := none
  StringNotEmpty : Option Bool := none
  RepeatedCountMin : Option Int := none
  RepeatedCountMax : Option Int := none
  LengthGt : Option Int := none
  LengthLt : Option Int := none
  LengthEq : Option Int := none
  IsInEnum : Option Bool := none
  UuidVer : Option Int := none
  TrimmedStringNotEmpty : Option Bool := none
  IntGte : Option Int := none
  IntLte : Option Int := none
  MsgExistsIfAnotherNot : Option String := none
  DecimalPlacesLte : Option Int := none
  deriving DecidableEq

/-- Modelled from the spec: the generated struct `validator.OneofValidator`. -/
structure OneofValidator where
  Required : Option Bool := none
  deriving DecidableEq

def FieldValidator.GetHumanError (fv : FieldValidator) : String := fv.HumanError.getD ""

def FieldValidator.GetRegex (fv : FieldValidator) : String := fv.Regex.getD ""

def FieldValidator.GetIntGt (fv : FieldValidator) : Int := fv.IntGt.getD 0

def FieldValidator.GetIntLt (fv : FieldValidator) : Int := fv.IntLt.getD 0

def FieldValidator.GetIntGte (fv : FieldValidator) : Int := fv.IntGte.getD 0

def FieldValidator.GetIntLte (fv : FieldValidator) : Int := fv.IntLte.getD 0

def FieldValidator.GetFloatGt (fv : FieldValidator) : ℚ := fv.FloatGt.getD 0

def FieldValidator.GetFloatLt (fv : FieldValidator) : ℚ := fv.FloatLt.getD 0

def FieldValidator.GetFloatGte (fv : FieldValidator) : ℚ := fv.FloatGte.getD 0

def FieldValidator.GetFloatLte (fv : FieldValidator) : ℚ := fv.FloatLte.getD 0

def FieldValidator.GetFloatEpsilon (fv : FieldValidator) : ℚ := fv.FloatEpsilon.getD 0

def FieldValidator.GetLengthGt (fv : FieldValidator) : Int := fv.LengthGt.getD 0

def FieldValidator.GetLengthLt (fv : FieldValidator) : Int := fv.LengthLt.getD 0

def FieldValidator.GetLengthEq (fv : FieldValidator) : Int := fv.LengthEq.getD 0

def FieldValidator.GetRepeatedCountMin (fv : FieldValidator) : Int := fv.RepeatedCountMin.getD 0

def FieldValidator.GetRepeatedCountMax (fv : FieldValidator) : Int := fv.RepeatedCountMax.getD 0

def FieldValidator.GetDecimalPlacesLte (fv : FieldValidator) : Int := fv.DecimalPlacesLte.getD 0

def FieldValidator.GetIsInEnum (fv : FieldValidator) : Bool := fv.IsInEnum.getD false

def FieldValidator.GetStringNotEmpty (fv : FieldValidator) : Bool := fv.StringNotEmpty.getD false

def FieldValidator.GetTrimmedStringNotEmpty (fv : FieldValidator) : Bool :=
  fv.TrimmedStringNotEmpty.getD false

def OneofValidator.GetRequired (ov : OneofValidator) : Bool := ov.Required.getD false

/-! ## Violations and run-time values -/

/-- The record `errdetails.BadRequest_FieldViolation`. -/
structure Violation where
  Field : String
  Description : String
  deriving DecidableEq, Repr

/-- A run-time value of a message field. -/
inductive Value where
  /-- An integer or enum field. -/
  | int (n : Int)
  /-- A floating-point field, as an exact rational. -/
  | float (q : ℚ)
  | str (s : String)
  | bytes (b : List Nat)
  /-- A message that is present, held through a pointer (`*T`): the text `%v` prints for it and
  the violations its own `Validate` method returns. -/
  | msg (repr : String) (validate : List Violation)
  /-- A message held by value (`T`): what `*(v)` yields for a pointer `v`, and what a field or
  an element of a non-nullable message type holds. -/
  | struct (repr : String) (validate : List Violation)
  /-- A nil pointer. -/
  | null
  /-- A repeated field. -/
  | list (vs : List Value)

/-! ## Abstract syntax of the generated code -/

/-- The expression the generator calls `variableName`. -/
inductive Var where
  /-- The text `this.F`. -/
  | this (f : String)
  /-- The text `oneOfNester.F`. -/
  | nester (f : String)
  /-- The text `item`. -/
  | item
  /-- The text `&(v)`. -/
  | addr (v : Var)
  /-- The text `this.GetF()` (proto2). -/
  | getter (f : String)
  /-- The text `*(v)` (proto2). -/
  | deref (v : Var)
  deriving DecidableEq, Repr

inductive CmpOp where
  | gt | lt | ge | le | eq
  deriving DecidableEq, Repr

/-- The tolerance term of a strict float comparison: absent, `+ e` or `- e`. -/
inductive Shift where
  | none
  | plus (e : ℚ)
  | minus (e : ℚ)
  deriving DecidableEq

/-- The `Description:` expression of a generated violation. -/
inductive Desc where
  /-- The text `fmt.Sprintf(format, v)`, evaluated when the check fails. -/
  | sprintf (format : String) (v : Var)
  /-- A string literal. -/
  | lit (s : String)
  deriving DecidableEq

/-- Conditions of the generated `if` lines. -/
inductive Cond where
  /-- The text `!(v op n)`. -/
  | notIntCmp (v : Var) (op : CmpOp) (n : Int)
  /-- The text `!( len(v) op n)`. -/
  | notLenCmp (v : Var) (op : CmpOp) (n : Int)
  /-- The text `!(v [+ e | - e] op a)`. -/
  | notFloatCmp (v : Var) (shift : Shift) (op : CmpOp) (a : ℚ)
  /-- The text `_, ok := E_name[int32(v)]; !ok`. -/
  | notInEnum (enumName : String) (v : Var)
  /-- The text `!regexVar.MatchString(v)`. -/
  | notRegexMatch (regexVar : String) (v : Var)
  /-- The text `v == ""`. -/
  | strEmpty (v : Var)
  /-- The text `strings.TrimSpace(v) == ""`. -/
  | trimmedEmpty (v : Var)
  /-- The text `len(v) < n`. -/
  | lenLt (v : Var) (n : Int)
  /-- The text `len(v) > n`. -/
  | lenGt (v : Var) (n : Int)
  /-- The text `nil == v`. -/
  | isNil (v : Var)
  /-- The text `nil == v && nil == this.other`. -/
  | bothNil (v : Var) (other : String)
  /-- The text `v != nil`. -/
  | notNil (v : Var)
  deriving DecidableEq

/-- Statements of a generated `Validate` body. -/
inductive Stmt where
  /-- An `if c {` line, its body and the closing brace. -/
  | ifThen (c : Cond) (body : List Stmt)
  /-- The loop `for _, item := range v {`, its body and the closing brace. -/
  | forRange (v : Var) (body : List Stmt)
  /-- The guard `if oneOfNester, ok := this.GetX().(* T); ok {`, its body and the closing brace. -/
  | ifOneof (oneOfName oneOfType : String) (body : List Stmt)
  /-- The guard `if this.GetX() == nil {` of a required oneof, its body and the closing brace. -/
  | ifOneofNil (oneOfName : String) (body : List Stmt)
  /-- The two lines `fieldViolation := &...{Field: "field", Description: desc}` and
  `fieldsViolations = append(fieldsViolations, fieldViolation)`. -/
  | appendViolation (field : String) (desc : Desc)
  /-- The proto3 block that calls `CallValidatorIfExists(v)` and appends, for every returned
  `fv`, a violation with `Field: "fieldName." + fv.Field, Description: fv.Description`.
  Modelled from the spec: the helper `CallValidatorIfExists` of the root package is not among
  the sources; it calls the `Validate` method of its argument when the argument has one and
  returns nil otherwise.  The generated method has a pointer receiver
  (`func (this *T) Validate()`), so a pointer to a message is validated (`Value.msg`) and a
  message passed by value (`Value.struct`) is not. -/
  | callChild (v : Var) (fieldName : String)
  /-- The proto2 block that calls `CallValidatorIfExists(v)` and appends what it returns:
  `fieldsViolations = append(fieldsViolations, fieldsViolationsChild...)`. -/
  | callChildFlat (v : Var)
  /-- The line `slice := strings.Split(fmt.Sprintf("%v", v), ".")` with the check
  `if len(slice) > 1 && !(len(slice[1]) <= n) {` after it, its body and the closing brace. -/
  | decimalPlaces (slice : String) (v : Var) (n : Int) (body : List Stmt)
  /-- A comment line. -/
  | comment (text : String)

/-! ## Regular expressions (Go's `regexp`, the part the plugin's patterns use) -/

/-- The characters from `lo` to `hi`. -/
def charRange (lo hi : Char) : List Char :=
  (List.range (hi.toNat + 1 - lo.toNat)).map (fun i => Char.ofNat (lo.toNat + i))

/-- A bracket class as a regular expression: one of the listed characters. -/
def classRE : List Char → RegularExpression Char
  | [] => RegularExpression.zero
  | c :: cs => RegularExpression.plus (RegularExpression.char c) (classRE cs)

/-- Concatenation of a list of expressions. -/
def seqRE : List (RegularExpression Char) → RegularExpression Char
  | [] => RegularExpression.epsilon
  | r :: rs => RegularExpression.comp r (seqRE rs)

/-- The expression `r?`. -/
def optRE (r : RegularExpression Char) : RegularExpression Char :=
  RegularExpression.plus r RegularExpression.epsilon

/-- The members of a bracket class, read up to the closing `]`: single characters and ranges
`a-z`; escapes and nested brackets are not modelled.  Returns the members and the input after
the bracket. -/
def parseClass : Nat → List Char → Option (List Char × List Char)
  | 0, _ => none
  | _ + 1, [] => none
  | fuel + 1, c :: rest =>
    if c = ']' then some ([], rest)
    else if c = '\\' ∨ c = '[' then none
    else
      match rest with
      | '-' :: hi :: rest2 =>
        if hi = ']' then some ([c, '-'], rest2)
        else if hi = '\\' ∨ hi = '[' ∨ hi < c then none
        else (parseClass fuel rest2).map (fun mr => (charRange c hi ++ mr.1, mr.2))
      | _ => (parseClass fuel rest).map (fun mr => (c :: mr.1, mr.2))

/-- The decimal digits of a repetition count, read up to the closing brace. -/
def parseCount : List Char → Nat → Option (Nat × List Char)
  | [], _ => none
  | c :: rest, acc =>
    if c = '}' then some (acc, rest)
    else if c.isDigit then parseCount rest (10 * acc + (c.toNat - '0'.toNat))
    else none

/-- Whether a character is a repetition operator. -/
def isRepeatOp (c : Char) : Bool :=
  c = '?' ∨ c = '*' ∨ c = '+' ∨ c = '{'

/-- An atom with the repetition operator that follows it, as the list of expressions it adds to
the enclosing sequence: `a?`, `a*`, `a+`, `a{n}` (n copies) or `a` alone.  A second operator
after the first (`a{2}?`) is not modelled. -/
def applyPostfix (a : RegularExpression Char) (rest : List Char) :
    Option (List (RegularExpression Char) × List Char) :=
  let single (rs : List (RegularExpression Char)) (rest2 : List Char) :
      Option (List (RegularExpression Char) × List Char) :=
    match rest2 with
    | c :: _ => if isRepeatOp c then none else some (rs, rest2)
    | [] => some (rs, rest2)
  match rest with
  | '?' :: rest2 => single [optRE a] rest2
  | '*' :: rest2 => single [RegularExpression.star a] rest2
  | '+' :: rest2 => single [a, RegularExpression.star a] rest2
  | '{' :: rest2 =>
    match rest2 with
    | d :: _ =>
      if d.isDigit then
        match parseCount rest2 0 with
        | some (n, rest3) => single (List.replicate n a) rest3
        | none => none
      else none
    | [] => none
  | _ => some ([a], rest)

/-- A sequence of atoms, read up to a closing parenthesis or the end of the input: literal
characters, bracket classes and parenthesised groups, each with an optional repetition
operator.  Alternation, `.`, escapes, negated classes and group flags are not modelled
(`none`). -/
def parseSeq : Nat → List Char → Option (List (RegularExpression Char) × List Char)
  | 0, _ => none
  | _ + 1, [] => some ([], [])
  | fuel + 1, c :: rest =>
    if c = ')' then some ([], c :: rest)
    else
      let atom : Option (List (RegularExpression Char) × List Char) :=
        if c = '(' then
          match parseSeq fuel rest with
          | some (inner, ')' :: rest2) => applyPostfix (seqRE inner) rest2
          | _ => none
        else if c = '[' then
          match rest with
          | '^' :: _ => none
          | ']' :: _ => none
          | _ =>
            match parseClass (rest.length + 1) rest with
            | some (members, rest2) => applyPostfix (classRE members) rest2
            | none => none
        else if c = '|' ∨ c = '*' ∨ c = '+' ∨ c = '?' ∨ c = '{' ∨ c = '}' ∨ c = '^' ∨ c = '$'
            ∨ c = '.' ∨ c = '\\' ∨ c = ']' then none
        else applyPostfix (classRE [c]) rest
      match atom with
      | some (atoms, rest2) =>
        match parseSeq fuel rest2 with
        | some (more, rest3) => some (atoms ++ more, rest3)
        | none => none
      | none => none

/-- The call `regexp.MustCompile(pattern)` for a pattern anchored at both ends (`^...$`), the
only form modelled: the expression the whole text has to match. -/
def regexpCompile (pattern : String) : Option (RegularExpression Char) :=
  match pattern.data with
  | '^' :: body =>
    match body.getLast? with
    | some '$' =>
      match parseSeq (body.length + 1) body.dropLast with
      | some (atoms, []) => some (seqRE atoms)
      | _ => none
    | _ => none
  | _ => none

/-- The call `re.MatchString(s)` on a compiled anchored pattern. -/
def MatchString (re : RegularExpression Char) (s : String) : Bool :=
  re.rmatch s.data

/-! ## Running the generated code -/

/-- What the generated code reads when it runs: the message instance `this`, the enum name
tables and compiled patterns of the package, and the locals the enclosing blocks bind. -/
structure Env where
  /-- The value of `this.F`. -/
  field : String → Value
  /-- The value of `this.GetX()` for a oneof `X`: `none` when no alternative is set, else the
  name of the wrapper type that is set and the value it holds. -/
  oneof : String → Option (String × Value)
  /-- The tables `E_name` of the enums: the symbolic name of a number, if it has one. -/
  enumNames : String → Int → Option String
  /-- The package-level variables `var name = regexp.MustCompile(pattern)`. -/
  regexVars : List (String × String)
  /-- Text of a float under `%v`. -/
  fmtV : ℚ → String
  /-- The Go type name of an expression (used by `%!(EXTRA type=value)` only). -/
  goType : Var → String
  /-- The local `oneOfNester`, inside an `ifOneof` block. -/
  nester : Option Value := none
  /-- The local `item`, inside a loop. -/
  item : Option Value := none
  /-- The value of `this.GetF()` (proto2): the field's value, a default when the field is nil. -/
  getter : String → Value := field

def evalVar (env : Env) : Var → Option Value
  | Var.this f => some (env.field f)
  | Var.nester _ => env.nester
  | Var.item => env.item
  | Var.addr v =>
    match evalVar env v with
    | some (Value.struct repr validate) => some (Value.msg repr validate)
    | r => r
  | Var.getter f => some (env.getter f)
  | Var.deref v =>
    match evalVar env v with
    | some Value.null => none
    | some (Value.msg repr validate) => some (Value.struct repr validate)
    | r => r

mutual
/-- The text `%v` prints for a value. -/
def Value.render (fmtV : ℚ → String) : Value → String
  | Value.int n => toString n
  | Value.float q => fmtV q
  | Value.str s => s
  | Value.bytes b => "[" ++ " ".intercalate (b.map toString) ++ "]"
  | Value.msg repr _ => repr
  | Value.struct repr _ => repr
  | Value.null => "<nil>"
  | Value.list vs => "[" ++ " ".intercalate (Value.renderAll fmtV vs) ++ "]"
def Value.renderAll (fmtV : ℚ → String) : List Value → List String
  | [] => []
  | v :: vs => Value.render fmtV v :: Value.renderAll fmtV vs
end

/-- The operand a run-time value is for `fmt.Sprintf`. -/
def valueOperand (env : Env) (v : Var) (val : Value) : Operand :=
  { text := val.render env.fmtV, extra := env.goType v ++ "=" ++ val.render env.fmtV }

def evalDesc (env : Env) : Desc → Option String
  | Desc.sprintf format v => (evalVar env v).map (fun val => Sprintf format "%v" (valueOperand env v val))
  | Desc.lit s => some s

def cmpInt : CmpOp → Int → Int → Bool
  | CmpOp.gt, a, b => decide (a > b)
  | CmpOp.lt, a, b => decide (a < b)
  | CmpOp.ge, a, b => decide (a ≥ b)
  | CmpOp.le, a, b => decide (a ≤ b)
  | CmpOp.eq, a, b => decide (a = b)

def cmpRat : CmpOp → ℚ → ℚ → Bool
  | CmpOp.gt, a, b => decide (a > b)
  | CmpOp.lt, a, b => decide (a < b)
  | CmpOp.ge, a, b => decide (a ≥ b)
  | CmpOp.le, a, b => decide (a ≤ b)
  | CmpOp.eq, a, b => decide (a = b)

def Shift.apply : Shift → ℚ → ℚ
  | Shift.none, x => x
  | Shift.plus e, x => x + e
  | Shift.minus e, x => x - e

/-- Go's `len` of a string, byte slice or slice. -/
def goLen : Value → Option Int
  | Value.str s => some (s.utf8ByteSize : Int)
  | Value.bytes b => some (b.length : Int)
  | Value.list vs => some (vs.length : Int)
  | _ => none

/-- Go's `unicode.IsSpace`. -/
def isSpace (c : Char) : Bool :=
  let n := c.toNat
  (9 ≤ n ∧ n ≤ 13) ∨ n = 32 ∨ n = 0x85 ∨ n = 0xA0 ∨ n = 0x1680 ∨ (0x2000 ≤ n ∧ n ≤ 0x200A)
    ∨ n = 0x2028 ∨ n = 0x2029 ∨ n = 0x202F ∨ n = 0x205F ∨ n = 0x3000

/-- Go's `strings.TrimSpace`. -/
def TrimSpace (s : String) : String :=
  String.mk ((s.data.dropWhile isSpace).reverse.dropWhile isSpace).reverse

/-- Go's `strings.Split(s, ".")`, on the characters of `s`. -/
def splitDot : List Char → List (List Char)
  | [] => [[]]
  | c :: cs =>
    match splitDot cs with
    | [] => [[c]]
    | part :: parts => if c = '.' then [] :: part :: parts else (c :: part) :: parts

def isNull : Value → Bool
  | Value.null => true
  | _ => false

def evalCond (env : Env) : Cond → Option Bool
  | Cond.notIntCmp v op n =>
    match evalVar env v with
    | some (Value.int x) => some (!cmpInt op x n)
    | _ => none
  | Cond.notLenCmp v op n =>
    match (evalVar env v).bind goLen with
    | some l => some (!cmpInt op l n)
    | none => none
  | Cond.notFloatCmp v shift op a =>
    match evalVar env v with
    | some (Value.float x) => some (!cmpRat op (shift.apply x) a)
    | some (Value.int x) => some (!cmpRat op (shift.apply (x : ℚ)) a)
    | _ => none
  | Cond.notInEnum enumName v =>
    match evalVar env v with
    | some (Value.int x) => some (env.enumNames enumName x).isNone
    | _ => none
  | Cond.notRegexMatch regexVar v =>
    match evalVar env v, (env.regexVars.lookup regexVar).bind regexpCompile with
    | some (Value.str s), some re => some (!MatchString re s)
    | _, _ => none
  | Cond.strEmpty v =>
    match evalVar env v with
    | some (Value.str s) => some (decide (s = ""))
    | _ => none
  | Cond.trimmedEmpty v =>
    match evalVar env v with
    | some (Value.str s) => some (decide (TrimSpace s = ""))
    | _ => none
  | Cond.lenLt v n =>
    match (evalVar env v).bind goLen with
    | some l => some (decide (l < n))
    | none => none
  | Cond.lenGt v n =>
    match (evalVar env v).bind goLen with
    | some l => some (decide (l > n))
    | none => none
  | Cond.isNil v => (evalVar env v).map isNull
  | Cond.bothNil v other => (evalVar env v).map (fun val => isNull val && isNull (env.field other))
  | Cond.notNil v => (evalVar env v).map (fun val => !isNull val)

/-- The violations of two consecutive runs, `none` when one of them fails. -/
def appendOpt {β : Type} : Option (List β) → Option (List β) → Option (List β)
  | some x, some y => some (x ++ y)
  | _, _ => none

/-- Run `f` on every element and concatenate the results; `none` when one run fails. -/
def collect {α β : Type} (f : α → Option (List β)) : List α → Option (List β)
  | [] => some []
  | a :: rest => appendOpt (f a) (collect f rest)

/-- The check `len(slice) > 1 && !(len(slice[1]) <= n)` on the parts of the rendered number. -/
def decimalPlacesExceeded (text : String) (n : Int) : Bool :=
  match splitDot text.data with
  | _ :: frac :: _ => !decide (((String.mk frac).utf8ByteSize : Int) ≤ n)
  | _ => false

/-- The violation the child-call block appends for a violation `fv` of the child. -/
def reparent (fieldName : String) (fv : Violation) : Violation :=
  { Field := fieldName ++ "." ++ fv.Field, Description := fv.Description }

mutual
/-- The violations a statement appends to `fieldsViolations`; `none` when the statement cannot
be run (an expression of the wrong type, an undeclared or unmodelled pattern). -/
def exec (env : Env) : Stmt → Option (List Violation)
  | Stmt.ifThen c body =>
    match evalCond env c with
    | some true => execList env body
    | some false => some []
    | none => none
  | Stmt.forRange v body =>
    match evalVar env v with
    | some (Value.list vs) => collect (fun it => execList { env with item := some it } body) vs
    | _ => none
  | Stmt.ifOneof oneOfName oneOfType body =>
    match env.oneof oneOfName with
    | some (ty, payload) =>
      if ty = oneOfType then execList { env with nester := some payload } body else some []
    | none => some []
  | Stmt.ifOneofNil oneOfName body =>
    match env.oneof oneOfName with
    | none => execList env body
    | some _ => some []
  | Stmt.appendViolation field desc =>
    (evalDesc env desc).map (fun d => [{ Field := field, Description := d }])
  | Stmt.callChild v fieldName =>
    match evalVar env v with
    | some (Value.msg _ child) => some (child.map (reparent fieldName))
    | some (Value.struct _ _) => some []
    | _ => none
  | Stmt.callChildFlat v =>
    match evalVar env v with
    | some (Value.msg _ child) => some child
    | some (Value.struct _ _) => some []
    | _ => none
  | Stmt.decimalPlaces _ v n body =>
    match evalVar env v with
    | some (Value.float q) =>
      if decimalPlacesExceeded (env.fmtV q) n then execList env body else some []
    | _ => none
  | Stmt.comment _ => some []
/-- The violations a block appends, in order. -/
def execList (env : Env) : List Stmt → Option (List Violation)
  | [] => some []
  | s :: rest => appendOpt (exec env s) (execList env rest)
end

/-! ## The generator (`plugin.go`) -/

/-- Go's `unicode.ToLower`, as far as the locale names need it: an ASCII capital becomes its
small letter, and so do the two other characters whose lower case is an ASCII letter (U+0130,
whose lower case is `i`, and U+212A, whose lower case is `k`); every other character is kept.
(The lower case of any other character is not an ASCII character, so keeping it does not change
whether the result is a locale name.) -/
def toLowerRune (c : Char) : Char :=
  if 'A'.toNat ≤ c.toNat ∧ c.toNat ≤ 'Z'.toNat then Char.ofNat (c.toNat + 32)
  else if c.toNat = 0x130 then 'i'
  else if c.toNat = 0x212A then 'k'
  else c

/-- Go's `strings.ToLower`. -/
def ToLower (s : String) : String :=
  String.mk (s.data.map toLowerRune)

/-- The function `SetLanguage`: the value it stores into the package variable `lang`. -/
def SetLanguage (langParam : String) : String :=
  if ToLower langParam = LangPtBr then LangPtBr
  else if ToLower langParam = LangDefault then LangDefault
  else LangDefault

/-- The function `generateErrorString`: the violation of a failed check, described by the
locale's stem and the specific message, or by `human_error` when that is set. -/
def generateErrorString (lang : String) (variableName : Var) (fieldName specificError : String)
    (fv : FieldValidator) : List Stmt :=
  if fv.GetHumanError = "" then
    [Stmt.appendViolation fieldName (Desc.sprintf (mapIndex errorString lang ++ specificError) variableName)]
  else
    [Stmt.appendViolation fieldName (Desc.lit fv.GetHumanError)]

/-- The function `generateErrorStringEmpty`: as `generateErrorString`, without the stem. -/
def generateErrorStringEmpty (_lang : String) (_variableName : Var) (fieldName specificError : String)
    (fv : FieldValidator) : List Stmt :=
  if fv.GetHumanError = "" then
    [Stmt.appendViolation fieldName (Desc.lit specificError)]
  else
    [Stmt.appendViolation fieldName (Desc.lit fv.GetHumanError)]

/-- The function `generateIntValidator`. -/
def generateIntValidator (lang : String) (variableName : Var) (_ccTypeName fieldName : String)
    (fv : FieldValidator) : List Stmt :=
  (match fv.IntGt with
    | some n =>
      [Stmt.ifThen (Cond.notIntCmp variableName CmpOp.gt n)
        (generateErrorString lang variableName fieldName
          (Sprintf (mapIndex errorIntGt lang) "%d" (int64Operand fv.GetIntGt)) fv)]
    | none => [])
  ++ (match fv.IntLt with
    | some n =>
      [Stmt.ifThen (Cond.notIntCmp variableName CmpOp.lt n)
        (generateErrorString lang variableName fieldName
          (Sprintf (mapIndex errorIntLt lang) "%d" (int64Operand fv.GetIntLt)) fv)]
    | none => [])
  ++ (match fv.IntGte with
    | some n =>
      [Stmt.ifThen (Cond.notIntCmp variableName CmpOp.ge n)
        (generateErrorString lang variableName fieldName
          (Sprintf (mapIndex errorIntGte lang) "%d" (int64Operand fv.GetIntGte)) fv)]
    | none => [])
  ++ (match fv.IntLte with
    | some n =>
      [Stmt.ifThen (Cond.notIntCmp variableName CmpOp.le n)
        (generateErrorString lang variableName fieldName
          (Sprintf (mapIndex errorIntLte lang) "%d" (int64Operand fv.GetIntLte)) fv)]
    | none => [])

/-- The function `generateLengthValidator`. -/
def generateLengthValidator (lang : String) (variableName : Var) (_ccTypeName fieldName : String)
    (fv : FieldValidator) : List Stmt :=
  (match fv.LengthGt with
    | some n =>
      [Stmt.ifThen (Cond.notLenCmp variableName CmpOp.gt n)
        (generateErrorString lang variableName fieldName
          (Sprintf (mapIndex errorLengthGt lang) "%d" (int64Operand fv.GetLengthGt)) fv)]
    | none => [])
  ++ (match fv.LengthLt with
    | some n =>
      [Stmt.ifThen (Cond.notLenCmp variableName CmpOp.lt n)
        (generateErrorString lang variableName fieldName
          (Sprintf (mapIndex errorLengthLt lang) "%d" (int64Operand fv.GetLengthLt)) fv)]
    | none => [])
  ++ (match fv.LengthEq with
    | some n =>
      [Stmt.ifThen (Cond.notLenCmp variableName CmpOp.eq n)
        (generateErrorString lang variableName fieldName
          (Sprintf (mapIndex errorLengthEq lang) "%d" (int64Operand fv.GetLengthEq)) fv)]
    | none => [])

/-- The text of `fmt.Sprintf("%02d", index)`. -/
def pad02 (index : Nat) : String :=
  if index < 10 then "0" ++ toString index else toString index

/-- The flag `upperIsStrict` as `generateFloatValidator` resolves it. -/
def upperIsStrict (fv : FieldValidator) : Bool :=
  if fv.FloatLt.isSome ∧ fv.FloatLte.isSome then
    let strictLimit := if fv.FloatEpsilon.isSome then fv.GetFloatLt + fv.GetFloatEpsilon else fv.GetFloatLt
    if fv.GetFloatLte < strictLimit then false else true
  else if fv.FloatLte.isSome then false
  else true

/-- The flag `lowerIsStrict` as `generateFloatValidator` resolves it. -/
def lowerIsStrict (fv : FieldValidator) : Bool :=
  if fv.FloatGt.isSome ∧ fv.FloatGte.isSome then
    let strictLimit := if fv.FloatEpsilon.isSome then fv.GetFloatGt - fv.GetFloatEpsilon else fv.GetFloatGt
    if fv.GetFloatGte > strictLimit then false else true
  else if fv.FloatGte.isSome then false
  else true

/-- The lower check of `generateFloatValidator` (the block under `FloatGt != nil || FloatGte != nil`). -/
def generateFloatLower (lang : String) (ff : FloatFmt) (variableName : Var) (fieldName : String)
    (fv : FieldValidator) : List Stmt :=
  if fv.FloatGt.isSome ∨ fv.FloatGte.isSome then
    if lowerIsStrict fv then
      match fv.FloatEpsilon with
      | some e =>
        [Stmt.ifThen (Cond.notFloatCmp variableName (Shift.plus e) CmpOp.gt fv.GetFloatGt)
          (generateErrorString lang variableName fieldName
            (Sprintf (mapIndex errorFloatGt lang) "%.2f" (float64Operand ff fv.GetFloatGt)
              ++ Sprintf (mapIndex errorFloatGtEpsilon lang) "%.2f" (float64Operand ff fv.GetFloatEpsilon)) fv)]
      | none =>
        [Stmt.ifThen (Cond.notFloatCmp variableName Shift.none CmpOp.gt fv.GetFloatGt)
          (generateErrorString lang variableName fieldName
            (Sprintf (mapIndex errorFloatGt lang) "%.2f" (float64Operand ff fv.GetFloatGt)) fv)]
    else
      [Stmt.ifThen (Cond.notFloatCmp variableName Shift.none CmpOp.ge fv.GetFloatGte)
        (generateErrorString lang variableName fieldName
          (Sprintf (mapIndex errorFloatGte lang) "%.2f" (float64Operand ff fv.GetFloatGte)) fv)]
  else []

/-- The upper check of `generateFloatValidator` (the block under `FloatLt != nil || FloatLte != nil`). -/
def generateFloatUpper (lang : String) (ff : FloatFmt) (variableName : Var) (fieldName : String)
    (fv : FieldValidator) : List Stmt :=
  if fv.FloatLt.isSome ∨ fv.FloatLte.isSome then
    if upperIsStrict fv then
      match fv.FloatEpsilon with
      | some e =>
        [Stmt.ifThen (Cond.notFloatCmp variableName (Shift.minus e) CmpOp.lt fv.GetFloatLt)
          (generateErrorString lang variableName fieldName
            (Sprintf (mapIndex errorFloatLt lang) "%.2f" (float64Operand ff fv.GetFloatLt)
              ++ Sprintf (mapIndex errorFloatLtEpsilon lang) "%.2f" (float64Operand ff fv.GetFloatEpsilon)) fv)]
      | none =>
        [Stmt.ifThen (Cond.notFloatCmp variableName Shift.none CmpOp.lt fv.GetFloatLt)
          (generateErrorString lang variableName fieldName
            (Sprintf (mapIndex errorFloatLt lang) "%.2f" (float64Operand ff fv.GetFloatLt)) fv)]
    else
      [Stmt.ifThen (Cond.notFloatCmp variableName Shift.none CmpOp.le fv.GetFloatLte)
        (generateErrorString lang variableName fieldName
          (Sprintf (mapIndex errorFloatLte lang) "%.2f" (float64Operand ff fv.GetFloatLte)) fv)]
  else []

/-- The decimal-places check of `generateFloatValidator`.  The table `errorDecimalPlacesLte` is
not declared in `error_messages.go`; it is a parameter. -/
def generateDecimalPlaces (lang : String) (errorDecimalPlacesLte : List (String × String))
    (variableName : Var) (fieldName : String) (fv : FieldValidator) (index : Nat) : List Stmt :=
  match fv.DecimalPlacesLte with
  | some n =>
    [Stmt.decimalPlaces (fieldName ++ "_" ++ pad02 index) variableName n
      (generateErrorString lang variableName fieldName
        (Sprintf (mapIndex errorDecimalPlacesLte lang) "%d" (int64Operand fv.GetDecimalPlacesLte)) fv)]
  | none => []

/-- The function `generateFloatValidator`: the lower check, the upper check, the decimal-places
check, in the order the source emits them.  (The warnings it prints are not part of the
output.) -/
def generateFloatValidator (lang : String) (ff : FloatFmt)
    (errorDecimalPlacesLte : List (String × String)) (variableName : Var)
    (_ccTypeName fieldName : String) (fv : FieldValidator) (index : Nat) : List Stmt :=
  generateFloatLower lang ff variableName fieldName fv
    ++ generateFloatUpper lang ff variableName fieldName fv
    ++ generateDecimalPlaces lang errorDecimalPlacesLte variableName fieldName fv index

def uuidPattern : String :=
  "^([a-fA-F0-9]{8}-" ++
  "[a-fA-F0-9]{4}-" ++
  "[%s][a-fA-F0-9]{3}-" ++
  "[8|9|aA|bB][a-fA-F0-9]{3}-" ++
  "[a-fA-F0-9]{12})?$"

/-- An `int32` operand. -/
def int32Operand (n : Int) : Operand :=
  { text := toString n, extra := "int32=" ++ toString n }

/-- Go's `strconv.Itoa`. -/
def Itoa (n : Int) : String := toString n

/-- The function `getUUIDRegex`: the pattern for a UUID version, or the error of `fmt.Errorf`. -/
def getUUIDRegex (version : Option Int) : Except String String :=
  match version with
  | none => Except.ok ""
  | some v =>
    if v < 0 ∨ v > 5 then
      Except.error (Sprintf "UUID version should be between 0-5, Got %d" "%d" (int32Operand v))
    else if v = 0 then
      Except.ok (Sprintf uuidPattern "%s" (stringOperand "1-5"))
    else
      Except.ok (Sprintf uuidPattern "%s" (stringOperand (Itoa v)))

/-- The function `regexName`. -/
def regexName (ccTypeName fieldName : String) (index : Nat) : String :=
  "_regex_" ++ ccTypeName ++ "_" ++ fieldName ++ "_" ++ pad02 index

/-- One character inside Go's `strconv.Quote`, for the escapes of printable text (double quote,
backslash and the control characters with a short escape); other characters are kept. -/
def quoteChar (c : Char) : List Char :=
  if c = '"' then ['\\', '"']
  else if c = '\\' then ['\\', '\\']
  else if c = '\n' then ['\\', 'n']
  else if c = '\r' then ['\\', 'r']
  else if c = '\t' then ['\\', 't']
  else [c]

/-- Go's `strconv.Quote`. -/
def Quote (s : String) : String :=
  String.mk ('"' :: (s.data.flatMap quoteChar ++ ['"']))

/-- The function `generateStringValidator`.  The source stores the synthesized UUID pattern into
`fv.Regex`; the validator as it is left behind is the second component. -/
def generateStringValidator (lang : String) (variableName : Var) (ccTypeName fieldName : String)
    (fv : FieldValidator) (index : Nat) : List Stmt × FieldValidator :=
  let fv1 : FieldValidator :=
    if fv.Regex.isSome ∨ fv.UuidVer.isSome then
      if fv.UuidVer.isSome then
        match getUUIDRegex fv.UuidVer with
        | Except.error _ => fv
        | Except.ok uuid => { fv with Regex := some uuid }
      else fv
    else fv
  ((if fv.Regex.isSome ∨ fv.UuidVer.isSome then
      [Stmt.ifThen (Cond.notRegexMatch (regexName ccTypeName fieldName index) variableName)
        (generateErrorString lang variableName fieldName
          (mapIndex errorRegex lang ++ Quote fv1.GetRegex) fv1)]
    else [])
  ++ (if fv1.StringNotEmpty.isSome ∧ fv1.GetStringNotEmpty then
      [Stmt.ifThen (Cond.strEmpty variableName)
        (generateErrorStringEmpty lang variableName fieldName (mapIndex errorStringNotEmpty lang) fv1)]
    else [])
  ++ (if fv1.TrimmedStringNotEmpty.isSome ∧ fv1.GetTrimmedStringNotEmpty then
      [Stmt.ifThen (Cond.trimmedEmpty variableName)
        (generateErrorStringEmpty lang variableName fieldName
          (mapIndex errorTrimmedStringNotEmpty lang) fv1)]
    else [])
  ++ generateLengthValidator lang variableName ccTypeName fieldName fv1, fv1)

/-- The two checks `generateRepeatedCountValidator` emits for one validator. -/
def generateRepeatedCount (lang : String) (variableName : Var) (fieldName : String)
    (fv : FieldValidator) : List Stmt :=
  (match fv.RepeatedCountMin with
    | some _ =>
      [Stmt.ifThen (Cond.lenLt variableName fv.GetRepeatedCountMin)
        (generateErrorString lang variableName fieldName
          (Sprintf (mapIndex errorRepeatedCountMin lang) "%v" (int64Operand fv.GetRepeatedCountMin)) fv)]
    | none => [])
  ++ (match fv.RepeatedCountMax with
    | some _ =>
      [Stmt.ifThen (Cond.lenGt variableName fv.GetRepeatedCountMax)
        (generateErrorString lang variableName fieldName
          (Sprintf (mapIndex errorRepeatedCountMax lang) "%v" (int64Operand fv.GetRepeatedCountMax)) fv)]
    | none => [])

/-- The function `generateRepeatedCountValidator`. -/
def generateRepeatedCountValidator (lang : String) (variableName : Var)
    (_ccTypeName fieldName : String) (validators : List FieldValidator) : List Stmt :=
  validators.flatMap (generateRepeatedCount lang variableName fieldName)

/-! ### Descriptors -/

/-- The enum `descriptor.FieldDescriptorProto_Type`. -/
inductive FieldType where
  | TYPE_DOUBLE | TYPE_FLOAT | TYPE_INT64 | TYPE_UINT64 | TYPE_INT32 | TYPE_FIXED64
  | TYPE_FIXED32 | TYPE_BOOL | TYPE_STRING | TYPE_GROUP | TYPE_MESSAGE | TYPE_BYTES
  | TYPE_UINT32 | TYPE_ENUM | TYPE_SFIXED32 | TYPE_SFIXED64 | TYPE_SINT32 | TYPE_SINT64
  deriving DecidableEq, Repr

/-- A field of a message: what the plugin reads from `descriptor.FieldDescriptorProto`, and the
values the generator library computes for the field (names, looked-up types). -/
structure FieldDescriptor where
  Name : String
  /-- The field `Type` of the descriptor. -/
  Typ : FieldType
  /-- Whether the label is `LABEL_REPEATED`. -/
  Repeated : Bool := false
  OneofIndex : Option Nat := none
  /-- The extension `validator.E_Field` of the field's options (empty when absent). -/
  validators : List FieldValidator := []
  /-- The result of `gogoproto.IsNullable(field)`. -/
  nullable : Bool := true
  /-- The result of `gogoproto.IsEmbed(field)`. -/
  embed : Bool := false
  /-- Whether the message type the field names has the option `map_entry`. -/
  typeIsMapEntry : Bool := false
  /-- The result of `p.Generator.GetFieldName(message, field)`. -/
  genFieldName : String
  /-- The result of `p.Generator.GetOneOfFieldName(message, field)`. -/
  genOneOfFieldName : String
  /-- The result of `generator.CamelCase(*field.Name)`. -/
  camelName : String
  /-- The result of `p.OneOfTypeName(message, field)`. -/
  oneOfTypeName : String := ""
  /-- For an enum field, the Go name of its enum type (`strings.Join(enum.TypeName(), "_")`). -/
  enumTypeName : String := ""
  deriving DecidableEq

/-- A oneof declaration (`descriptor.OneofDescriptorProto`). -/
structure OneofDescriptor where
  Name : String
  /-- The result of `generator.CamelCase(oneof.GetName())`. -/
  camelName : String
  /-- The extension `validator.E_Oneof` of the oneof's options. -/
  validator : Option OneofValidator := none
  deriving DecidableEq

/-- A message (`generator.Descriptor`). -/
structure Descriptor where
  /-- The result of `generator.CamelCaseSlice(message.TypeName())`. -/
  ccTypeName : String
  Field : List FieldDescriptor := []
  OneofDecl : List OneofDescriptor := []
  /-- The option `map_entry` of the message. -/
  mapEntry : Bool := false
  deriving DecidableEq

/-- What the plugin reads of the file (`generator.FileDescriptor`) beside its messages. -/
structure FileDescriptor where
  /-- The result of `gogoproto.IsProto3`. -/
  proto3 : Bool := true
  /-- The result of `gogoproto.ImportsGoGoProto`. -/
  importsGoGoProto : Bool := false
  deriving DecidableEq

/-- The settings a generation run reads: the plugin's `useGogoImport`, the package variable
`lang`, and the two things the sources leave open (float rendering, the table
`errorDecimalPlacesLte`). -/
structure Plugin where
  useGogoImport : Bool := false
  lang : String
  ff : FloatFmt
  errorDecimalPlacesLte : List (String × String) := []

def FieldDescriptor.IsMessage (field : FieldDescriptor) : Bool :=
  field.Typ = FieldType.TYPE_MESSAGE

def FieldDescriptor.IsString (field : FieldDescriptor) : Bool :=
  field.Typ = FieldType.TYPE_STRING

def FieldDescriptor.IsEnum (field : FieldDescriptor) : Bool :=
  field.Typ = FieldType.TYPE_ENUM

def FieldDescriptor.IsBytes (field : FieldDescriptor) : Bool :=
  field.Typ = FieldType.TYPE_BYTES

def FieldDescriptor.IsRepeated (field : FieldDescriptor) : Bool :=
  field.Repeated

def getFieldValidatorIfAny (field : FieldDescriptor) : List FieldValidator :=
  field.validators

def getOneofValidatorIfAny (oneof : OneofDescriptor) : Option OneofValidator :=
  oneof.validator

def isSupportedInt (field : FieldDescriptor) : Bool :=
  match field.Typ with
  | FieldType.TYPE_INT32 | FieldType.TYPE_INT64 => true
  | FieldType.TYPE_UINT32 | FieldType.TYPE_UINT64 => true
  | FieldType.TYPE_SINT32 | FieldType.TYPE_SINT64 => true
  | _ => false

def isSupportedFloat (field : FieldDescriptor) : Bool :=
  match field.Typ with
  | FieldType.TYPE_FLOAT | FieldType.TYPE_DOUBLE => true
  | FieldType.TYPE_FIXED32 | FieldType.TYPE_FIXED64 => true
  | FieldType.TYPE_SFIXED32 | FieldType.TYPE_SFIXED64 => true
  | _ => false

/-- The method `p.GetFieldName`. -/
def Plugin.GetFieldName (p : Plugin) (field : FieldDescriptor) : String :=
  if p.useGogoImport then field.genFieldName
  else if field.embed then field.camelName
  else field.genFieldName

/-- The method `p.GetOneOfFieldName`. -/
def Plugin.GetOneOfFieldName (p : Plugin) (field : FieldDescriptor) : String :=
  if p.useGogoImport then field.genOneOfFieldName
  else if field.embed then field.camelName
  else field.genOneOfFieldName

/-- The function `fieldIsProto3Map`. -/
def fieldIsProto3Map (field : FieldDescriptor) : Bool :=
  if field.Typ ≠ FieldType.TYPE_MESSAGE ∨ ¬ field.IsRepeated then false
  else field.typeIsMapEntry

/-- The function `validatorWithMessageExists`. -/
def validatorWithMessageExists (validators : List FieldValidator) : Bool :=
  validators.any (fun fv => fv.MsgExists = some true)

/-- Whether some pointer field of the struct other than `RepeatedCountMin` and
`RepeatedCountMax` is non-nil (the reflection loop of `validatorWithNonRepeatedConstraint`, on
one validator). -/
def hasNonRepeatedConstraint (fv : FieldValidator) : Bool :=
  fv.Regex.isSome || fv.IntGt.isSome || fv.IntLt.isSome || fv.MsgExists.isSome
    || fv.HumanError.isSome || fv.FloatGt.isSome || fv.FloatLt.isSome || fv.FloatEpsilon.isSome
    || fv.FloatGte.isSome || fv.FloatLte.isSome || fv.StringNotEmpty.isSome
    || fv.LengthGt.isSome || fv.LengthLt.isSome || fv.LengthEq.isSome || fv.IsInEnum.isSome
    || fv.UuidVer.isSome || fv.TrimmedStringNotEmpty.isSome || fv.IntGte.isSome
    || fv.IntLte.isSome || fv.MsgExistsIfAnotherNot.isSome || fv.DecimalPlacesLte.isSome

/-- The function `validatorWithNonRepeatedConstraint`. -/
def validatorWithNonRepeatedConstraint (validators : List FieldValidator) : Bool :=
  validators.any hasNonRepeatedConstraint

/-- The function `fieldValidatorExists`. -/
def fieldValidatorExists (message : Descriptor) : Bool :=
  message.OneofDecl.any (fun oneof => (getOneofValidatorIfAny oneof).isSome)
    || message.Field.any (fun field => !(getFieldValidatorIfAny field).isEmpty || field.IsMessage)

/-- The function `generateEnumValidator`. -/
def generateEnumValidator (lang : String) (field : FieldDescriptor) (variableName : Var)
    (_ccTypeName fieldName : String) (fv : FieldValidator) : List Stmt :=
  if fv.GetIsInEnum then
    [Stmt.ifThen (Cond.notInEnum field.enumTypeName variableName)
      (generateErrorString lang variableName fieldName
        (Sprintf (mapIndex errorIsInEnum lang) "%s" (stringOperand field.enumTypeName)) fv)]
  else []

/-! ### Pattern variables -/

/-- The body of the inner loop of `generateRegexVars` for the validator at position `i`: the
declarations `var name = regexp.MustCompile(pattern)` it emits, as pairs of name and pattern,
and the validator as it is left behind (the source stores the UUID pattern into
`validator.Regex`). -/
def generateRegexVar (ccTypeName fieldName : String) (i : Nat) (validator : FieldValidator) :
    List (String × String) × FieldValidator :=
  if validator.Regex.isSome ∧ validator.UuidVer.isSome then ([], validator)
  else if validator.UuidVer.isSome then
    match getUUIDRegex validator.UuidVer with
    | Except.error _ => ([], validator)
    | Except.ok uuid =>
      ([(regexName ccTypeName fieldName i, uuid)], { validator with Regex := some uuid })
  else
    match validator.Regex with
    | some regex => ([(regexName ccTypeName fieldName i, regex)], validator)
    | none => ([], validator)

/-- The inner loop of `generateRegexVars` (`for i, validator := range validators`), from
position `i` on. -/
def generateRegexVarsFrom (ccTypeName fieldName : String) :
    Nat → List FieldValidator → List (String × String) × List FieldValidator
  | _, [] => ([], [])
  | i, validator :: rest =>
    let here := generateRegexVar ccTypeName fieldName i validator
    let there := generateRegexVarsFrom ccTypeName fieldName (i + 1) rest
    (here.1 ++ there.1, here.2 :: there.2)

/-- The outer loop of `generateRegexVars` over the fields. -/
def generateRegexVarsFields (p : Plugin) (ccTypeName : String) :
    List FieldDescriptor → List (String × String) × List FieldDescriptor
  | [] => ([], [])
  | field :: rest =>
    let here := generateRegexVarsFrom ccTypeName (p.GetOneOfFieldName field) 0
      (getFieldValidatorIfAny field)
    let there := generateRegexVarsFields p ccTypeName rest
    (here.1 ++ there.1, { field with validators := here.2 } :: there.2)

/-- The function `generateRegexVars`: the pattern variables of a message, and the message as the
function leaves it. -/
def generateRegexVars (p : Plugin) (message : Descriptor) :
    List (String × String) × Descriptor :=
  let r := generateRegexVarsFields p message.ccTypeName message.Field
  (r.1, { message with Field := r.2 })

/-! ### Messages (proto3) -/

/-- The loop `for i, validator := range validators` of `generateProto3Message` (the same loop
stands in `generateProto2Message`) that dispatches on the field's type, from position `i` on:
the checks, and the validators as they are left behind. -/
def generateValidatorsFrom (p : Plugin) (field : FieldDescriptor) (variableName : Var)
    (ccTypeName fieldName : String) : Nat → List FieldValidator → List Stmt × List FieldValidator
  | _, [] => ([], [])
  | i, validator :: rest =>
    let here : List Stmt × FieldValidator :=
      if field.IsString then
        generateStringValidator p.lang variableName ccTypeName fieldName validator i
      else if isSupportedInt field then
        (generateIntValidator p.lang variableName ccTypeName fieldName validator, validator)
      else if field.IsEnum then
        (generateEnumValidator p.lang field variableName ccTypeName fieldName validator, validator)
      else if isSupportedFloat field then
        (generateFloatValidator p.lang p.ff p.errorDecimalPlacesLte variableName ccTypeName
          fieldName validator i, validator)
      else if field.IsBytes then
        (generateLengthValidator p.lang variableName ccTypeName fieldName validator, validator)
      else ([], validator)
    let there := generateValidatorsFrom p field variableName ccTypeName fieldName (i + 1) rest
    (here.1 ++ there.1, here.2 :: there.2)

/-- The presence checks of a message field for one validator (`msg_exists`,
`msg_exists_if_another_empty`); on a repeated or non-nullable field the source only warns. -/
def generateMessagePresence (lang : String) (variableName : Var) (fieldName : String)
    (nullable repeated : Bool) (validator : FieldValidator) : List Stmt :=
  (if validator.MsgExists = some true then
      if nullable ∧ ¬ repeated then
        [Stmt.ifThen (Cond.isNil variableName)
          (generateErrorStringEmpty lang variableName fieldName (mapIndex errorMsgExists lang) validator)]
      else []
    else [])
  ++ (match validator.MsgExistsIfAnotherNot with
    | some anotherFiledName =>
      if anotherFiledName ≠ "" ∧ nullable ∧ ¬ repeated then
        [Stmt.ifThen (Cond.bothNil variableName anotherFiledName)
          (generateErrorStringEmpty lang variableName fieldName
            (Sprintf (mapIndex errorMsgExistsIfAnotherNot lang) "%s" (stringOperand anotherFiledName))
            validator)]
      else []
    | none => [])

/-- The call of the child's validation with the re-parenting loop, guarded by `!= nil` for a
nullable field and on `&(v)` otherwise. -/
def generateChildCall (variableName : Var) (fieldName : String) (nullable : Bool) : List Stmt :=
  if nullable then
    [Stmt.ifThen (Cond.notNil variableName) [Stmt.callChild variableName fieldName]]
  else
    [Stmt.callChild (Var.addr variableName) fieldName]

/-- The body of the loop over `message.Field` in `generateProto3Message`: the code for one
field, and the field as it is left behind.  The loop over a repeated field is opened and closed
under the same condition (`validatorWithNonRepeatedConstraint` does not change when the string
validator stores a UUID pattern, since then `UuidVer` is set already). -/
def generateProto3Field (p : Plugin) (file : FileDescriptor) (ccTypeName : String)
    (field : FieldDescriptor) : List Stmt × FieldDescriptor :=
  let validators := getFieldValidatorIfAny field
  if validators.length = 0 ∧ ¬ field.IsMessage then ([], field)
  else
    let isOneOf := field.OneofIndex.isSome
    let fieldName := p.GetOneOfFieldName field
    let repeated := field.IsRepeated
    let nullable := (field.nullable || !file.importsGoGoProto) && field.IsMessage
      && !(p.useGogoImport && field.embed)
    if fieldIsProto3Map field then
      ([Stmt.comment "Validation of proto3 map<> fields is unsupported."], field)
    else
      let outerName : Var := if isOneOf then Var.nester (p.GetOneOfFieldName field) else Var.this fieldName
      let loop : Bool := repeated && (field.IsMessage || validatorWithNonRepeatedConstraint validators)
      let countChecks : List Stmt :=
        if repeated then generateRepeatedCountValidator p.lang outerName ccTypeName fieldName validators
        else []
      let variableName : Var := if loop then Var.item else outerName
      let checks := generateValidatorsFrom p field variableName ccTypeName fieldName 0 validators
      let messageChecks : List Stmt :=
        if field.IsMessage then
          checks.2.flatMap (generateMessagePresence p.lang variableName fieldName nullable repeated)
            ++ generateChildCall variableName fieldName nullable
        else []
      let inner : List Stmt := checks.1 ++ messageChecks
      let body : List Stmt :=
        countChecks ++ (if loop then [Stmt.forRange outerName inner] else inner)
      (if isOneOf then [Stmt.ifOneof (p.GetFieldName field) field.oneOfTypeName body] else body,
        { field with validators := checks.2 })

/-- The loop over `message.Field` in `generateProto3Message`. -/
def generateProto3Fields (p : Plugin) (file : FileDescriptor) (ccTypeName : String) :
    List FieldDescriptor → List Stmt × List FieldDescriptor
  | [] => ([], [])
  | field :: rest =>
    let here := generateProto3Field p file ccTypeName field
    let there := generateProto3Fields p file ccTypeName rest
    (here.1 ++ there.1, here.2 :: there.2)

/-- The body of the loop over `message.OneofDecl` in `generateProto3Message`. -/
def generateProto3Oneof (lang : String) (oneof : OneofDescriptor) : List Stmt :=
  match getOneofValidatorIfAny oneof with
  | none => []
  | some oneofValidator =>
    if oneofValidator.GetRequired then
      [Stmt.ifOneofNil oneof.camelName
        [Stmt.appendViolation oneof.camelName (Desc.lit (mapIndex errorOneofValidator lang))]]
    else []

/-- A generated method `func (this *T) Validate()`: the statements between
`fieldsViolations := ...{}` and the final `return`, or `none` for the body `return nil`. -/
structure Routine where
  ccTypeName : String
  body : Option (List Stmt)

/-- The function `generateProto3Message`: the `Validate` method of a message, and the message as
the function leaves it. -/
def generateProto3Message (p : Plugin) (file : FileDescriptor) (message : Descriptor) :
    Routine × Descriptor :=
  if fieldValidatorExists message then
    let fields := generateProto3Fields p file message.ccTypeName message.Field
    ({ ccTypeName := message.ccTypeName,
       body := some (message.OneofDecl.flatMap (generateProto3Oneof p.lang) ++ fields.1) },
     { message with Field := fields.2 })
  else
    ({ ccTypeName := message.ccTypeName, body := none }, message)

/-- The result of calling a generated `Validate` method: the violations it returns (the empty
list for `nil`). -/
def Routine.run (r : Routine) (env : Env) : Option (List Violation) :=
  match r.body with
  | none => some []
  | some stmts => execList env stmts

/-! ### Messages (proto2) -/

/-- The body of the loop over `message.Field` in `generateProto2Message`: the code for one
field, and the field as it is left behind. -/
def generateProto2Field (p : Plugin) (file : FileDescriptor) (ccTypeName : String)
    (field : FieldDescriptor) : List Stmt × FieldDescriptor :=
  let fieldName := p.GetFieldName field
  let validators := getFieldValidatorIfAny field
  if validators.length = 0 ∧ ¬ field.IsMessage then ([], field)
  else
    let thisName : Var := Var.this fieldName
    let repeated := field.IsRepeated
    let nullable := field.nullable && !(p.useGogoImport && field.embed)
    let nonpointer := file.importsGoGoProto && !field.nullable
    let loop : Bool := repeated && (field.IsMessage || validatorWithNonRepeatedConstraint validators)
    let countChecks : List Stmt :=
      if repeated then generateRepeatedCountValidator p.lang thisName ccTypeName fieldName validators
      else []
    let variableName : Var :=
      if repeated then (if loop then Var.item else thisName)
      else if nullable then (if field.IsBytes then thisName else Var.deref thisName)
      else if nonpointer then thisName
      else if field.IsMessage then thisName
      else Var.getter fieldName
    let checks := generateValidatorsFrom p field variableName ccTypeName fieldName 0 validators
    let childName : Var := if repeated && nullable then Var.deref Var.item else variableName
    let messageChecks : List Stmt :=
      if field.IsMessage then [Stmt.callChildFlat childName] else []
    let inner : List Stmt := checks.1 ++ messageChecks
    let body : List Stmt :=
      if repeated then countChecks ++ (if loop then [Stmt.forRange thisName inner] else inner)
      else if nullable then [Stmt.ifThen (Cond.notNil thisName) inner]
      else inner
    (body, { field with validators := checks.2 })

/-- The loop over `message.Field` in `generateProto2Message`. -/
def generateProto2Fields (p : Plugin) (file : FileDescriptor) (ccTypeName : String) :
    List FieldDescriptor → List Stmt × List FieldDescriptor
  | [] => ([], [])
  | field :: rest =>
    let here := generateProto2Field p file ccTypeName field
    let there := generateProto2Fields p file ccTypeName rest
    (here.1 ++ there.1, here.2 :: there.2)

/-- The function `generateProto2Message`: the `Validate` method of a message, and the message as
the function leaves it.  (It has no loop over `message.OneofDecl`.) -/
def generateProto2Message (p : Plugin) (file : FileDescriptor) (message : Descriptor) :
    Routine × Descriptor :=
  if fieldValidatorExists message then
    let fields := generateProto2Fields p file message.ccTypeName message.Field
    ({ ccTypeName := message.ccTypeName, body := some fields.1 },
     { message with Field := fields.2 })
  else
    ({ ccTypeName := message.ccTypeName, body := none }, message)

/-! ### The file -/

/-- What `Generate` emits for one message: the pattern variables of `generateRegexVars`, then
the `Validate` method. -/
structure MessageOutput where
  regexVars : List (String × String)
  routine : Routine

/-- The body of the loop over `file.Messages()` in `Generate`: what is emitted for one message
(nothing for a map entry), and the message as it is left behind. -/
def generateMessage (p : Plugin) (file : FileDescriptor) (msg : Descriptor) :
    List MessageOutput × Descriptor :=
  if msg.mapEntry then ([], msg)
  else
    let vars := generateRegexVars p msg
    let r := if file.proto3 then generateProto3Message p file vars.2
      else generateProto2Message p file vars.2
    ([{ regexVars := vars.1, routine := r.1 }], r.2)

/-- The function `Generate`, on the messages `file.Messages()` returns: what is emitted, message
by message, and the messages as they are left behind. -/
def Generate (p : Plugin) (file : FileDescriptor) :
    List Descriptor → List MessageOutput × List Descriptor
  | [] => ([], [])
  | msg :: rest =>
    let here := generateMessage p file msg
    let there := Generate p file rest
    (here.1 ++ there.1, here.2 :: there.2)

/-! ## Statement-side definitions -/

/-- The description a failed check carries when it runs on the value `val`: `human_error` when
that is set, otherwise the locale's stem with the value filled in, followed by the specific
message. -/
def failureDescription (lang : String) (env : Env) (variableName : Var) (val : Value)
    (specificError : String) (fv : FieldValidator) : String :=
  if fv.GetHumanError = "" then
    Sprintf (mapIndex errorString lang ++ specificError) "%v" (valueOperand env variableName val)
  else fv.GetHumanError

/-- Statement side: the violations of one optional bound on a value, evaluated on its own: none
when the bound is not set or holds, the given violation otherwise. -/
def boundViolations {β : Type} (bound : Option β) (holds : β → Bool) (viol : β → Violation) :
    List Violation :=
  match bound with
  | some n => if holds n then [] else [viol n]
  | none => []

/-- The violation of a failed integer bound `n` on the value `v`, with the message of `table`. -/
def intViolation (lang : String) (env : Env) (variableName : Var) (fieldName : String)
    (fv : FieldValidator) (v : Int) (table : List (String × String)) (n : Int) : Violation :=
  { Field := fieldName,
    Description := failureDescription lang env variableName (Value.int v)
      (Sprintf (mapIndex table lang) "%d" (int64Operand n)) fv }

/-- The pattern variable of a UUID constraint at work: `getUUIDRegex` of the version, compiled by
`regexp.MustCompile`, applied with `MatchString`; `none` when there is no pattern. -/
def matchUUID (version : Int) (s : String) : Option Bool :=
  match getUUIDRegex (some version) with
  | Except.ok pattern => (regexpCompile pattern).map (fun re => MatchString re s)
  | Except.error _ => none

/-- Whether a text has one character of each class of a list, in order. -/
def matchesClasses : List (List Char) → List Char → Bool
  | [], [] => true
  | k :: classes, c :: cs => decide (c ∈ k) && matchesClasses classes cs
  | _, _ => false

/-- Statement side: the hexadecimal digits. -/
def hexDigits : List Char := "0123456789abcdefABCDEF".data

/-- Statement side: the shape of a UUID whose version digit is `ver`: groups of 8, 4, 4, 4 and 12
hexadecimal digits joined by `-`, the third group starting with `ver`, the fourth with one of
`8`, `9`, `a`, `b`, `A`, `B`. -/
def uuidShape (ver : Char) : List (List Char) :=
  List.replicate 8 hexDigits ++ [['-']] ++ List.replicate 4 hexDigits ++ [['-']]
    ++ [[ver]] ++ List.replicate 3 hexDigits ++ [['-']]
    ++ [['8', '9', 'a', 'b', 'A', 'B']] ++ List.replicate 3 hexDigits ++ [['-']]
    ++ List.replicate 12 hexDigits

/-- Statement side: a syntactically valid UUID string with version digit `ver`. -/
def isUUIDOfVersion (ver : Char) (s : String) : Bool :=
  matchesClasses (uuidShape ver) s.data

/-- The classes of the compiled UUID pattern, one per character of a UUID, for the members `vc`
of the version class: the bracket classes as `regexpCompile` reads them (the class
`[8|9|aA|bB]` holds the bar as well). -/
def patternClasses (vc : List Char) : List (List Char) :=
  let hex := charRange 'a' 'f' ++ (charRange 'A' 'F' ++ charRange '0' '9')
  List.replicate 8 hex ++ [['-']] ++ List.replicate 4 hex ++ [['-']]
    ++ [vc] ++ List.replicate 3 hex ++ [['-']]
    ++ [['8', '|', '9', '|', 'a', 'A', '|', 'b', 'B']] ++ List.replicate 3 hex ++ [['-']]
    ++ List.replicate 12 hex

/-- The expression `regexpCompile` returns for the UUID pattern with version class `vc`. -/
def compiledUUID (vc : List Char) : RegularExpression Char :=
  seqRE [optRE (seqRE ((patternClasses vc).map classRE))]

/-- The members of the version class of the pattern for a version. -/
def versionClass (version : Int) : List Char :=
  if version = 0 then ['1', '2', '3', '4', '5'] else (toString version).data

/-- Whether every class of the first list is contained in the class at the same position of
the second. -/
def classesSubset : List (List Char) → List (List Char) → Bool
  | [], [] => true
  | k :: ks, l :: ls => k.all (fun c => decide (c ∈ l)) && classesSubset ks ls
  | _, _ => false

/-- Whether at every position the classes of two lists share a character. -/
def classesMeet : List (List Char) → List (List Char) → Bool
  | [], [] => true
  | k :: ks, l :: ls => k.any (fun c => decide (c ∈ l)) && classesMeet ks ls
  | _, _ => false

/-- The digit of a version number. -/
def versionDigit (version : Int) : Char := Char.ofNat (48 + version.toNat)

/-- Statement side: the constraint has an upper check and it is the strict one. -/
def strictUpperActive (fv : FieldValidator) : Bool :=
  (fv.FloatLt.isSome || fv.FloatLte.isSome) && upperIsStrict fv

/-- Statement side: the constraint has a lower check and it is the strict one. -/
def strictLowerActive (fv : FieldValidator) : Bool :=
  (fv.FloatGt.isSome || fv.FloatGte.isSome) && lowerIsStrict fv

/-- The tolerance term of the strict upper check: `- e` when `float_epsilon` is set. -/
def upperShift (fv : FieldValidator) : Shift :=
  match fv.FloatEpsilon with
  | some e => Shift.minus e
  | none => Shift.none

/-- The tolerance term of the strict lower check: `+ e` when `float_epsilon` is set. -/
def lowerShift (fv : FieldValidator) : Shift :=
  match fv.FloatEpsilon with
  | some e => Shift.plus e
  | none => Shift.none

/-- A message instance for examples: every field holds `val`, no oneof is set, no enum has
names, no pattern variable is declared. -/
def sampleEnv (val : Value) : Env :=
  { field := fun _ => val,
    oneof := fun _ => none,
    enumNames := fun _ _ => none,
    regexVars := [],
    fmtV := fun _ => "",
    goType := fun _ => "" }

/-- A float rendering for examples. -/
def sampleFmt : FloatFmt :=
  { f2 := fun _ => "", v := fun _ => "" }

/-- Plugin settings for examples: the default locale. -/
def samplePlugin : Plugin :=
  { lang := LangDefault, ff := sampleFmt }

/-- A string field `id` (Go name `Id`) with the given validators. -/
def idField (validators : List FieldValidator) : FieldDescriptor :=
  { Name := "id", Typ := FieldType.TYPE_STRING, validators := validators,
    genFieldName := "Id", genOneOfFieldName := "Id", camelName := "Id" }

/-- A message `Msg` with the one field `id`. -/
def idMessage (validators : List FieldValidator) : Descriptor :=
  { ccTypeName := "Msg", Field := [idField validators] }

/-- A constraint with both a literal regex and `uuid_ver = 4`. -/
def regexAndUuid : FieldValidator :=
  { Regex := some "^[a-z]+$", UuidVer := some 4 }

/-- A constraint with the invalid `uuid_ver = 6`. -/
def uuidSix : FieldValidator :=
  { UuidVer := some 6 }

/-- A float constraint with `float_lt = 10`, `float_lte = 10.005` and `float_epsilon = 0.01`. -/
def epsilonSample : FieldValidator :=
  { FloatLt := some 10, FloatLte := some (2001 / 200), FloatEpsilon := some (1 / 100) }

/-- A singular `int64` field `age` (Go name `Age`) with the given validators. -/
def ageField (validators : List FieldValidator) : FieldDescriptor :=
  { Name := "age", Typ := FieldType.TYPE_INT64, validators := validators,
    genFieldName := "Age", genOneOfFieldName := "Age", camelName := "Age" }

/-- A singular message field `address` (Go name `Address`). -/
def addressField : FieldDescriptor :=
  { Name := "address", Typ := FieldType.TYPE_MESSAGE,
    genFieldName := "Address", genOneOfFieldName := "Address", camelName := "Address" }

/-- Statement side: the violations of the integer bounds of a validator on one element of a
repeated field, bound by bound. -/
def elementViolations (lang : String) (env : Env) (fieldName : String) (fv : FieldValidator)
    (v : Int) : List Violation :=
  boundViolations fv.IntGt (fun n => decide (v > n))
      (intViolation lang env Var.item fieldName fv v errorIntGt)
    ++ boundViolations fv.IntLt (fun n => decide (v < n))
      (intViolation lang env Var.item fieldName fv v errorIntLt)
    ++ boundViolations fv.IntGte (fun n => decide (v ≥ n))
      (intViolation lang env Var.item fieldName fv v errorIntGte)
    ++ boundViolations fv.IntLte (fun n => decide (v ≤ n))
      (intViolation lang env Var.item fieldName fv v errorIntLte)

/-- The violation of a failed count limit `n` on the elements `vs`, with the message of
`table`. -/
def countViolation (lang : String) (env : Env) (variableName : Var) (fieldName : String)
    (fv : FieldValidator) (vs : List Value) (table : List (String × String)) (n : Int) :
    Violation :=
  { Field := fieldName,
    Description := failureDescription lang env variableName (Value.list vs)
      (Sprintf (mapIndex table lang) "%v" (int64Operand n)) fv }

/-- Statement side: the count violations of one validator on the elements `vs`: the one of
`repeated_count_min` when the count is below it, then the one of `repeated_count_max` when the
count is above it. -/
def countViolations (lang : String) (env : Env) (variableName : Var) (fieldName : String)
    (vs : List Value) (fv : FieldValidator) : List Violation :=
  boundViolations fv.RepeatedCountMin (fun n => !decide ((vs.length : Int) < n))
      (countViolation lang env variableName fieldName fv vs errorRepeatedCountMin)
    ++ boundViolations fv.RepeatedCountMax (fun n => !decide ((vs.length : Int) > n))
      (countViolation lang env variableName fieldName fv vs errorRepeatedCountMax)

mutual
/-- Whether every violation a statement can append carries the field path `name`. -/
def writesOnly (name : String) : Stmt → Bool
  | Stmt.ifThen _ body => writesOnlyList name body
  | Stmt.forRange _ body => writesOnlyList name body
  | Stmt.ifOneof _ _ body => writesOnlyList name body
  | Stmt.ifOneofNil _ body => writesOnlyList name body
  | Stmt.decimalPlaces _ _ _ body => writesOnlyList name body
  | Stmt.appendViolation field _ => decide (field = name)
  | Stmt.callChild _ _ => false
  | Stmt.callChildFlat _ => false
  | Stmt.comment _ => true
/-- Whether every violation a block can append carries the field path `name`. -/
def writesOnlyList (name : String) : List Stmt → Bool
  | [] => true
  | s :: rest => writesOnly name s && writesOnlyList name rest
end

/-- A repeated `fixed32` field `ticks` (Go name `Ticks`) with the given validators. -/
def ticksField (validators : List FieldValidator) : FieldDescriptor :=
  { Name := "ticks", Typ := FieldType.TYPE_FIXED32, Repeated := true, validators := validators,
    genFieldName := "Ticks", genOneOfFieldName := "Ticks", camelName := "Ticks" }

/-- A proto2 file. -/
def proto2File : FileDescriptor := { proto3 := false }

/-- Plugin settings with the gogo import, default locale. -/
def gogoPlugin : Plugin :=
  { useGogoImport := true, lang := LangDefault, ff := sampleFmt }

/-- A proto2 file that imports gogoproto. -/
def gogoProto2File : FileDescriptor := { proto3 := false, importsGoGoProto := true }

/-- The message field `address`, embedded (`gogoproto.embed`). -/
def embeddedAddress : FieldDescriptor :=
  { addressField with embed := true }

/-- A message `Person` with the one message field `address`. -/
def personMessage : Descriptor :=
  { ccTypeName := "Person", Field := [addressField] }

/-- A oneof `choice` (Go name `Choice`) marked required. -/
def requiredChoice : OneofDescriptor :=
  { Name := "choice", camelName := "Choice", validator := some { Required := some true } }

/-- A message `Pick` with the required oneof `choice` and no constrained field. -/
def pickMessage : Descriptor :=
  { ccTypeName := "Pick", OneofDecl := [requiredChoice] }

/-- A constraint with `uuid_ver = 4` alone. -/
def uuidFour : FieldValidator :=
  { UuidVer := some 4 }

/-- A constraint whose pattern holds a percent sign. -/
def percentRegex : FieldValidator :=
  { Regex := some "^[0-9]+%$" }

/-- The enum field `do` of `SomeMsg` in `examples/enum.proto`. -/
def doField : FieldDescriptor :=
  { Name := "do", Typ := FieldType.TYPE_ENUM, validators := [{ IsInEnum := some true }],
    genFieldName := "Do", genOneOfFieldName := "Do", camelName := "Do", enumTypeName := "Action" }

/-- A repeated `int64` field `scores` (Go name `Scores`) with the given validators. -/
def scoresField (validators : List FieldValidator) : FieldDescriptor :=
  { Name := "scores", Typ := FieldType.TYPE_INT64, Repeated := true, validators := validators,
    genFieldName := "Scores", genOneOfFieldName := "Scores", camelName := "Scores" }

/-- The message tables of `error_messages.go`, in the order of the file. -/
def catalogue : List (List (String × String)) :=
  [errorIntGt, errorIntLt, errorIntGte, errorIntLte, errorIsInEnum, errorLengthGt, errorLengthLt,
   errorLengthEq, errorFloatGt, errorFloatGtEpsilon, errorFloatGte, errorFloatLt,
   errorFloatLtEpsilon, errorFloatLte, errorRegex, errorStringNotEmpty,
   errorTrimmedStringNotEmpty, errorRepeatedCountMin, errorRepeatedCountMax, errorMsgExists,
   errorMsgExistsIfAnotherNot, errorString, errorOneofValidator]

/-- Statement side: the spellings of the locale name `pt_br`, character by character. -/
def ptBrSpellings : List (List Char) :=
  [['p', 'P'], ['t', 'T'], ['_'], ['b', 'B'], ['r', 'R']]

/-- Statement side: the presence violations of one validator on a message field that is absent:
the one of `msg_exists = true`, then the one of `msg_exists_if_another_empty` when the field it
names is absent as well; each described by the locale's message alone, or by `human_error`. -/
def presenceViolations (lang : String) (env : Env) (fieldName : String) (fv : FieldValidator) :
    List Violation :=
  (if fv.MsgExists = some true then
      [{ Field := fieldName,
         Description := if fv.GetHumanError = "" then mapIndex errorMsgExists lang
           else fv.GetHumanError }]
    else [])
  ++ (match fv.MsgExistsIfAnotherNot with
    | some another =>
      if another ≠ "" ∧ isNull (env.field another) = true then
        [{ Field := fieldName,
           Description := if fv.GetHumanError = "" then
               Sprintf (mapIndex errorMsgExistsIfAnotherNot lang) "%s" (stringOperand another)
             else fv.GetHumanError }]
      else []
    | none => [])

/-- A validator with `msg_exists` taken out. -/
def dropMsgExists (fv : FieldValidator) : FieldValidator :=
  { fv with MsgExists := none }

/-- A validator with the two count limits taken out. -/
def dropCounts (fv : FieldValidator) : FieldValidator :=
  { fv with RepeatedCountMin := none, RepeatedCountMax := none }

/-- The violation of a failed length bound `n` on the value `val`, with the message of
`table`. -/
def lenViolation (lang : String) (env : Env) (variableName : Var) (fieldName : String)
    (fv : FieldValidator) (val : Value) (table : List (String × String)) (n : Int) : Violation :=
  { Field := fieldName,
    Description := failureDescription lang env variableName val
      (Sprintf (mapIndex table lang) "%d" (int64Operand n)) fv }

/-- Statement side: the violations of the length bounds of a validator on a value of length
`n`, bound by bound: `length_gt`, `length_lt`, `length_eq`. -/
def lengthViolations (lang : String) (env : Env) (variableName : Var) (fieldName : String)
    (fv : FieldValidator) (val : Value) (n : Int) : List Violation :=
  boundViolations fv.LengthGt (fun a => decide (n > a))
      (lenViolation lang env variableName fieldName fv val errorLengthGt)
    ++ boundViolations fv.LengthLt (fun b => decide (n < b))
      (lenViolation lang env variableName fieldName fv val errorLengthLt)
    ++ boundViolations fv.LengthEq (fun c => decide (n = c))
      (lenViolation lang env variableName fieldName fv val errorLengthEq)

/-- Statement side: the validator sets nothing other than the two count limits. -/
def onlyCountLimits (fv : FieldValidator) : Bool :=
  decide (fv = { RepeatedCountMin := fv.RepeatedCountMin,
                 RepeatedCountMax := fv.RepeatedCountMax })

/-- Whether a statement is a loop over the elements of a repeated field. -/
def isLoop : Stmt → Bool
  | Stmt.forRange _ _ => true
  | _ => false

mutual
/-- The pattern variables the checks of a statement refer to. -/
def patternVars : Stmt → List String
  | Stmt.ifThen (Cond.notRegexMatch regexVar _) body => regexVar :: patternVarsList body
  | Stmt.ifThen _ body => patternVarsList body
  | Stmt.forRange _ body => patternVarsList body
  | Stmt.ifOneof _ _ body => patternVarsList body
  | Stmt.ifOneofNil _ body => patternVarsList body
  | Stmt.decimalPlaces _ _ _ body => patternVarsList body
  | Stmt.appendViolation _ _ => []
  | Stmt.callChild _ _ => []
  | Stmt.callChildFlat _ => []
  | Stmt.comment _ => []
/-- The pattern variables the checks of a block refer to. -/
def patternVarsList : List Stmt → List String
  | [] => []
  | s :: rest => patternVars s ++ patternVarsList rest
end

/-- The number a text of decimal digits stands for, read from the left on top of `acc`. -/
def digitsValue (acc : Nat) (l : List Char) : Nat :=
  l.foldl (fun a c => 10 * a + (c.toNat - '0'.toNat)) acc

/-- Statement side: the four fixed-width integer types. -/
def isFixedWidth (field : FieldDescriptor) : Bool :=
  match field.Typ with
  | FieldType.TYPE_FIXED32 | FieldType.TYPE_FIXED64 => true
  | FieldType.TYPE_SFIXED32 | FieldType.TYPE_SFIXED64 => true
  | _ => false

/-- Statement side: the validator sets no float bound and no limit of decimal places. -/
def noFloatConstraint (fv : FieldValidator) : Bool :=
  fv.FloatGt.isNone && fv.FloatGte.isNone && fv.FloatLt.isNone && fv.FloatLte.isNone
    && fv.DecimalPlacesLte.isNone

/-- The message field `address` with `msg_exists = true`. -/
def requiredAddress : FieldDescriptor :=
  { addressField with validators := [{ MsgExists := some true }] }

/-- A singular `fixed32` field `count` (Go name `Count`) with the given validators. -/
def countField (validators : List FieldValidator) : FieldDescriptor :=
  { Name := "count", Typ := FieldType.TYPE_FIXED32, validators := validators,
    genFieldName := "Count", genOneOfFieldName := "Count", camelName := "Count" }

/-- A singular `bytes` field `data` (Go name `Data`) with the given validators. -/
def dataField (validators : List FieldValidator) : FieldDescriptor :=
  { Name := "data", Typ := FieldType.TYPE_BYTES, validators := validators,
    genFieldName := "Data", genOneOfFieldName := "Data", camelName := "Data" }

/-! ## Lemmas on the interpreter -/

@[simp] theorem appendOpt_some {β : Type} (x y : List β) :
    appendOpt (some x) (some y) = some (x ++ y) := rfl

@[simp] theorem appendOpt_none_left {β : Type} (y : Option (List β)) :
    appendOpt none y = none := rfl

@[simp] theorem appendOpt_none_right {β : Type} (x : Option (List β)) :
    appendOpt x none = none := by
  cases x <;> rfl

@[simp] theorem appendOpt_nil_right {β : Type} (x : Option (List β)) :
    appendOpt x (some []) = x := by
  cases x <;> simp [appendOpt]

@[simp] theorem appendOpt_nil_left {β : Type} (x : Option (List β)) :
    appendOpt (some []) x = x := by
  cases x <;> simp [appendOpt]

theorem appendOpt_assoc {β : Type} (x y z : Option (List β)) :
    appendOpt (appendOpt x y) z = appendOpt x (appendOpt y z) := by
  cases x <;> cases y <;> cases z <;> simp [appendOpt]

@[simp] theorem execList_nil (env : Env) : execList env [] = some [] := by
  simp [execList]

@[simp] theorem execList_singleton (env : Env) (s : Stmt) : execList env [s] = exec env s := by
  simp [execList]

theorem execList_append (env : Env) (a b : List Stmt) :
    execList env (a ++ b) = appendOpt (execList env a) (execList env b) := by
  induction a with
  | nil => simp [execList]
  | cons s rest ih =>
    show execList env (s :: (rest ++ b)) = _
    simp only [execList, ih, appendOpt_assoc]

/-- The violation statement of `generateErrorString` appends exactly one violation. -/
theorem exec_generateErrorString (lang : String) (env : Env) (variableName : Var)
    (fieldName specificError : String) (fv : FieldValidator) (val : Value)
    (hv : evalVar env variableName = some val) :
    execList env (generateErrorString lang variableName fieldName specificError fv) =
      some [{ Field := fieldName,
              Description := failureDescription lang env variableName val specificError fv }] := by
  unfold generateErrorString failureDescription
  split <;> simp [exec, evalDesc, hv]

/-- A generated integer comparison: nothing when the comparison holds, the violation otherwise. -/
theorem exec_intCheck (lang : String) (env : Env) (variableName : Var) (fieldName : String)
    (fv : FieldValidator) (op : CmpOp) (n v : Int) (table : List (String × String))
    (hv : evalVar env variableName = some (Value.int v)) :
    exec env (Stmt.ifThen (Cond.notIntCmp variableName op n)
        (generateErrorString lang variableName fieldName
          (Sprintf (mapIndex table lang) "%d" (int64Operand n)) fv)) =
      some (boundViolations (some n) (cmpInt op v)
        (intViolation lang env variableName fieldName fv v table)) := by
  simp only [exec, evalCond, hv, boundViolations, intViolation]
  cases h : cmpInt op v n <;>
    simp [exec_generateErrorString lang env variableName fieldName _ fv _ hv]

/-- The number of violations of four optional bounds is the number of set bounds that fail. -/
theorem boundViolations_length (bound : Option Int) (holds : Int → Bool) (viol : Int → Violation) :
    (boundViolations bound holds viol).length = if bound.map holds = some false then 1 else 0 := by
  cases bound with
  | none => simp [boundViolations]
  | some n => cases h : holds n <;> simp [boundViolations, h]

/-- The violations of `generateIntValidator` on an integer value, bound by bound. -/
theorem exec_generateIntValidator (lang : String) (env : Env) (variableName : Var)
    (ccTypeName fieldName : String) (fv : FieldValidator) (v : Int)
    (hv : evalVar env variableName = some (Value.int v)) :
    execList env (generateIntValidator lang variableName ccTypeName fieldName fv) =
      some (boundViolations fv.IntGt (fun n => decide (v > n))
          (intViolation lang env variableName fieldName fv v errorIntGt)
        ++ boundViolations fv.IntLt (fun n => decide (v < n))
          (intViolation lang env variableName fieldName fv v errorIntLt)
        ++ boundViolations fv.IntGte (fun n => decide (v ≥ n))
          (intViolation lang env variableName fieldName fv v errorIntGte)
        ++ boundViolations fv.IntLte (fun n => decide (v ≤ n))
          (intViolation lang env variableName fieldName fv v errorIntLte)) := by
  simp only [generateIntValidator, execList_append]
  have e1 : (fun n => decide (v > n)) = cmpInt CmpOp.gt v := by funext n; simp [cmpInt]
  have e2 : (fun n => decide (v < n)) = cmpInt CmpOp.lt v := by funext n; simp [cmpInt]
  have e3 : (fun n => decide (v ≥ n)) = cmpInt CmpOp.ge v := by funext n; simp [cmpInt]
  have e4 : (fun n => decide (v ≤ n)) = cmpInt CmpOp.le v := by funext n; simp [cmpInt]
  rw [e1, e2, e3, e4]
  cases h1 : fv.IntGt <;> cases h2 : fv.IntLt <;> cases h3 : fv.IntGte <;> cases h4 : fv.IntLte <;>
    simp only [execList_nil, execList_singleton, FieldValidator.GetIntGt, FieldValidator.GetIntLt,
      FieldValidator.GetIntGte, FieldValidator.GetIntLte, h1, h2, h3, h4, Option.getD_some,
      exec_intCheck _ _ _ _ _ _ _ _ _ hv, appendOpt_some, appendOpt_nil_left, appendOpt_nil_right] <;>
    simp [boundViolations]

/-! ## Integer bounds -/

/-- The code of a singular integer field outside a oneof with one validator is the output of
`generateIntValidator` for it, on `this.F`. -/
theorem generateProto3Field_int_single (p : Plugin) (file : FileDescriptor) (ccTypeName : String)
    (field : FieldDescriptor) (fv : FieldValidator) (hint : isSupportedInt field = true)
    (hrep : field.Repeated = false) (hone : field.OneofIndex = none)
    (hval : field.validators = [fv]) :
    (generateProto3Field p file ccTypeName field).1 =
      generateIntValidator p.lang (Var.this (p.GetOneOfFieldName field)) ccTypeName
        (p.GetOneOfFieldName field) fv := by
  have hS : field.IsString = false := by
    unfold isSupportedInt at hint
    unfold FieldDescriptor.IsString
    cases hT : field.Typ <;> simp [hT] at hint ⊢
  have hM : field.IsMessage = false := by
    unfold isSupportedInt at hint
    unfold FieldDescriptor.IsMessage
    cases hT : field.Typ <;> simp [hT] at hint ⊢
  have hR : field.IsRepeated = false := hrep
  have hmap : fieldIsProto3Map field = false := by simp [fieldIsProto3Map, hR]
  unfold generateProto3Field
  simp [getFieldValidatorIfAny, hval, hM, hR, hmap, hone, generateValidatorsFrom, hS, hint]

/-- The code of a singular field of a fixed-width type outside a oneof, with one validator that
sets `int_gt` alone: nothing. -/
theorem generateProto3Field_fixed_intGt (p : Plugin) (file : FileDescriptor)
    (ccTypeName : String) (field : FieldDescriptor) (N : Int) (humanError : Option String)
    (hfix : isFixedWidth field = true) (hrep : field.Repeated = false)
    (hone : field.OneofIndex = none)
    (hval : field.validators = [{ IntGt := some N, HumanError := humanError }]) :
    (generateProto3Field p file ccTypeName field).1 = [] := by
  have hS : field.IsString = false := by
    unfold isFixedWidth at hfix
    unfold FieldDescriptor.IsString
    cases hT : field.Typ <;> simp [hT] at hfix ⊢
  have hI : isSupportedInt field = false := by
    unfold isFixedWidth at hfix
    unfold isSupportedInt
    cases hT : field.Typ <;> simp [hT] at hfix ⊢
  have hE : field.IsEnum = false := by
    unfold isFixedWidth at hfix
    unfold FieldDescriptor.IsEnum
    cases hT : field.Typ <;> simp [hT] at hfix ⊢
  have hF : isSupportedFloat field = true := by
    unfold isFixedWidth at hfix
    unfold isSupportedFloat
    cases hT : field.Typ <;> simp [hT] at hfix ⊢
  have hM : field.IsMessage = false := by
    unfold isFixedWidth at hfix
    unfold FieldDescriptor.IsMessage
    cases hT : field.Typ <;> simp [hT] at hfix ⊢
  have hR : field.IsRepeated = false := hrep
  have hmap : fieldIsProto3Map field = false := by simp [fieldIsProto3Map, hR]
  unfold generateProto3Field
  simp [getFieldValidatorIfAny, hval, hM, hR, hmap, hone, generateValidatorsFrom, hS, hI, hE, hF,
    generateFloatValidator, generateFloatLower, generateFloatUpper, generateDecimalPlaces]

/-- C1 (as stated, refuted): the `fixed32` field `count` is an integer field that the plugin
does not treat as one; with the single constraint `int_gt = 10` its message gets a routine with
an empty body, which returns no violation on the value 3, where the `int64` field `age` under
the same constraint gets the violation. -/
theorem intGt_on_fixed32_unchecked :
    isSupportedInt (countField [{ IntGt := some 10 }]) = false
    ∧ (generateProto3Message samplePlugin {}
        { ccTypeName := "Msg", Field := [countField [{ IntGt := some 10 }]] }).1.body = some []
    ∧ (generateProto3Message samplePlugin {}
        { ccTypeName := "Msg", Field := [countField [{ IntGt := some 10 }]] }).1.run
        (sampleEnv (Value.int 3)) = some []
    ∧ (generateProto3Message samplePlugin {}
        { ccTypeName := "Msg", Field := [ageField [{ IntGt := some 10 }]] }).1.run
        (sampleEnv (Value.int 3))
      = some [{ Field := "Age", Description := "value '3' must be greater than '10'" }] :=
  ⟨rfl, rfl, rfl, rfl⟩

/-- C1 (amended): for a field of a type the plugin treats as integer (`isSupportedInt`: int32,
int64, uint32, uint64, sint32, sint64) whose only constraint is `int_gt = N` (with or without a
`human_error` text), on every value `v` the generated check yields exactly one violation, for
that field, when `v = N` or `v < N`, and none when `v > N`: first for the output of
`generateIntValidator` on any expression that holds `v`, then for the code
`generateProto3Message` emits for a singular field of such a type.  For a singular field of
type fixed32, fixed64, sfixed32 or sfixed64 the constraint generates no check, and no violation
is returned on any `v`. -/
theorem intGt_violation_iff_not_greater (env : Env) (N v : Int) (humanError : Option String) :
    (∀ (lang : String) (variableName : Var) (ccTypeName fieldName : String),
      evalVar env variableName = some (Value.int v) →
      ((v = N ∨ v < N) → ∃ d, execList env (generateIntValidator lang variableName ccTypeName
          fieldName { IntGt := some N, HumanError := humanError })
            = some [{ Field := fieldName, Description := d }])
      ∧ (v > N → execList env (generateIntValidator lang variableName ccTypeName fieldName
          { IntGt := some N, HumanError := humanError }) = some []))
    ∧ (∀ (p : Plugin) (file : FileDescriptor) (ccTypeName : String) (field : FieldDescriptor),
      isSupportedInt field = true → field.Repeated = false → field.OneofIndex = none →
      field.validators = [{ IntGt := some N, HumanError := humanError }] →
      env.field (p.GetOneOfFieldName field) = Value.int v →
      ((v = N ∨ v < N) → ∃ d, execList env (generateProto3Field p file ccTypeName field).1
          = some [{ Field := p.GetOneOfFieldName field, Description := d }])
      ∧ (v > N → execList env (generateProto3Field p file ccTypeName field).1 = some []))
    ∧ (∀ (p : Plugin) (file : FileDescriptor) (ccTypeName : String) (field : FieldDescriptor),
      isFixedWidth field = true → field.Repeated = false → field.OneofIndex = none →
      field.validators = [{ IntGt := some N, HumanError := humanError }] →
      (generateProto3Field p file ccTypeName field).1 = []
      ∧ execList env (generateProto3Field p file ccTypeName field).1 = some []) := by
  have key : ∀ (lang : String) (variableName : Var) (ccTypeName fieldName : String),
      evalVar env variableName = some (Value.int v) →
      ((v = N ∨ v < N) → ∃ d, execList env (generateIntValidator lang variableName ccTypeName
          fieldName { IntGt := some N, HumanError := humanError })
            = some [{ Field := fieldName, Description := d }])
      ∧ (v > N → execList env (generateIntValidator lang variableName ccTypeName fieldName
          { IntGt := some N, HumanError := humanError }) = some []) := by
    intro lang variableName ccTypeName fieldName hv
    rw [exec_generateIntValidator lang env variableName ccTypeName fieldName _ v hv]
    constructor
    · intro h
      have hn : ¬ v > N := by omega
      refine ⟨(intViolation lang env variableName fieldName
        { IntGt := some N, HumanError := humanError } v errorIntGt N).Description, ?_⟩
      simp [boundViolations, hn, intViolation]
    · intro h
      simp [boundViolations, h]
  refine ⟨key, ?_, ?_⟩
  · intro p file ccTypeName field hint hrep hone hval hv
    rw [generateProto3Field_int_single p file ccTypeName field _ hint hrep hone hval]
    exact key p.lang _ ccTypeName _ (by simp [evalVar, hv])
  · intro p file ccTypeName field hfix hrep hone hval
    rw [generateProto3Field_fixed_intGt p file ccTypeName field N humanError hfix hrep hone hval]
    exact ⟨rfl, rfl⟩

/-- The witness of C1 (amended): a field `Age` holding 5 under `int_gt = 5` gets one violation,
a field holding 6 gets none, and the `fixed32` field `Count` gets no check. -/
theorem intGt_violation_iff_not_greater_witness :
    (∃ d, execList (sampleEnv (Value.int 5)) (generateProto3Field samplePlugin {} "Person"
        (ageField [{ IntGt := some 5, HumanError := none }])).1
          = some [{ Field := "Age", Description := d }])
    ∧ execList (sampleEnv (Value.int 6)) (generateProto3Field samplePlugin {} "Person"
        (ageField [{ IntGt := some 5, HumanError := none }])).1 = some []
    ∧ (generateProto3Field samplePlugin {} "Msg"
        (countField [{ IntGt := some 5, HumanError := none }])).1 = [] :=
  ⟨((intGt_violation_iff_not_greater (sampleEnv (Value.int 5)) 5 5 none).2.1 samplePlugin {}
      "Person" (ageField [{ IntGt := some 5, HumanError := none }]) rfl rfl rfl rfl rfl).1
      (Or.inl rfl),
   ((intGt_violation_iff_not_greater (sampleEnv (Value.int 6)) 5 6 none).2.1 samplePlugin {}
      "Person" (ageField [{ IntGt := some 5, HumanError := none }]) rfl rfl rfl rfl rfl).2
      (by decide),
   ((intGt_violation_iff_not_greater (sampleEnv (Value.int 5)) 5 5 none).2.2 samplePlugin {}
      "Msg" (countField [{ IntGt := some 5, HumanError := none }]) rfl rfl rfl rfl).1⟩

/-- C2: the four integer bounds are evaluated independently.  On every value `v` the violations
of `generateIntValidator` are those of `int_gt`, `int_lt`, `int_gte`, `int_lte`, in this order,
each bound contributing its own violation exactly when it is set and `v` fails it; their number
is the number of set bounds that `v` fails. -/
theorem int_bounds_evaluated_independently (lang : String) (env : Env) (variableName : Var)
    (ccTypeName fieldName : String) (fv : FieldValidator) (v : Int)
    (hv : evalVar env variableName = some (Value.int v)) :
    execList env (generateIntValidator lang variableName ccTypeName fieldName fv) =
      some (boundViolations fv.IntGt (fun n => decide (v > n))
          (intViolation lang env variableName fieldName fv v errorIntGt)
        ++ boundViolations fv.IntLt (fun n => decide (v < n))
          (intViolation lang env variableName fieldName fv v errorIntLt)
        ++ boundViolations fv.IntGte (fun n => decide (v ≥ n))
          (intViolation lang env variableName fieldName fv v errorIntGte)
        ++ boundViolations fv.IntLte (fun n => decide (v ≤ n))
          (intViolation lang env variableName fieldName fv v errorIntLte))
    ∧ (execList env (generateIntValidator lang variableName ccTypeName fieldName fv)).map List.length =
      some ([fv.IntGt.map (fun n => decide (v > n)), fv.IntLt.map (fun n => decide (v < n)),
             fv.IntGte.map (fun n => decide (v ≥ n)), fv.IntLte.map (fun n => decide (v ≤ n))].count
              (some false)) := by
  refine ⟨exec_generateIntValidator lang env variableName ccTypeName fieldName fv v hv, ?_⟩
  rw [exec_generateIntValidator lang env variableName ccTypeName fieldName fv v hv]
  simp only [Option.map_some', List.length_append, boundViolations_length, List.count_cons,
    List.count_nil, beq_iff_eq, Option.some.injEq]
  omega

/-- The witness of C2: the value 3 under `int_gt = 5`, `int_lt = 2`, `int_lte = 7` fails the
first two bounds and passes the third. -/
theorem int_bounds_evaluated_independently_witness :
    (execList (sampleEnv (Value.int 3)) (generateIntValidator LangDefault (Var.this "Age")
        "Person" "Age" { IntGt := some 5, IntLt := some 2, IntLte := some 7 })).map List.length
      = some 2 :=
  (int_bounds_evaluated_independently LangDefault (sampleEnv (Value.int 3)) (Var.this "Age")
    "Person" "Age" { IntGt := some 5, IntLt := some 2, IntLte := some 7 } 3 rfl).2

/-! ## UUID patterns -/

theorem substVerb_cons_ne (verb arg : List Char) (c : Char) (cs : List Char)
    (h : verb.isPrefixOf (c :: cs) = false) :
    substVerb verb arg (c :: cs) = (substVerb verb arg cs).map (fun r => c :: r) := by
  simp [substVerb, h]

/-- A format that ends in its only `%d`: the verb is replaced by the operand. -/
theorem substVerb_trailing_d (pre arg : List Char) (hp : ∀ c ∈ pre, c ≠ '%') :
    substVerb "%d".data arg (pre ++ "%d".data) = some (pre ++ arg) := by
  induction pre with
  | nil => simp [substVerb, missingVerbs]
  | cons c cs ih =>
    have hc : c ≠ '%' := hp c (by simp)
    have hpre : ("%d".data).isPrefixOf (c :: (cs ++ "%d".data)) = false := by
      show (['%', 'd'] : List Char).isPrefixOf (c :: (cs ++ "%d".data)) = false
      simp [List.isPrefixOf, Ne.symm hc]
    rw [List.cons_append, substVerb_cons_ne _ _ _ _ hpre, ih (fun x hx => hp x (by simp [hx]))]
    rfl

/-- The text of the error `getUUIDRegex` returns. -/
theorem uuid_error_text (v : Int) :
    Sprintf "UUID version should be between 0-5, Got %d" "%d" (int32Operand v)
      = "UUID version should be between 0-5, Got " ++ toString v := by
  have h : ("UUID version should be between 0-5, Got %d" : String).data
      = "UUID version should be between 0-5, Got ".data ++ "%d".data := by decide
  unfold Sprintf
  rw [h, substVerb_trailing_d _ _ (by decide)]
  simp [int32Operand]
  rfl

/-- C3: `getUUIDRegex` returns an error for every version below 0 or above 5, and a non-empty
pattern for every version from 0 to 5: for version 0 the UUID pattern with the version class
`[1-5]`, for a version `v` from 1 to 5 the same pattern with the version class `[v]`. -/
theorem getUUIDRegex_by_version (v : Int) :
    ((v < 0 ∨ v > 5) → getUUIDRegex (some v)
        = Except.error ("UUID version should be between 0-5, Got " ++ toString v))
    ∧ (v = 0 → getUUIDRegex (some v) = Except.ok
        "^([a-fA-F0-9]{8}-[a-fA-F0-9]{4}-[1-5][a-fA-F0-9]{3}-[8|9|aA|bB][a-fA-F0-9]{3}-[a-fA-F0-9]{12})?$")
    ∧ ((1 ≤ v ∧ v ≤ 5) → getUUIDRegex (some v) = Except.ok
        ("^([a-fA-F0-9]{8}-[a-fA-F0-9]{4}-[" ++ toString v
          ++ "][a-fA-F0-9]{3}-[8|9|aA|bB][a-fA-F0-9]{3}-[a-fA-F0-9]{12})?$"))
    ∧ ((0 ≤ v ∧ v ≤ 5) → ∃ pattern, getUUIDRegex (some v) = Except.ok pattern ∧ pattern ≠ "") := by
  refine ⟨?_, ?_, ?_, ?_⟩
  · intro h
    simp [getUUIDRegex, h, uuid_error_text]
  · rintro rfl
    rfl
  · rintro ⟨h1, h2⟩
    interval_cases v <;> rfl
  · rintro ⟨h1, h2⟩
    interval_cases v <;> exact ⟨_, rfl, by decide⟩

/-- The witness of C3: version 6 is an error, version 4 gives the pattern with the class `[4]`. -/
theorem getUUIDRegex_by_version_witness :
    getUUIDRegex (some 6) = Except.error "UUID version should be between 0-5, Got 6"
    ∧ getUUIDRegex (some 4) = Except.ok
        "^([a-fA-F0-9]{8}-[a-fA-F0-9]{4}-[4][a-fA-F0-9]{3}-[8|9|aA|bB][a-fA-F0-9]{3}-[a-fA-F0-9]{12})?$" :=
  ⟨(getUUIDRegex_by_version 6).1 (Or.inr (by decide)),
   (getUUIDRegex_by_version 4).2.2.1 ⟨by decide, by decide⟩⟩

theorem classRE_rmatch (cs : List Char) (x : List Char) :
    (classRE cs).rmatch x = true ↔ ∃ c ∈ cs, x = [c] := by
  induction cs with
  | nil => simp [classRE, RegularExpression.zero_def, RegularExpression.zero_rmatch]
  | cons c rest ih =>
    simp only [classRE, RegularExpression.plus_def, RegularExpression.add_rmatch_iff,
      RegularExpression.char_rmatch_iff, ih, List.mem_cons, exists_eq_or_imp]

/-- A sequence of bracket classes matches the texts that have one character of each class. -/
theorem seqRE_classes_rmatch (classes : List (List Char)) (x : List Char) :
    (seqRE (classes.map classRE)).rmatch x = true ↔ matchesClasses classes x = true := by
  induction classes generalizing x with
  | nil =>
    cases x <;>
      simp [seqRE, RegularExpression.one_def, RegularExpression.one_rmatch_iff, matchesClasses]
  | cons k rest ih =>
    simp only [List.map_cons, seqRE, RegularExpression.comp_def, RegularExpression.mul_rmatch_iff,
      classRE_rmatch, ih]
    constructor
    · rintro ⟨t, u, rfl, ⟨c, hc, rfl⟩, hu⟩
      simp [matchesClasses, hc, hu]
    · intro h
      cases x with
      | nil => simp [matchesClasses] at h
      | cons c cs =>
        simp only [matchesClasses, Bool.and_eq_true, decide_eq_true_eq] at h
        exact ⟨[c], cs, rfl, ⟨c, h.1, rfl⟩, h.2⟩

/-- An optional group alone matches the empty text and what the group matches. -/
theorem optRE_rmatch (r : RegularExpression Char) (x : List Char) :
    (seqRE [optRE r]).rmatch x = true ↔ x = [] ∨ r.rmatch x = true := by
  simp only [seqRE, optRE, RegularExpression.comp_def, RegularExpression.plus_def,
    RegularExpression.one_def, RegularExpression.mul_rmatch_iff, RegularExpression.add_rmatch_iff,
    RegularExpression.one_rmatch_iff]
  constructor
  · rintro ⟨t, u, rfl, h, rfl⟩
    rw [List.append_nil]
    exact h.symm
  · intro h
    exact ⟨x, [], (List.append_nil x).symm, h.symm, rfl⟩

theorem compiledUUID_rmatch (vc : List Char) (x : List Char) :
    (compiledUUID vc).rmatch x = (decide (x = []) || matchesClasses (patternClasses vc) x) := by
  rw [Bool.eq_iff_iff, Bool.or_eq_true, decide_eq_true_eq, ← seqRE_classes_rmatch]
  exact optRE_rmatch _ x

set_option maxRecDepth 100000 in
/-- The pattern of a valid version, compiled and applied: the empty text passes, and so does
every text with one character of each class of the pattern. -/
theorem matchUUID_eq (version : Int) (h0 : 0 ≤ version) (h5 : version ≤ 5) (s : String) :
    matchUUID version s =
      some (decide (s.data = []) || matchesClasses (patternClasses (versionClass version)) s.data) := by
  have key : (match getUUIDRegex (some version) with
      | Except.ok pattern => regexpCompile pattern
      | Except.error _ => none) = some (compiledUUID (versionClass version)) := by
    interval_cases version <;> rfl
  unfold matchUUID
  revert key
  cases getUUIDRegex (some version) with
  | error e => simp
  | ok pattern =>
    intro key
    simp only at key
    simp [key, MatchString, compiledUUID_rmatch]

theorem matchesClasses_mono (ks ls : List (List Char)) (h : classesSubset ks ls = true)
    (x : List Char) (hx : matchesClasses ks x = true) : matchesClasses ls x = true := by
  induction ks generalizing ls x with
  | nil =>
    cases ls with
    | nil => exact hx
    | cons l ls => simp [classesSubset] at h
  | cons k ks ih =>
    cases ls with
    | nil => simp [classesSubset] at h
    | cons l ls =>
      cases x with
      | nil => simp [matchesClasses] at hx
      | cons c cs =>
        simp only [classesSubset, Bool.and_eq_true, List.all_eq_true, decide_eq_true_eq] at h
        simp only [matchesClasses, Bool.and_eq_true, decide_eq_true_eq] at hx ⊢
        exact ⟨h.1 c hx.1, ih ls h.2 cs hx.2⟩

theorem matchesClasses_meet (ks ls : List (List Char)) (x : List Char)
    (hk : matchesClasses ks x = true) (hl : matchesClasses ls x = true) :
    classesMeet ks ls = true := by
  induction ks generalizing ls x with
  | nil =>
    cases x with
    | nil =>
      cases ls with
      | nil => rfl
      | cons l ls => simp [matchesClasses] at hl
    | cons c cs => simp [matchesClasses] at hk
  | cons k ks ih =>
    cases x with
    | nil => simp [matchesClasses] at hk
    | cons c cs =>
      cases ls with
      | nil => simp [matchesClasses] at hl
      | cons l ls =>
        simp only [matchesClasses, Bool.and_eq_true, decide_eq_true_eq] at hk hl
        simp only [classesMeet, Bool.and_eq_true, List.any_eq_true, decide_eq_true_eq]
        exact ⟨⟨c, hk.1, hl.1⟩, ih ls cs hk.2 hl.2⟩

theorem matchesClasses_length (ks : List (List Char)) (x : List Char)
    (h : matchesClasses ks x = true) : x.length = ks.length := by
  induction ks generalizing x with
  | nil =>
    cases x with
    | nil => rfl
    | cons c cs => simp [matchesClasses] at h
  | cons k ks ih =>
    cases x with
    | nil => simp [matchesClasses] at h
    | cons c cs =>
      simp only [matchesClasses, Bool.and_eq_true, decide_eq_true_eq] at h
      simp [ih cs h.2]

theorem matchesClasses_getElem? (ks : List (List Char)) (x : List Char)
    (h : matchesClasses ks x = true) (i : Nat) (k : List Char) (c : Char)
    (hk : ks[i]? = some k) (hc : x[i]? = some c) : c ∈ k := by
  induction ks generalizing x i with
  | nil => simp at hk
  | cons k0 ks ih =>
    cases x with
    | nil => simp at hc
    | cons c0 cs =>
      simp only [matchesClasses, Bool.and_eq_true, decide_eq_true_eq] at h
      cases i with
      | zero =>
        simp only [List.getElem?_cons_zero, Option.some.injEq] at hk hc
        rw [← hk, ← hc]
        exact h.1
      | succ j =>
        simp only [List.getElem?_cons_succ] at hk hc
        exact ih cs h.2 j hk hc

theorem isUUIDOfVersion_ne_nil (ver : Char) (s : String) (h : isUUIDOfVersion ver s = true) :
    s.data ≠ [] := by
  intro hs
  rw [isUUIDOfVersion, hs] at h
  simp [uuidShape, matchesClasses, List.replicate] at h

set_option maxRecDepth 100000 in
/-- C4: the pattern for version 4 rejects `not-a-uuid` and accepts every syntactically valid v4
UUID (groups of 8-4-4-4-12 hexadecimal digits, third group starting with `4`, fourth group
starting with one of 8, 9, a, b, A, B); the pattern for version 0 accepts every such text whose
third group starts with a digit from 1 to 5; and for `v` from 1 to 5 the pattern for version `v`
rejects a valid UUID of any other version from 1 to 5, and more generally every text of the UUID
shape whose third group starts with another character than the digit `v`. -/
theorem uuid_pattern_accepts_and_rejects :
    matchUUID 4 "not-a-uuid" = some false
    ∧ (∀ s : String, isUUIDOfVersion '4' s = true → matchUUID 4 s = some true)
    ∧ (∀ (s : String) (w : Int), 1 ≤ w → w ≤ 5 → isUUIDOfVersion (versionDigit w) s = true →
        matchUUID 0 s = some true)
    ∧ (∀ (s : String) (v w : Int), 1 ≤ v → v ≤ 5 → 1 ≤ w → w ≤ 5 → w ≠ v →
        isUUIDOfVersion (versionDigit w) s = true → matchUUID v s = some false)
    ∧ (∀ (s : String) (v : Int) (ver : Char), 1 ≤ v → v ≤ 5 → ver ≠ versionDigit v →
        isUUIDOfVersion ver s = true → matchUUID v s = some false) := by
  refine ⟨?_, ?_, ?_, ?_, ?_⟩
  · rw [matchUUID_eq 4 (by decide) (by decide)]
    rfl
  · intro s hs
    rw [matchUUID_eq 4 (by decide) (by decide)]
    have hm := matchesClasses_mono _ (patternClasses (versionClass 4)) (by rfl) _ hs
    simp [hm]
  · intro s w h1 h5 hs
    rw [matchUUID_eq 0 (by decide) (by decide)]
    have hsub : classesSubset (uuidShape (versionDigit w)) (patternClasses (versionClass 0)) = true := by
      interval_cases w <;> rfl
    have hm := matchesClasses_mono _ _ hsub _ hs
    simp [hm]
  · intro s v w hv1 hv5 hw1 hw5 hne hs
    rw [matchUUID_eq v (by omega) hv5]
    have hnil := isUUIDOfVersion_ne_nil _ s hs
    have hmeet : classesMeet (uuidShape (versionDigit w)) (patternClasses (versionClass v)) = false := by
      interval_cases v <;> interval_cases w <;> first | (exact absurd rfl hne) | rfl
    cases hm : matchesClasses (patternClasses (versionClass v)) s.data with
    | false => simp [hnil]
    | true =>
      have hboth := matchesClasses_meet _ _ _ hs hm
      rw [hmeet] at hboth
      exact absurd hboth (by decide)
  · intro s v ver h1 h5 hne hs
    rw [matchUUID_eq v (by omega) h5]
    have hnil := isUUIDOfVersion_ne_nil _ s hs
    cases hm : matchesClasses (patternClasses (versionClass v)) s.data with
    | false => simp [hnil]
    | true =>
      exfalso
      have hlen : s.data.length = 36 := by
        rw [matchesClasses_length _ _ hs]
        rfl
      obtain ⟨c, hc⟩ : ∃ c, s.data[14]? = some c := by
        have hlt : 14 < s.data.length := by omega
        exact ⟨s.data[14], by simp [hlt]⟩
      have hver : c ∈ [ver] := matchesClasses_getElem? _ _ hs 14 [ver] c (by rfl) hc
      have hpat : c ∈ versionClass v :=
        matchesClasses_getElem? _ _ hm 14 (versionClass v) c (by rfl) hc
      have hvc : versionClass v = [versionDigit v] := by
        interval_cases v <;> rfl
      rw [hvc] at hpat
      simp only [List.mem_singleton] at hver hpat
      exact hne (hver ▸ hpat)

set_option maxRecDepth 100000 in
/-- The witness of C4: a v4 UUID passes the patterns for versions 4 and 0 and fails the pattern
for version 1. -/
theorem uuid_pattern_accepts_and_rejects_witness :
    matchUUID 4 "123e4567-e89b-42d3-a456-426614174000" = some true
    ∧ matchUUID 0 "123e4567-e89b-42d3-a456-426614174000" = some true
    ∧ matchUUID 1 "123e4567-e89b-42d3-a456-426614174000" = some false :=
  ⟨uuid_pattern_accepts_and_rejects.2.1 "123e4567-e89b-42d3-a456-426614174000" (by rfl),
   uuid_pattern_accepts_and_rejects.2.2.1 "123e4567-e89b-42d3-a456-426614174000" 4
     (by decide) (by decide) (by rfl),
   uuid_pattern_accepts_and_rejects.2.2.2.1 "123e4567-e89b-42d3-a456-426614174000" 1 4
     (by decide) (by decide) (by decide) (by decide) (by decide) (by rfl)⟩

/-! ## Float bounds -/

/-- A generated float comparison on a float value: nothing when the comparison holds, one
violation otherwise. -/
theorem exec_floatCheck (lang : String) (env : Env) (variableName : Var)
    (fieldName specificError : String) (fv : FieldValidator) (shift : Shift) (op : CmpOp)
    (a v : ℚ) (hv : evalVar env variableName = some (Value.float v)) :
    exec env (Stmt.ifThen (Cond.notFloatCmp variableName shift op a)
        (generateErrorString lang variableName fieldName specificError fv)) =
      some (if cmpRat op (shift.apply v) a then []
        else [{ Field := fieldName,
                Description := failureDescription lang env variableName (Value.float v)
                  specificError fv }]) := by
  simp only [exec, evalCond, hv]
  cases h : cmpRat op (shift.apply v) a <;>
    simp [exec_generateErrorString lang env variableName fieldName _ fv _ hv]

theorem upperShift_apply (fv : FieldValidator) (v : ℚ) :
    (upperShift fv).apply v = v - fv.FloatEpsilon.getD 0 := by
  unfold upperShift
  cases fv.FloatEpsilon <;> simp [Shift.apply]

theorem lowerShift_apply (fv : FieldValidator) (v : ℚ) :
    (lowerShift fv).apply v = v + fv.FloatEpsilon.getD 0 := by
  unfold lowerShift
  cases fv.FloatEpsilon <;> simp [Shift.apply]

/-- The upper check in closed form. -/
theorem generateFloatUpper_eq (lang : String) (ff : FloatFmt) (variableName : Var)
    (fieldName : String) (fv : FieldValidator) (h : fv.FloatLt.isSome ∨ fv.FloatLte.isSome) :
    ∃ specificError, generateFloatUpper lang ff variableName fieldName fv =
      [Stmt.ifThen
        (if upperIsStrict fv then
          Cond.notFloatCmp variableName (upperShift fv) CmpOp.lt fv.GetFloatLt
          else Cond.notFloatCmp variableName Shift.none CmpOp.le fv.GetFloatLte)
        (generateErrorString lang variableName fieldName specificError fv)] := by
  unfold generateFloatUpper upperShift
  rw [if_pos h]
  cases hs : upperIsStrict fv
  · exact ⟨_, rfl⟩
  · cases he : fv.FloatEpsilon
    · exact ⟨_, rfl⟩
    · exact ⟨_, rfl⟩

/-- The lower check in closed form. -/
theorem generateFloatLower_eq (lang : String) (ff : FloatFmt) (variableName : Var)
    (fieldName : String) (fv : FieldValidator) (h : fv.FloatGt.isSome ∨ fv.FloatGte.isSome) :
    ∃ specificError, generateFloatLower lang ff variableName fieldName fv =
      [Stmt.ifThen
        (if lowerIsStrict fv then
          Cond.notFloatCmp variableName (lowerShift fv) CmpOp.gt fv.GetFloatGt
          else Cond.notFloatCmp variableName Shift.none CmpOp.ge fv.GetFloatGte)
        (generateErrorString lang variableName fieldName specificError fv)] := by
  unfold generateFloatLower lowerShift
  rw [if_pos h]
  cases hs : lowerIsStrict fv
  · exact ⟨_, rfl⟩
  · cases he : fv.FloatEpsilon
    · exact ⟨_, rfl⟩
    · exact ⟨_, rfl⟩

theorem upperIsStrict_both (fv : FieldValidator) (a b : ℚ) (ha : fv.FloatLt = some a)
    (hb : fv.FloatLte = some b) :
    upperIsStrict fv = !decide (b < a + fv.FloatEpsilon.getD 0) := by
  unfold upperIsStrict
  cases he : fv.FloatEpsilon <;>
    simp [ha, hb, FieldValidator.GetFloatLt, FieldValidator.GetFloatLte,
      FieldValidator.GetFloatEpsilon, he]

theorem lowerIsStrict_both (fv : FieldValidator) (a b : ℚ) (ha : fv.FloatGt = some a)
    (hb : fv.FloatGte = some b) :
    lowerIsStrict fv = !decide (b > a - fv.FloatEpsilon.getD 0) := by
  unfold lowerIsStrict
  cases he : fv.FloatEpsilon <;>
    simp [ha, hb, FieldValidator.GetFloatGt, FieldValidator.GetFloatGte,
      FieldValidator.GetFloatEpsilon, he]

/-- C7: upper float bound reconciliation, over exact rationals, with `e` the tolerance (0 when
`float_epsilon` is absent).  For a constraint with `float_lt = a` and/or `float_lte = b`:
exactly one upper check is generated; when both are set it is the inclusive check `v <= b` if
`b < a + e` and the strict check `v - e < a` otherwise; a value passes the upper check iff it
satisfies every set upper constraint (`v <= b` and `v - e < a`); a value that does not pass
gets one violation. -/
theorem float_upper_reconciliation (lang : String) (ff : FloatFmt) (env : Env)
    (variableName : Var) (fieldName : String) (fv : FieldValidator) (v : ℚ)
    (hv : evalVar env variableName = some (Value.float v))
    (hset : fv.FloatLt.isSome ∨ fv.FloatLte.isSome) :
    (generateFloatUpper lang ff variableName fieldName fv).length = 1
    ∧ (∀ a b, fv.FloatLt = some a → fv.FloatLte = some b →
        ∃ body, generateFloatUpper lang ff variableName fieldName fv =
          [Stmt.ifThen
            (if b < a + fv.FloatEpsilon.getD 0 then
              Cond.notFloatCmp variableName Shift.none CmpOp.le b
              else Cond.notFloatCmp variableName (upperShift fv) CmpOp.lt a) body])
    ∧ (execList env (generateFloatUpper lang ff variableName fieldName fv) = some [] ↔
        (∀ b, fv.FloatLte = some b → v ≤ b)
          ∧ (∀ a, fv.FloatLt = some a → v - fv.FloatEpsilon.getD 0 < a))
    ∧ (execList env (generateFloatUpper lang ff variableName fieldName fv) = some [] ∨
        ∃ d, execList env (generateFloatUpper lang ff variableName fieldName fv)
          = some [{ Field := fieldName, Description := d }]) := by
  obtain ⟨specificError, hgen⟩ := generateFloatUpper_eq lang ff variableName fieldName fv hset
  refine ⟨by rw [hgen]; rfl, ?_, ?_, ?_⟩
  · intro a b ha hb
    refine ⟨generateErrorString lang variableName fieldName specificError fv, ?_⟩
    rw [hgen, upperIsStrict_both fv a b ha hb]
    by_cases hlt : b < a + fv.FloatEpsilon.getD 0 <;>
      simp [hlt, FieldValidator.GetFloatLt, FieldValidator.GetFloatLte, ha, hb]
  · rw [hgen, execList_singleton]
    cases ha : fv.FloatLt with
    | none =>
      cases hb : fv.FloatLte with
      | none => simp [ha, hb] at hset
      | some b =>
        have hs : upperIsStrict fv = false := by simp [upperIsStrict, ha, hb]
        simp [hs, exec_floatCheck _ _ _ _ _ _ _ _ _ _ hv, cmpRat, Shift.apply,
          FieldValidator.GetFloatLte, hb]
    | some a =>
      cases hb : fv.FloatLte with
      | none =>
        have hs : upperIsStrict fv = true := by simp [upperIsStrict, ha, hb]
        simp [hs, exec_floatCheck _ _ _ _ _ _ _ _ _ _ hv, cmpRat, upperShift_apply,
          FieldValidator.GetFloatLt, ha]
      | some b =>
        rw [upperIsStrict_both fv a b ha hb]
        by_cases hlt : b < a + fv.FloatEpsilon.getD 0
        · simp only [hlt, decide_True, Bool.not_true, Bool.false_eq_true, if_false,
            exec_floatCheck _ _ _ _ _ _ _ _ _ _ hv, cmpRat, Shift.apply,
            FieldValidator.GetFloatLte, hb, Option.getD_some]
          simp only [Option.some.injEq, ite_eq_left_iff, decide_eq_true_eq, forall_eq']
          constructor
          · intro h
            have hvb : v ≤ b := by
              by_contra hc
              exact absurd (h hc) (by simp)
            exact ⟨hvb, by linarith⟩
          · intro h hc
            exact absurd h.1 hc
        · simp only [hlt, decide_False, Bool.not_false, if_true,
            exec_floatCheck _ _ _ _ _ _ _ _ _ _ hv, cmpRat, upperShift_apply,
            FieldValidator.GetFloatLt, ha, Option.getD_some]
          simp only [Option.some.injEq, ite_eq_left_iff, decide_eq_true_eq, forall_eq']
          constructor
          · intro h
            have hva : v - fv.FloatEpsilon.getD 0 < a := by
              by_contra hc
              exact absurd (h hc) (by simp)
            exact ⟨by linarith, hva⟩
          · intro h hc
            exact absurd h.2 hc
  · rw [hgen, execList_singleton]
    split
    · rw [exec_floatCheck _ _ _ _ _ _ _ _ _ _ hv]
      split
      · exact Or.inl rfl
      · exact Or.inr ⟨_, rfl⟩
    · rw [exec_floatCheck _ _ _ _ _ _ _ _ _ _ hv]
      split
      · exact Or.inl rfl
      · exact Or.inr ⟨_, rfl⟩

/-- The witness of C7: with `float_lt = 10.0` and `float_lte = 9.5` the check that is enforced
is `v <= 9.5`; 9.6 fails it, 9.4 passes it. -/
theorem float_upper_reconciliation_witness :
    (∃ body, generateFloatUpper LangDefault sampleFmt (Var.this "Price") "Price"
        { FloatLt := some 10, FloatLte := some (19 / 2) } =
        [Stmt.ifThen (Cond.notFloatCmp (Var.this "Price") Shift.none CmpOp.le (19 / 2)) body])
    ∧ execList (sampleEnv (Value.float (48 / 5))) (generateFloatUpper LangDefault sampleFmt
        (Var.this "Price") "Price" { FloatLt := some 10, FloatLte := some (19 / 2) }) ≠ some []
    ∧ execList (sampleEnv (Value.float (47 / 5))) (generateFloatUpper LangDefault sampleFmt
        (Var.this "Price") "Price" { FloatLt := some 10, FloatLte := some (19 / 2) }) = some [] := by
  refine ⟨?_, ?_, ?_⟩
  · have h := (float_upper_reconciliation LangDefault sampleFmt (sampleEnv (Value.float (48 / 5)))
      (Var.this "Price") "Price" { FloatLt := some 10, FloatLte := some (19 / 2) } (48 / 5) rfl
      (Or.inl rfl)).2.1 10 (19 / 2) rfl rfl
    have hlt : ((19 / 2 : ℚ) < 10 + (none : Option ℚ).getD 0) := by norm_num
    simpa only [if_pos hlt] using h
  · intro hpass
    have h := ((float_upper_reconciliation LangDefault sampleFmt (sampleEnv (Value.float (48 / 5)))
      (Var.this "Price") "Price" { FloatLt := some 10, FloatLte := some (19 / 2) } (48 / 5) rfl
      (Or.inl rfl)).2.2.1.mp hpass).1 (19 / 2) rfl
    norm_num at h
  · refine (float_upper_reconciliation LangDefault sampleFmt (sampleEnv (Value.float (47 / 5)))
      (Var.this "Price") "Price" { FloatLt := some 10, FloatLte := some (19 / 2) } (47 / 5) rfl
      (Or.inl rfl)).2.2.1.mpr ⟨?_, ?_⟩
    · intro b hb
      have hb2 : (19 / 2 : ℚ) = b := Option.some.inj hb
      rw [← hb2]
      norm_num
    · intro a ha
      have ha2 : (10 : ℚ) = a := Option.some.inj ha
      rw [← ha2]
      norm_num

/-- C8: lower float bound reconciliation, over exact rationals, with `e` the tolerance (0 when
`float_epsilon` is absent).  For a constraint with `float_gt = a` and/or `float_gte = b`:
exactly one lower check is generated; when both are set it is the inclusive check `v >= b` if
`b > a - e` and the strict check `v + e > a` otherwise; a value passes the lower check iff it
satisfies every set lower constraint (`v >= b` and `v + e > a`); a value that does not pass
gets one violation. -/
theorem float_lower_reconciliation (lang : String) (ff : FloatFmt) (env : Env)
    (variableName : Var) (fieldName : String) (fv : FieldValidator) (v : ℚ)
    (hv : evalVar env variableName = some (Value.float v))
    (hset : fv.FloatGt.isSome ∨ fv.FloatGte.isSome) :
    (generateFloatLower lang ff variableName fieldName fv).length = 1
    ∧ (∀ a b, fv.FloatGt = some a → fv.FloatGte = some b →
        ∃ body, generateFloatLower lang ff variableName fieldName fv =
          [Stmt.ifThen
            (if b > a - fv.FloatEpsilon.getD 0 then
              Cond.notFloatCmp variableName Shift.none CmpOp.ge b
              else Cond.notFloatCmp variableName (lowerShift fv) CmpOp.gt a) body])
    ∧ (execList env (generateFloatLower lang ff variableName fieldName fv) = some [] ↔
        (∀ b, fv.FloatGte = some b → v ≥ b)
          ∧ (∀ a, fv.FloatGt = some a → v + fv.FloatEpsilon.getD 0 > a))
    ∧ (execList env (generateFloatLower lang ff variableName fieldName fv) = some [] ∨
        ∃ d, execList env (generateFloatLower lang ff variableName fieldName fv)
          = some [{ Field := fieldName, Description := d }]) := by
  obtain ⟨specificError, hgen⟩ := generateFloatLower_eq lang ff variableName fieldName fv hset
  refine ⟨by rw [hgen]; rfl, ?_, ?_, ?_⟩
  · intro a b ha hb
    refine ⟨generateErrorString lang variableName fieldName specificError fv, ?_⟩
    rw [hgen, lowerIsStrict_both fv a b ha hb]
    by_cases hlt : b > a - fv.FloatEpsilon.getD 0 <;>
      simp [hlt, FieldValidator.GetFloatGt, FieldValidator.GetFloatGte, ha, hb]
  · rw [hgen, execList_singleton]
    cases ha : fv.FloatGt with
    | none =>
      cases hb : fv.FloatGte with
      | none => simp [ha, hb] at hset
      | some b =>
        have hs : lowerIsStrict fv = false := by simp [lowerIsStrict, ha, hb]
        simp [hs, exec_floatCheck _ _ _ _ _ _ _ _ _ _ hv, cmpRat, Shift.apply,
          FieldValidator.GetFloatGte, hb]
    | some a =>
      cases hb : fv.FloatGte with
      | none =>
        have hs : lowerIsStrict fv = true := by simp [lowerIsStrict, ha, hb]
        simp [hs, exec_floatCheck _ _ _ _ _ _ _ _ _ _ hv, cmpRat, lowerShift_apply,
          FieldValidator.GetFloatGt, ha]
      | some b =>
        rw [lowerIsStrict_both fv a b ha hb]
        by_cases hlt : b > a - fv.FloatEpsilon.getD 0
        · simp only [hlt, decide_True, Bool.not_true, Bool.false_eq_true, if_false,
            exec_floatCheck _ _ _ _ _ _ _ _ _ _ hv, cmpRat, Shift.apply,
            FieldValidator.GetFloatGte, hb, Option.getD_some]
          simp only [Option.some.injEq, ite_eq_left_iff, decide_eq_true_eq, forall_eq']
          constructor
          · intro h
            have hvb : v ≥ b := by
              by_contra hc
              exact absurd (h hc) (by simp)
            exact ⟨hvb, by linarith⟩
          · intro h hc
            exact absurd h.1 hc
        · simp only [hlt, decide_False, Bool.not_false, if_true,
            exec_floatCheck _ _ _ _ _ _ _ _ _ _ hv, cmpRat, lowerShift_apply,
            FieldValidator.GetFloatGt, ha, Option.getD_some]
          simp only [Option.some.injEq, ite_eq_left_iff, decide_eq_true_eq, forall_eq']
          constructor
          · intro h
            have hva : v + fv.FloatEpsilon.getD 0 > a := by
              by_contra hc
              exact absurd (h hc) (by simp)
            exact ⟨by linarith, hva⟩
          · intro h hc
            exact absurd h.2 hc
  · rw [hgen, execList_singleton]
    split
    · rw [exec_floatCheck _ _ _ _ _ _ _ _ _ _ hv]
      split
      · exact Or.inl rfl
      · exact Or.inr ⟨_, rfl⟩
    · rw [exec_floatCheck _ _ _ _ _ _ _ _ _ _ hv]
      split
      · exact Or.inl rfl
      · exact Or.inr ⟨_, rfl⟩

/-- The witness of C8: with `float_gt = 0.0` and `float_epsilon = 0.01` the value 0.005 passes
and the value -0.02 fails. -/
theorem float_lower_reconciliation_witness :
    execList (sampleEnv (Value.float (1 / 200))) (generateFloatLower LangDefault sampleFmt
        (Var.this "Price") "Price" { FloatGt := some 0, FloatEpsilon := some (1 / 100) }) = some []
    ∧ execList (sampleEnv (Value.float (-1 / 50))) (generateFloatLower LangDefault sampleFmt
        (Var.this "Price") "Price" { FloatGt := some 0, FloatEpsilon := some (1 / 100) }) ≠ some [] := by
  refine ⟨?_, ?_⟩
  · refine (float_lower_reconciliation LangDefault sampleFmt (sampleEnv (Value.float (1 / 200)))
      (Var.this "Price") "Price" { FloatGt := some 0, FloatEpsilon := some (1 / 100) } (1 / 200) rfl
      (Or.inl rfl)).2.2.1.mpr ⟨?_, ?_⟩
    · intro b hb
      exact absurd hb (by simp)
    · intro a ha
      have ha2 : (0 : ℚ) = a := Option.some.inj ha
      rw [← ha2]
      norm_num
  · intro hpass
    have h := ((float_lower_reconciliation LangDefault sampleFmt (sampleEnv (Value.float (-1 / 50)))
      (Var.this "Price") "Price" { FloatGt := some 0, FloatEpsilon := some (1 / 100) } (-1 / 50) rfl
      (Or.inl rfl)).2.2.1.mp hpass).2 0 rfl
    norm_num at h

theorem generateErrorString_dropEpsilon (lang : String) (variableName : Var)
    (fieldName specificError : String) (fv : FieldValidator) :
    generateErrorString lang variableName fieldName specificError { fv with FloatEpsilon := none }
      = generateErrorString lang variableName fieldName specificError fv := by
  simp [generateErrorString, FieldValidator.GetHumanError]

theorem generateFloatLower_dropEpsilon (lang : String) (ff : FloatFmt) (variableName : Var)
    (fieldName : String) (fv : FieldValidator)
    (h : strictLowerActive fv = false)
    (h' : strictLowerActive { fv with FloatEpsilon := none } = false) :
    generateFloatLower lang ff variableName fieldName { fv with FloatEpsilon := none }
      = generateFloatLower lang ff variableName fieldName fv := by
  unfold generateFloatLower
  by_cases hset : fv.FloatGt.isSome ∨ fv.FloatGte.isSome
  · have hs : lowerIsStrict fv = false := by
      rcases hset with hset | hset <;> simpa [strictLowerActive, hset] using h
    have hs' : lowerIsStrict { fv with FloatEpsilon := none } = false := by
      rcases hset with hset | hset <;> simpa [strictLowerActive, hset] using h'
    simp only [hset, hs, hs', if_true, Bool.false_eq_true, if_false,
      generateErrorString_dropEpsilon]
    rfl
  · simp only [hset, if_false]

theorem generateFloatUpper_dropEpsilon (lang : String) (ff : FloatFmt) (variableName : Var)
    (fieldName : String) (fv : FieldValidator)
    (h : strictUpperActive fv = false)
    (h' : strictUpperActive { fv with FloatEpsilon := none } = false) :
    generateFloatUpper lang ff variableName fieldName { fv with FloatEpsilon := none }
      = generateFloatUpper lang ff variableName fieldName fv := by
  unfold generateFloatUpper
  by_cases hset : fv.FloatLt.isSome ∨ fv.FloatLte.isSome
  · have hs : upperIsStrict fv = false := by
      rcases hset with hset | hset <;> simpa [strictUpperActive, hset] using h
    have hs' : upperIsStrict { fv with FloatEpsilon := none } = false := by
      rcases hset with hset | hset <;> simpa [strictUpperActive, hset] using h'
    simp only [hset, hs, hs', if_true, Bool.false_eq_true, if_false,
      generateErrorString_dropEpsilon]
    rfl
  · simp only [hset, if_false]

theorem generateDecimalPlaces_dropEpsilon (lang : String) (table : List (String × String))
    (variableName : Var) (fieldName : String) (fv : FieldValidator) (index : Nat) :
    generateDecimalPlaces lang table variableName fieldName { fv with FloatEpsilon := none } index
      = generateDecimalPlaces lang table variableName fieldName fv index := by
  unfold generateDecimalPlaces
  simp only [generateErrorString_dropEpsilon]
  rfl

/-- Without a strict bound no check is strict. -/
theorem strictActive_of_no_strict_bound (fv : FieldValidator) (hgt : fv.FloatGt = none)
    (hlt : fv.FloatLt = none) :
    strictUpperActive fv = false ∧ strictLowerActive fv = false := by
  constructor
  · cases h : fv.FloatLte <;> simp [strictUpperActive, upperIsStrict, hlt, h]
  · cases h : fv.FloatGte <;> simp [strictLowerActive, lowerIsStrict, hgt, h]

/-- C9 (as stated, refuted): with `float_lt = 10`, `float_lte = 10.005` and
`float_epsilon = 0.01` neither resolved bound is strict (the check is `v <= 10.005`), yet the
checks differ from those of the same constraint without `float_epsilon` (there the check is
`v < 10`): the value 10.002 passes the first and fails the second. -/
theorem epsilon_decides_inclusive_choice :
    strictUpperActive epsilonSample = false ∧ strictLowerActive epsilonSample = false
    ∧ generateFloatValidator LangDefault sampleFmt [] (Var.this "Price") "Item" "Price"
        epsilonSample 0
      ≠ generateFloatValidator LangDefault sampleFmt [] (Var.this "Price") "Item" "Price"
        { epsilonSample with FloatEpsilon := none } 0
    ∧ execList (sampleEnv (Value.float (5001 / 500))) (generateFloatValidator LangDefault sampleFmt []
        (Var.this "Price") "Item" "Price" epsilonSample 0) = some []
    ∧ execList (sampleEnv (Value.float (5001 / 500))) (generateFloatValidator LangDefault sampleFmt []
        (Var.this "Price") "Item" "Price" { epsilonSample with FloatEpsilon := none } 0) ≠ some [] := by
  have hu : upperIsStrict epsilonSample = false := by
    simp [upperIsStrict, epsilonSample, FieldValidator.GetFloatLt, FieldValidator.GetFloatLte,
      FieldValidator.GetFloatEpsilon]
    norm_num
  have hu' : upperIsStrict { epsilonSample with FloatEpsilon := none } = true := by
    simp [upperIsStrict, epsilonSample, FieldValidator.GetFloatLt, FieldValidator.GetFloatLte,
      FieldValidator.GetFloatEpsilon]
    norm_num
  refine ⟨?_, ?_, ?_, ?_, ?_⟩
  · simp [strictUpperActive, hu]
  · simp [strictLowerActive, epsilonSample]
  · intro h
    simp [generateFloatValidator, generateFloatLower, generateFloatUpper, generateDecimalPlaces,
      hu, hu'] at h
    simp [epsilonSample] at h
  · have hv : evalVar (sampleEnv (Value.float (5001 / 500))) (Var.this "Price")
        = some (Value.float (5001 / 500)) := rfl
    simp only [generateFloatValidator, generateFloatLower, generateFloatUpper,
      generateDecimalPlaces, hu]
    simp only [epsilonSample, Option.isSome_none, Option.isSome_some, Bool.false_eq_true, or_self,
      or_true, true_or, if_false, if_true, List.nil_append, List.append_nil, execList_singleton,
      exec_floatCheck _ _ _ _ _ _ _ _ _ _ hv, cmpRat, Shift.apply, FieldValidator.GetFloatLte,
      Option.getD_some]
    norm_num
  · have hv : evalVar (sampleEnv (Value.float (5001 / 500))) (Var.this "Price")
        = some (Value.float (5001 / 500)) := rfl
    simp only [generateFloatValidator, generateFloatLower, generateFloatUpper,
      generateDecimalPlaces, hu']
    simp only [epsilonSample, Option.isSome_none, Option.isSome_some, Bool.false_eq_true, or_self,
      or_true, true_or, if_false, if_true, List.nil_append, List.append_nil, execList_singleton,
      exec_floatCheck _ _ _ _ _ _ _ _ _ _ hv, cmpRat, Shift.apply, FieldValidator.GetFloatLt,
      Option.getD_some]
    norm_num

/-- C9 (amended): `float_epsilon` is ignored when neither resolved bound is strict both with it
and without it: the checks of `generateFloatValidator` are then the same as for the constraint
with `float_epsilon` removed.  This is the case whenever neither `float_gt` nor `float_lt` is
set. -/
theorem epsilon_ignored_without_strict_bound (lang : String) (ff : FloatFmt)
    (table : List (String × String)) (variableName : Var) (ccTypeName fieldName : String)
    (fv : FieldValidator) (index : Nat) :
    (strictUpperActive fv = false → strictLowerActive fv = false →
      strictUpperActive { fv with FloatEpsilon := none } = false →
      strictLowerActive { fv with FloatEpsilon := none } = false →
      generateFloatValidator lang ff table variableName ccTypeName fieldName fv index
        = generateFloatValidator lang ff table variableName ccTypeName fieldName
            { fv with FloatEpsilon := none } index)
    ∧ (fv.FloatGt = none → fv.FloatLt = none →
      generateFloatValidator lang ff table variableName ccTypeName fieldName fv index
        = generateFloatValidator lang ff table variableName ccTypeName fieldName
            { fv with FloatEpsilon := none } index) := by
  have key : strictUpperActive fv = false → strictLowerActive fv = false →
      strictUpperActive { fv with FloatEpsilon := none } = false →
      strictLowerActive { fv with FloatEpsilon := none } = false →
      generateFloatValidator lang ff table variableName ccTypeName fieldName fv index
        = generateFloatValidator lang ff table variableName ccTypeName fieldName
            { fv with FloatEpsilon := none } index := by
    intro h1 h2 h3 h4
    unfold generateFloatValidator
    rw [generateFloatLower_dropEpsilon lang ff variableName fieldName fv h2 h4,
      generateFloatUpper_dropEpsilon lang ff variableName fieldName fv h1 h3,
      generateDecimalPlaces_dropEpsilon]
  refine ⟨key, ?_⟩
  intro hgt hlt
  have h := strictActive_of_no_strict_bound fv hgt hlt
  have h' := strictActive_of_no_strict_bound { fv with FloatEpsilon := none } hgt hlt
  exact key h.1 h.2 h'.1 h'.2

/-- The witness of C9 (amended): `float_gte = 1` with `float_epsilon = 0.01` generates what
`float_gte = 1` alone generates. -/
theorem epsilon_ignored_without_strict_bound_witness :
    generateFloatValidator LangDefault sampleFmt [] (Var.this "Price") "Item" "Price"
        { FloatGte := some 1, FloatEpsilon := some (1 / 100) } 0
      = generateFloatValidator LangDefault sampleFmt [] (Var.this "Price") "Item" "Price"
        { FloatGte := some 1 } 0 :=
  (epsilon_ignored_without_strict_bound LangDefault sampleFmt [] (Var.this "Price") "Item" "Price"
    { FloatGte := some 1, FloatEpsilon := some (1 / 100) } 0).2 rfl rfl

/-! ## Pattern variables and pattern checks -/

/-- The declarations of a list of validators are those of its parts, each at its position. -/
theorem generateRegexVarsFrom_append (ccTypeName fieldName : String) (i : Nat)
    (a b : List FieldValidator) :
    (generateRegexVarsFrom ccTypeName fieldName i (a ++ b)).1 =
      (generateRegexVarsFrom ccTypeName fieldName i a).1
        ++ (generateRegexVarsFrom ccTypeName fieldName (i + a.length) b).1 := by
  induction a generalizing i with
  | nil => simp [generateRegexVarsFrom]
  | cons v rest ih =>
    show (generateRegexVarsFrom ccTypeName fieldName i (v :: (rest ++ b))).1 = _
    simp only [generateRegexVarsFrom, ih, List.append_assoc, List.length_cons]
    rw [show i + 1 + rest.length = i + (rest.length + 1) by omega]

/-- C5 (as stated, refuted): for the field `id` of `Msg` with both `regex` and `uuid_ver = 4`
set, `generateRegexVars` declares no pattern variable at all, so the synthesized UUID pattern is
not registered for (`Msg`, `Id`, 0), and the generated routine cannot run its pattern check
against the declared variables. -/
theorem regex_and_uuid_pattern_not_registered :
    (generateRegexVars samplePlugin (idMessage [regexAndUuid])).1 = []
    ∧ (¬ ∃ pattern, getUUIDRegex regexAndUuid.UuidVer = Except.ok pattern
        ∧ (regexName "Msg" "Id" 0, pattern)
          ∈ (generateRegexVars samplePlugin (idMessage [regexAndUuid])).1)
    ∧ (generateProto3Message samplePlugin {}
          (generateRegexVars samplePlugin (idMessage [regexAndUuid])).2).1.run
        { sampleEnv (Value.str "abc") with
          regexVars := (generateRegexVars samplePlugin (idMessage [regexAndUuid])).1 } = none := by
  have h : (generateRegexVars samplePlugin (idMessage [regexAndUuid])).1 = [] := by
    simp [generateRegexVars, generateRegexVarsFields, generateRegexVarsFrom, generateRegexVar,
      idMessage, idField, regexAndUuid, getFieldValidatorIfAny]
  refine ⟨h, ?_, rfl⟩
  rw [h]
  simp

/-- C5 (amended): a constraint that sets both `regex` and `uuid_ver` registers no compiled
pattern: the loop body of `generateRegexVars` declares nothing for it and leaves it unchanged,
and the declarations of the field are those of its other constraints, each at its position. -/
theorem regex_and_uuid_register_nothing (ccTypeName fieldName : String) (i : Nat)
    (fv : FieldValidator) (hr : fv.Regex.isSome) (hu : fv.UuidVer.isSome) :
    generateRegexVar ccTypeName fieldName i fv = ([], fv)
    ∧ ∀ before after : List FieldValidator,
        (generateRegexVarsFrom ccTypeName fieldName 0 (before ++ fv :: after)).1 =
          (generateRegexVarsFrom ccTypeName fieldName 0 before).1
            ++ (generateRegexVarsFrom ccTypeName fieldName (before.length + 1) after).1 := by
  have hvar : ∀ j, generateRegexVar ccTypeName fieldName j fv = ([], fv) := by
    intro j
    simp [generateRegexVar, hr, hu]
  refine ⟨hvar i, ?_⟩
  intro before after
  rw [generateRegexVarsFrom_append]
  simp [generateRegexVarsFrom, hvar]

/-- The witness of C5 (amended): the constraint with `regex` and `uuid_ver = 4`. -/
theorem regex_and_uuid_register_nothing_witness :
    generateRegexVar "Msg" "Id" 0 regexAndUuid = ([], regexAndUuid) :=
  (regex_and_uuid_register_nothing "Msg" "Id" 0 regexAndUuid rfl rfl).1

/-- C6 (as stated, refuted): for the field `id` of `Msg` with `uuid_ver = 6`, `getUUIDRegex`
fails, and `generateProto3Message` still returns a routine, whose body holds a pattern check on
`_regex_Msg_Id_00`. -/
theorem invalid_uuid_version_check_emitted :
    (∃ err, getUUIDRegex uuidSix.UuidVer = Except.error err)
    ∧ (generateProto3Message samplePlugin {} (idMessage [uuidSix])).1.body
      = some [Stmt.ifThen (Cond.notRegexMatch "_regex_Msg_Id_00" (Var.this "Id"))
          [Stmt.appendViolation "Id"
            (Desc.sprintf "value '%v' must be a string conforming to regex \"\"" (Var.this "Id"))]] :=
  ⟨⟨_, rfl⟩, rfl⟩

/-- C6 (amended): a `uuid_ver` outside 0..5 is reported by `getUUIDRegex` and does not stop
generation: `generateRegexVars` declares no pattern variable for the constraint, leaves it
unchanged and goes on with the remaining constraints of the field, and
`generateStringValidator` leaves the constraint unchanged. -/
theorem invalid_uuid_version_is_skipped (lang : String) (variableName : Var)
    (ccTypeName fieldName : String) (i : Nat) (fv : FieldValidator) (v : Int)
    (hu : fv.UuidVer = some v) (hv : v < 0 ∨ v > 5) :
    (∃ err, getUUIDRegex fv.UuidVer = Except.error err)
    ∧ generateRegexVar ccTypeName fieldName i fv = ([], fv)
    ∧ (generateStringValidator lang variableName ccTypeName fieldName fv i).2 = fv
    ∧ ∀ rest : List FieldValidator,
        generateRegexVarsFrom ccTypeName fieldName i (fv :: rest) =
          ((generateRegexVarsFrom ccTypeName fieldName (i + 1) rest).1,
            fv :: (generateRegexVarsFrom ccTypeName fieldName (i + 1) rest).2) := by
  have herr : getUUIDRegex (some v) = Except.error
      (Sprintf "UUID version should be between 0-5, Got %d" "%d" (int32Operand v)) := by
    simp [getUUIDRegex, hv]
  have hvar : generateRegexVar ccTypeName fieldName i fv = ([], fv) := by
    unfold generateRegexVar
    cases hr : fv.Regex <;> simp [hu, herr]
  refine ⟨⟨_, by rw [hu, herr]⟩, hvar, ?_, ?_⟩
  · simp [generateStringValidator, hu, herr]
  · intro rest
    simp [generateRegexVarsFrom, hvar]

/-- The witness of C6 (amended): the constraint with `uuid_ver = 6`. -/
theorem invalid_uuid_version_is_skipped_witness :
    generateRegexVar "Msg" "Id" 0 uuidSix = ([], uuidSix)
    ∧ (generateStringValidator LangDefault (Var.this "Id") "Msg" "Id" uuidSix 0).2 = uuidSix :=
  ⟨(invalid_uuid_version_is_skipped LangDefault (Var.this "Id") "Msg" "Id" 0 uuidSix 6 rfl
      (Or.inr (by decide))).2.1,
   (invalid_uuid_version_is_skipped LangDefault (Var.this "Id") "Msg" "Id" 0 uuidSix 6 rfl
      (Or.inr (by decide))).2.2.1⟩

/-! ## Nested messages (proto3) -/

theorem generateProto3Fields_append (p : Plugin) (file : FileDescriptor) (ccTypeName : String)
    (a b : List FieldDescriptor) :
    (generateProto3Fields p file ccTypeName (a ++ b)).1 =
      (generateProto3Fields p file ccTypeName a).1
        ++ (generateProto3Fields p file ccTypeName b).1 := by
  induction a with
  | nil => simp [generateProto3Fields]
  | cons f rest ih =>
    show (generateProto3Fields p file ccTypeName (f :: (rest ++ b))).1 = _
    simp only [generateProto3Fields, ih, List.append_assoc]

/-- A message field has no scalar checks: the dispatch on the field's type finds no branch. -/
theorem generateValidatorsFrom_message (p : Plugin) (field : FieldDescriptor) (variableName : Var)
    (ccTypeName fieldName : String) (hmsg : field.Typ = FieldType.TYPE_MESSAGE) (i : Nat)
    (validators : List FieldValidator) :
    generateValidatorsFrom p field variableName ccTypeName fieldName i validators
      = ([], validators) := by
  induction validators generalizing i with
  | nil => rfl
  | cons v rest ih =>
    simp [generateValidatorsFrom, ih, FieldDescriptor.IsString, FieldDescriptor.IsEnum,
      FieldDescriptor.IsBytes, isSupportedInt, isSupportedFloat, hmsg]

/-- The presence checks add nothing when the field is present. -/
theorem exec_generateMessagePresence (lang : String) (env : Env) (variableName : Var)
    (fieldName : String) (nullable repeated : Bool) (validators : List FieldValidator)
    (repr : String) (children : List Violation)
    (hv : evalVar env variableName = some (Value.msg repr children)) :
    execList env (validators.flatMap
      (generateMessagePresence lang variableName fieldName nullable repeated)) = some [] := by
  induction validators with
  | nil => simp
  | cons v rest ih =>
    rw [List.flatMap_cons, execList_append, ih]
    unfold generateMessagePresence
    rw [execList_append]
    have h1 : execList env (if v.MsgExists = some true then
        if nullable = true ∧ ¬ repeated = true then
          [Stmt.ifThen (Cond.isNil variableName)
            (generateErrorStringEmpty lang variableName fieldName (mapIndex errorMsgExists lang) v)]
        else []
      else []) = some [] := by
      split
      · split
        · simp [exec, evalCond, hv, isNull]
        · simp
      · simp
    rw [h1]
    cases hm : v.MsgExistsIfAnotherNot with
    | none => simp
    | some another =>
      simp only []
      split
      · simp [exec, evalCond, hv, isNull]
      · simp

/-- The child call on a present message appends the child's violations, re-parented. -/
theorem exec_generateChildCall (env : Env) (variableName : Var) (fieldName : String)
    (nullable : Bool) (repr : String) (children : List Violation)
    (hv : evalVar env variableName = some (Value.msg repr children)) :
    execList env (generateChildCall variableName fieldName nullable)
      = some (children.map (reparent fieldName)) := by
  unfold generateChildCall
  split
  · simp [exec, evalCond, hv, isNull]
  · simp [exec, evalVar, hv]

theorem collect_children (env : Env) (body : List Stmt) (fieldName : String)
    (items : List (String × List Violation))
    (h : ∀ it ∈ items, execList { env with item := some (Value.msg it.1 it.2) } body
      = some (it.2.map (reparent fieldName))) :
    collect (fun it => execList { env with item := some it } body)
        (items.map (fun it => Value.msg it.1 it.2))
      = some (items.flatMap (fun it => it.2.map (reparent fieldName))) := by
  induction items with
  | nil => rfl
  | cons it rest ih =>
    simp only [List.map_cons, collect, List.flatMap_cons]
    rw [h it (by simp), ih (fun x hx => h x (by simp [hx]))]
    rfl

/-- C10: in the routine of `generateProto3Message`, the code of a message field `f` that is
present turns the violations `c_1..c_n` its child validation returns into exactly `n` entries,
in the same order, with the field path `f`'s (generated) name + "." + `c_i.Field` and the
description unchanged.  For a singular field (a plain field or the alternative of a oneof that
is set) these are all the entries of the field, and the routine returns them between the entries
of what precedes and of what follows the field.  For a repeated field (not a map) they follow
the field's count violations, element by element. -/
theorem nested_violations_reparented (p : Plugin) (file : FileDescriptor) (ccTypeName : String)
    (field : FieldDescriptor) (env : Env) (hmsg : field.Typ = FieldType.TYPE_MESSAGE) :
    (∀ (repr : String) (children : List Violation), field.Repeated = false →
      (if field.OneofIndex.isSome then
          env.oneof (p.GetFieldName field) = some (field.oneOfTypeName, Value.msg repr children)
        else env.field (p.GetOneOfFieldName field) = Value.msg repr children) →
      execList env (generateProto3Field p file ccTypeName field).1 =
          some (children.map (fun c =>
            { Field := p.GetOneOfFieldName field ++ "." ++ c.Field, Description := c.Description }))
      ∧ ∀ (message : Descriptor) (pre post : List FieldDescriptor) (before after : List Violation),
          message.ccTypeName = ccTypeName → message.Field = pre ++ field :: post →
          execList env (message.OneofDecl.flatMap (generateProto3Oneof p.lang)
            ++ (generateProto3Fields p file ccTypeName pre).1) = some before →
          execList env (generateProto3Fields p file ccTypeName post).1 = some after →
          (generateProto3Message p file message).1.run env =
            some (before ++ children.map (fun c =>
              { Field := p.GetOneOfFieldName field ++ "." ++ c.Field, Description := c.Description })
              ++ after))
    ∧ (∀ (items : List (String × List Violation)) (counts : List Violation),
        field.Repeated = true → field.typeIsMapEntry = false → field.OneofIndex = none →
        env.field (p.GetOneOfFieldName field)
          = Value.list (items.map (fun it => Value.msg it.1 it.2)) →
        execList env (generateRepeatedCountValidator p.lang (Var.this (p.GetOneOfFieldName field))
          ccTypeName (p.GetOneOfFieldName field) field.validators) = some counts →
        execList env (generateProto3Field p file ccTypeName field).1 =
          some (counts ++ items.flatMap (fun it => it.2.map (fun c =>
            { Field := p.GetOneOfFieldName field ++ "." ++ c.Field,
              Description := c.Description })))) := by
  have hM : field.IsMessage = true := by simp [FieldDescriptor.IsMessage, hmsg]
  constructor
  · intro repr children hrep hpresent
    have hfield : execList env (generateProto3Field p file ccTypeName field).1 =
          some (children.map (reparent (p.GetOneOfFieldName field))) := by
      have hR : field.IsRepeated = false := hrep
      have hmap : fieldIsProto3Map field = false := by simp [fieldIsProto3Map, hR]
      unfold generateProto3Field
      simp only [hM, hR, hmap, Bool.false_and, Bool.false_eq_true, if_false, not_true_eq_false,
        and_false, generateValidatorsFrom_message p field _ ccTypeName _ hmsg, List.nil_append,
        getFieldValidatorIfAny, Bool.and_true, Bool.true_and]
      by_cases ho : field.OneofIndex.isSome = true
      · rw [if_pos ho] at hpresent
        simp only [ho, if_true, execList_singleton, exec, hpresent]
        rw [execList_append,
          exec_generateMessagePresence _ _ _ _ _ _ _ repr children (by simp [evalVar]),
          exec_generateChildCall _ _ _ _ repr children (by simp [evalVar])]
        simp
      · rw [if_neg ho] at hpresent
        simp only [ho, if_false, Bool.false_eq_true, if_true]
        rw [execList_append,
          exec_generateMessagePresence _ _ _ _ _ _ _ repr children (by simp [evalVar, hpresent]),
          exec_generateChildCall _ _ _ _ repr children (by simp [evalVar, hpresent])]
        simp
    refine ⟨hfield, ?_⟩
    intro message pre post before after hcc hfields hbefore hafter
    have hex : fieldValidatorExists message = true := by
      simp only [fieldValidatorExists, Bool.or_eq_true, List.any_eq_true]
      right
      exact ⟨field, by simp [hfields], by simp [FieldDescriptor.IsMessage, hmsg]⟩
    unfold generateProto3Message
    simp only [hex, if_true, Routine.run, hcc, hfields, generateProto3Fields_append]
    have hsplit : (generateProto3Fields p file ccTypeName (field :: post)).1 =
        (generateProto3Field p file ccTypeName field).1
          ++ (generateProto3Fields p file ccTypeName post).1 := by
      simp [generateProto3Fields]
    rw [hsplit, ← List.append_assoc, execList_append, hbefore, execList_append, hfield, hafter]
    simp [reparent]
  · intro items counts hrep hnomap hone hval hcount
    have hR : field.IsRepeated = true := hrep
    have hmap : fieldIsProto3Map field = false := by simp [fieldIsProto3Map, hR, hnomap]
    unfold generateProto3Field
    simp only [hM, hR, hmap, hone, Option.isSome_none, Bool.false_eq_true, if_false,
      not_true_eq_false, and_false, generateValidatorsFrom_message p field _ ccTypeName _ hmsg,
      List.nil_append, getFieldValidatorIfAny, Bool.and_true, Bool.true_and, Bool.true_or, if_true]
    rw [execList_append, hcount, execList_singleton]
    simp only [exec, evalVar, hval]
    rw [collect_children env _ (p.GetOneOfFieldName field) items]
    · rfl
    · intro it _
      rw [execList_append,
        exec_generateMessagePresence _ _ _ _ _ _ _ it.1 it.2 (by simp [evalVar]),
        exec_generateChildCall _ _ _ _ it.1 it.2 (by simp [evalVar])]
      simp

/-- The witness of C10: a child violation on `Zip` under the field `Address` becomes the one
entry `Address.Zip`. -/
theorem nested_violations_reparented_witness :
    execList (sampleEnv (Value.msg "" [{ Field := "Zip", Description := "bad zip" }]))
        (generateProto3Field samplePlugin {} "Person" addressField).1
      = some [{ Field := "Address.Zip", Description := "bad zip" }] :=
  ((nested_violations_reparented samplePlugin {} "Person" addressField
      (sampleEnv (Value.msg "" [{ Field := "Zip", Description := "bad zip" }])) rfl).1
    "" [{ Field := "Zip", Description := "bad zip" }] rfl rfl).1

/-- C11 (the code at the failing input): for the proto2 message `Person` with the message
field `address`, the routine of `generateProto2Message` passes the message by value,
`CallValidatorIfExists(*(this.Address))`, so the child's `Validate` (a method of the pointer)
is not reached and the child violation on `Zip` is lost: the routine returns no violation,
where the routine of `generateProto3Message` returns it with the path `Address.Zip`.  Where the
proto2 routine does pass a pointer (an embedded field under the gogo import), it appends what
the child returns as it is: the violation comes back with the path `Zip`. -/
theorem proto2_child_violations_not_reparented :
    (generateProto2Message samplePlugin proto2File personMessage).1.body
      = some [Stmt.ifThen (Cond.notNil (Var.this "Address"))
          [Stmt.callChildFlat (Var.deref (Var.this "Address"))]]
    ∧ (generateProto2Message samplePlugin proto2File personMessage).1.run
        (sampleEnv (Value.msg "" [{ Field := "Zip", Description := "bad zip" }]))
      = some []
    ∧ (generateProto3Message samplePlugin {} personMessage).1.run
        (sampleEnv (Value.msg "" [{ Field := "Zip", Description := "bad zip" }]))
      = some [{ Field := "Address.Zip", Description := "bad zip" }]
    ∧ (generateProto2Message gogoPlugin gogoProto2File
          { ccTypeName := "Person", Field := [embeddedAddress] }).1.body
      = some [Stmt.callChildFlat (Var.this "Address")]
    ∧ (generateProto2Message gogoPlugin gogoProto2File
          { ccTypeName := "Person", Field := [embeddedAddress] }).1.run
        (sampleEnv (Value.msg "" [{ Field := "Zip", Description := "bad zip" }]))
      = some [{ Field := "Zip", Description := "bad zip" }] :=
  ⟨rfl, rfl, rfl, rfl, rfl⟩

/-! ## Oneof groups -/

/-- The check of a required oneof: one violation when no alternative is set, none otherwise. -/
theorem exec_generateProto3Oneof_required (lang : String) (env : Env) (oneof : OneofDescriptor)
    (ov : OneofValidator) (hv : oneof.validator = some ov) (hreq : ov.GetRequired = true) :
    execList env (generateProto3Oneof lang oneof) =
      some (if (env.oneof oneof.camelName).isNone then
        [{ Field := oneof.camelName, Description := mapIndex errorOneofValidator lang }]
        else []) := by
  unfold generateProto3Oneof
  simp only [getOneofValidatorIfAny, hv, hreq, if_true, execList_singleton, exec]
  cases h : env.oneof oneof.camelName <;> simp [exec, evalDesc]

/-- The code of a oneof member does nothing while its alternative is not the one set. -/
theorem exec_generateProto3Field_unset (p : Plugin) (file : FileDescriptor) (ccTypeName : String)
    (field : FieldDescriptor) (env : Env) (hone : field.OneofIndex.isSome = true)
    (hunset : ∀ payload, env.oneof (p.GetFieldName field) ≠ some (field.oneOfTypeName, payload)) :
    execList env (generateProto3Field p file ccTypeName field).1 = some [] := by
  have hbody : ∀ body : List Stmt,
      exec env (Stmt.ifOneof (p.GetFieldName field) field.oneOfTypeName body) = some [] := by
    intro body
    simp only [exec]
    cases h : env.oneof (p.GetFieldName field) with
    | none => rfl
    | some alt =>
      obtain ⟨ty, payload⟩ := alt
      by_cases hty : ty = field.oneOfTypeName
      · exact absurd (hty ▸ h) (hunset payload)
      · simp [hty]
  unfold generateProto3Field
  by_cases h1 : (getFieldValidatorIfAny field).length = 0 ∧ ¬ field.IsMessage = true
  · rw [if_pos h1]
    rfl
  · rw [if_neg h1]
    by_cases h2 : fieldIsProto3Map field = true
    · simp only [h2, if_true]
      simp [exec]
    · simp only [h2, hone, if_true, Bool.false_eq_true, if_false, execList_singleton, hbody]

theorem exec_generateProto3Fields_unset (p : Plugin) (file : FileDescriptor) (ccTypeName : String)
    (fields : List FieldDescriptor) (env : Env)
    (h : ∀ field ∈ fields, field.OneofIndex.isSome = true
      ∧ ∀ payload, env.oneof (p.GetFieldName field) ≠ some (field.oneOfTypeName, payload)) :
    execList env (generateProto3Fields p file ccTypeName fields).1 = some [] := by
  induction fields with
  | nil => simp [generateProto3Fields]
  | cons f rest ih =>
    simp only [generateProto3Fields, execList_append]
    rw [exec_generateProto3Field_unset p file ccTypeName f env (h f (by simp)).1 (h f (by simp)).2,
      ih (fun x hx => h x (by simp [hx]))]
    rfl

/-- C12: in the routine of `generateProto3Message`, a oneof marked required (named by its
generated name, `CamelCase` of the declared one) yields exactly one violation when no
alternative is set, with `Field` the oneof's name and the locale's oneof message as
description, and none when an alternative is set, whatever the checks of that alternative
return.  For a message whose fields all belong to the oneof this is the whole result of the
routine: the one violation when nothing is set, the violations of the fields otherwise. -/
theorem required_oneof_violation (p : Plugin) (file : FileDescriptor) (env : Env)
    (oneof : OneofDescriptor) (ov : OneofValidator) (hv : oneof.validator = some ov)
    (hreq : ov.Required = some true) :
    (env.oneof oneof.camelName = none →
      execList env (generateProto3Oneof p.lang oneof) =
        some [{ Field := oneof.camelName, Description := mapIndex errorOneofValidator p.lang }])
    ∧ (∀ alt, env.oneof oneof.camelName = some alt →
      execList env (generateProto3Oneof p.lang oneof) = some [])
    ∧ (∀ (message : Descriptor), message.OneofDecl = [oneof] →
        (∀ field ∈ message.Field, field.OneofIndex.isSome = true
          ∧ p.GetFieldName field = oneof.camelName) →
        (env.oneof oneof.camelName = none →
          (generateProto3Message p file message).1.run env =
            some [{ Field := oneof.camelName,
                    Description := mapIndex errorOneofValidator p.lang }])
        ∧ (∀ (alt : String × Value) (fieldViolations : List Violation),
            env.oneof oneof.camelName = some alt →
            execList env (generateProto3Fields p file message.ccTypeName message.Field).1
              = some fieldViolations →
            (generateProto3Message p file message).1.run env = some fieldViolations)) := by
  have hreq' : ov.GetRequired = true := by simp [OneofValidator.GetRequired, hreq]
  have hblock := exec_generateProto3Oneof_required p.lang env oneof ov hv hreq'
  refine ⟨?_, ?_, ?_⟩
  · intro h
    rw [hblock, h]
    rfl
  · intro alt h
    rw [hblock, h]
    rfl
  · intro message hdecl hfields
    have hex : fieldValidatorExists message = true := by
      simp [fieldValidatorExists, hdecl, getOneofValidatorIfAny, hv]
    have hrun : (generateProto3Message p file message).1.run env =
        appendOpt (execList env (generateProto3Oneof p.lang oneof))
          (execList env (generateProto3Fields p file message.ccTypeName message.Field).1) := by
      unfold generateProto3Message
      simp only [hex, if_true, Routine.run, hdecl, List.flatMap_cons, List.flatMap_nil,
        List.append_nil, execList_append]
    constructor
    · intro h
      rw [hrun, hblock, h, exec_generateProto3Fields_unset p file _ _ env]
      · rfl
      · intro field hf
        refine ⟨(hfields field hf).1, ?_⟩
        intro payload
        rw [(hfields field hf).2, h]
        exact Option.noConfusion
    · intro alt fieldViolations h hf
      rw [hrun, hblock, h, hf]
      rfl

/-- The witness of C12: the required oneof `Choice` of `Pick` with no alternative set. -/
theorem required_oneof_violation_witness :
    (generateProto3Message samplePlugin {} pickMessage).1.run (sampleEnv Value.null)
      = some [{ Field := "Choice", Description := "one of the fields must be set" }] :=
  ((required_oneof_violation samplePlugin {} (sampleEnv Value.null) requiredChoice
      { Required := some true } rfl rfl).2.2 pickMessage rfl
      (fun _ hf => absurd hf (List.not_mem_nil _))).1 rfl

/-- C13 (the code at the failing input): for the proto2 message `Pick` with the required
oneof `choice`, `fieldValidatorExists` holds, the routine of `generateProto2Message` has an
empty body and returns no violation when no alternative is set, where the routine of
`generateProto3Message` returns the violation of the oneof. -/
theorem proto2_required_oneof_unchecked :
    fieldValidatorExists pickMessage = true
    ∧ (generateProto2Message samplePlugin proto2File pickMessage).1.body = some []
    ∧ (generateProto2Message samplePlugin proto2File pickMessage).1.run (sampleEnv Value.null)
      = some []
    ∧ (generateProto3Message samplePlugin {} pickMessage).1.run (sampleEnv Value.null)
      = some [{ Field := "Choice", Description := "one of the fields must be set" }] :=
  ⟨rfl, rfl, rfl, rfl⟩

/-! ## Descriptions -/

/-- The violation statement of `generateErrorStringEmpty` appends exactly one violation, with
`human_error` or the message alone. -/
theorem exec_generateErrorStringEmpty (lang : String) (env : Env) (variableName : Var)
    (fieldName specificError : String) (fv : FieldValidator) :
    execList env (generateErrorStringEmpty lang variableName fieldName specificError fv) =
      some [{ Field := fieldName,
              Description := if fv.GetHumanError = "" then specificError
                else fv.GetHumanError }] := by
  unfold generateErrorStringEmpty
  split <;> simp [exec, evalDesc]

theorem missingVerbs_of_no_percent (l : List Char) (h : '%' ∉ l) : missingVerbs l = l := by
  induction l with
  | nil => rfl
  | cons c rest ih =>
    have hc : c ≠ '%' := fun e => h (by simp [e])
    have hr : '%' ∉ rest := fun e => h (by simp [e])
    unfold missingVerbs
    simp [hc, ih hr]

/-- A format with no `%` before its verb: the verb is replaced by the operand, the rest is
printed without operand. -/
theorem substVerb_at (v : Char) (pre arg suf : List Char) (hp : '%' ∉ pre) :
    substVerb ['%', v] arg (pre ++ '%' :: v :: suf) = some (pre ++ arg ++ missingVerbs suf) := by
  induction pre with
  | nil => simp [substVerb, List.isPrefixOf]
  | cons c cs ih =>
    have hc : c ≠ '%' := fun e => hp (by simp [e])
    have hr : '%' ∉ cs := fun e => hp (by simp [e])
    have hpre : (['%', v] : List Char).isPrefixOf (c :: (cs ++ '%' :: v :: suf)) = false := by
      simp [List.isPrefixOf, Ne.symm hc]
    rw [List.cons_append, substVerb_cons_ne _ _ _ _ hpre, ih hr]
    rfl

/-- The stem of the default locale with a value filled in, followed by a message that holds no
`%`. -/
theorem Sprintf_stem_default (specificError : String) (arg : Operand)
    (h : '%' ∉ specificError.data) :
    Sprintf (mapIndex errorString LangDefault ++ specificError) "%v" arg
      = "value '" ++ arg.text ++ "' must " ++ specificError := by
  have hf : (mapIndex errorString LangDefault ++ specificError).data
      = "value '".data ++ '%' :: 'v' :: ("' must ".data ++ specificError.data) := by
    have hstem : mapIndex errorString LangDefault = "value '%v' must " := by decide
    rw [hstem, String.data_append]
    rfl
  unfold Sprintf
  have hv : ("%v" : String).data = ['%', 'v'] := rfl
  rw [hf, hv, substVerb_at _ _ _ _ (by decide), missingVerbs_of_no_percent]
  · simp only [String.ext_iff, String.data_append]
    simp
  · simp only [List.mem_append, not_or]
    exact ⟨by decide, h⟩

/-- The stem of the locale `pt_br` with a value filled in, followed by a message that holds no
`%`. -/
theorem Sprintf_stem_ptBr (specificError : String) (arg : Operand)
    (h : '%' ∉ specificError.data) :
    Sprintf (mapIndex errorString LangPtBr ++ specificError) "%v" arg
      = "valor '" ++ arg.text ++ "' deve " ++ specificError := by
  have hf : (mapIndex errorString LangPtBr ++ specificError).data
      = "valor '".data ++ '%' :: 'v' :: ("' deve ".data ++ specificError.data) := by
    have hstem : mapIndex errorString LangPtBr = "valor '%v' deve " := by decide
    rw [hstem, String.data_append]
    rfl
  unfold Sprintf
  have hv : ("%v" : String).data = ['%', 'v'] := rfl
  rw [hf, hv, substVerb_at _ _ _ _ (by decide), missingVerbs_of_no_percent]
  · simp only [String.ext_iff, String.data_append]
    simp
  · simp only [List.mem_append, not_or]
    exact ⟨by decide, h⟩

set_option maxRecDepth 100000 in
/-- C14 (the code at the failing input): for the string field `id` of `Msg` with the pattern
`^[0-9]+%$` and no `human_error`, the value `abc` fails the check; the kind-specific message is
`be a string conforming to regex "^[0-9]+%$"`, but the description the routine returns is not
the stem followed by this message: `fmt.Sprintf` reads the `%$` of the pattern as a directive
and prints `%!$(MISSING)` for it. -/
theorem percent_in_regex_garbles_description :
    mapIndex errorRegex LangDefault ++ Quote percentRegex.GetRegex
      = "be a string conforming to regex \"^[0-9]+%$\""
    ∧ (generateProto3Message samplePlugin {}
          (generateRegexVars samplePlugin (idMessage [percentRegex])).2).1.run
        { sampleEnv (Value.str "abc") with
          regexVars := (generateRegexVars samplePlugin (idMessage [percentRegex])).1 }
      = some [{ Field := "Id",
                Description :=
                  "value 'abc' must be a string conforming to regex \"^[0-9]+%!$(MISSING)\"" }]
    ∧ "value 'abc' must be a string conforming to regex \"^[0-9]+%!$(MISSING)\""
      ≠ "value 'abc' must " ++ (mapIndex errorRegex LangDefault ++ Quote percentRegex.GetRegex) := by
  refine ⟨by decide, rfl, by decide⟩

/-! ## Which messages get a routine -/

/-- C15: `fieldValidatorExists` holds exactly when some oneof of the message carries a oneof
constraint, or some field carries at least one field constraint, or some field is of message
type; when it does not hold, the routine (of either generator) is the body `return nil`, which
returns no violation on every instance. -/
theorem fieldValidatorExists_iff (p : Plugin) (file : FileDescriptor) (message : Descriptor) :
    (fieldValidatorExists message = true ↔
      (∃ oneof ∈ message.OneofDecl, oneof.validator.isSome = true)
      ∨ (∃ field ∈ message.Field, field.validators ≠ [])
      ∨ (∃ field ∈ message.Field, field.Typ = FieldType.TYPE_MESSAGE))
    ∧ (fieldValidatorExists message = false →
        (generateProto3Message p file message).1.body = none
        ∧ (generateProto2Message p file message).1.body = none
        ∧ ∀ env : Env, (generateProto3Message p file message).1.run env = some []
          ∧ (generateProto2Message p file message).1.run env = some []) := by
  constructor
  · simp only [fieldValidatorExists, Bool.or_eq_true, List.any_eq_true, getOneofValidatorIfAny,
      getFieldValidatorIfAny, FieldDescriptor.IsMessage, Bool.not_eq_true', decide_eq_true_eq,
      List.isEmpty_eq_false]
    constructor
    · rintro (h | ⟨f, hf, h | h⟩)
      · exact Or.inl h
      · exact Or.inr (Or.inl ⟨f, hf, h⟩)
      · exact Or.inr (Or.inr ⟨f, hf, h⟩)
    · rintro (h | ⟨f, hf, h⟩ | ⟨f, hf, h⟩)
      · exact Or.inl h
      · exact Or.inr ⟨f, hf, Or.inl h⟩
      · exact Or.inr ⟨f, hf, Or.inr h⟩
  · intro h
    simp [generateProto3Message, generateProto2Message, h, Routine.run]

/-- The witness of C15: a message whose only field, an `int64`, has no constraint. -/
theorem fieldValidatorExists_iff_witness :
    (generateProto3Message samplePlugin {} { ccTypeName := "Plain", Field := [ageField []] }).1.body
      = none
    ∧ (generateProto2Message samplePlugin proto2File
        { ccTypeName := "Plain", Field := [ageField []] }).1.body = none :=
  ⟨((fieldValidatorExists_iff samplePlugin {}
      { ccTypeName := "Plain", Field := [ageField []] }).2 rfl).1,
   ((fieldValidatorExists_iff samplePlugin proto2File
      { ccTypeName := "Plain", Field := [ageField []] }).2 rfl).2.1⟩

theorem generateProto3Message_ccTypeName (p : Plugin) (file : FileDescriptor)
    (message : Descriptor) :
    (generateProto3Message p file message).1.ccTypeName = message.ccTypeName := by
  unfold generateProto3Message
  split <;> rfl

theorem generateProto2Message_ccTypeName (p : Plugin) (file : FileDescriptor)
    (message : Descriptor) :
    (generateProto2Message p file message).1.ccTypeName = message.ccTypeName := by
  unfold generateProto2Message
  split <;> rfl

theorem generateRegexVars_ccTypeName (p : Plugin) (message : Descriptor) :
    (generateRegexVars p message).2.ccTypeName = message.ccTypeName := rfl

/-- The routines `Generate` emits for one message, by name. -/
theorem generateMessage_names (p : Plugin) (file : FileDescriptor) (msg : Descriptor) :
    (generateMessage p file msg).1.map (fun out => out.routine.ccTypeName) =
      if msg.mapEntry then [] else [msg.ccTypeName] := by
  unfold generateMessage
  cases hm : msg.mapEntry
  · cases hp : file.proto3 <;>
      simp [generateProto3Message_ccTypeName, generateProto2Message_ccTypeName,
        generateRegexVars_ccTypeName]
  · simp

/-- C16: `Generate` emits exactly one `Validate` routine for every message that is not a map
entry, in the order of the messages, and nothing (neither pattern variables nor a routine) for
a map entry; what it emits for another message are the pattern variables of `generateRegexVars`
and the routine of the generator of the file's syntax. -/
theorem Generate_one_routine_per_message (p : Plugin) (file : FileDescriptor)
    (messages : List Descriptor) :
    (Generate p file messages).1.map (fun out => out.routine.ccTypeName) =
      (messages.filter (fun msg => !msg.mapEntry)).map (fun msg => msg.ccTypeName)
    ∧ (Generate p file messages).1.length = (messages.filter (fun msg => !msg.mapEntry)).length
    ∧ (∀ msg : Descriptor, msg.mapEntry = true → (generateMessage p file msg).1 = [])
    ∧ (∀ msg : Descriptor, msg.mapEntry = false → ∃ out, (generateMessage p file msg).1 = [out]
        ∧ out.regexVars = (generateRegexVars p msg).1
        ∧ out.routine = (if file.proto3 then
              generateProto3Message p file (generateRegexVars p msg).2
            else generateProto2Message p file (generateRegexVars p msg).2).1) := by
  have hnames : (Generate p file messages).1.map (fun out => out.routine.ccTypeName) =
      (messages.filter (fun msg => !msg.mapEntry)).map (fun msg => msg.ccTypeName) := by
    induction messages with
    | nil => rfl
    | cons msg rest ih =>
      simp only [Generate, List.map_append, ih, generateMessage_names, List.filter_cons]
      cases msg.mapEntry <;> simp
  refine ⟨hnames, ?_, ?_, ?_⟩
  · have h := congrArg List.length hnames
    simpa using h
  · intro msg hm
    simp [generateMessage, hm]
  · intro msg hm
    refine ⟨{ regexVars := (generateRegexVars p msg).1,
              routine := (if file.proto3 then
                  generateProto3Message p file (generateRegexVars p msg).2
                else generateProto2Message p file (generateRegexVars p msg).2).1 }, ?_, rfl, rfl⟩
    simp [generateMessage, hm]

/-- The witness of C16: a map entry between two messages. -/
theorem Generate_one_routine_per_message_witness :
    (Generate samplePlugin {}
        [personMessage, { ccTypeName := "Person_TagsEntry", mapEntry := true }, pickMessage]).1.map
      (fun out => out.routine.ccTypeName) = ["Person", "Pick"]
    ∧ (generateMessage samplePlugin {} { ccTypeName := "Person_TagsEntry", mapEntry := true }).1
      = [] :=
  ⟨(Generate_one_routine_per_message samplePlugin {}
      [personMessage, { ccTypeName := "Person_TagsEntry", mapEntry := true }, pickMessage]).1,
   (Generate_one_routine_per_message samplePlugin {} []).2.2.1
      { ccTypeName := "Person_TagsEntry", mapEntry := true } rfl⟩

set_option maxRecDepth 100000 in
/-- C17 (the code at the failing input): for the message `Msg` whose string field `id` carries
`uuid_ver = 4` alone, the first run of `Generate` declares the pattern variable
`_regex_Msg_Id_00` and stores the UUID pattern into the constraint; the second run, on the
schema as the first run left it, finds both `regex` and `uuid_ver` set and declares no pattern
variable. -/
theorem Generate_twice_differs :
    (Generate samplePlugin {} [idMessage [uuidFour]]).1.map (fun out => out.regexVars)
      = [[("_regex_Msg_Id_00",
          "^([a-fA-F0-9]{8}-[a-fA-F0-9]{4}-[4][a-fA-F0-9]{3}-[8|9|aA|bB][a-fA-F0-9]{3}-[a-fA-F0-9]{12})?$")]]
    ∧ (Generate samplePlugin {} (Generate samplePlugin {} [idMessage [uuidFour]]).2).1.map
        (fun out => out.regexVars) = [[]]
    ∧ (Generate samplePlugin {} [idMessage [uuidFour]]).2 ≠ [idMessage [uuidFour]] := by
  refine ⟨rfl, rfl, ?_⟩
  decide

/-! ## Enum membership -/

/-- The enum message of the locale `pt_br` with the enum type's name filled in. -/
theorem enum_message_ptBr (enumTypeName : String) :
    Sprintf (mapIndex errorIsInEnum LangPtBr) "%s" (stringOperand enumTypeName)
      = "ser um válido " ++ enumTypeName ++ " enumerador" := by
  have hf : (mapIndex errorIsInEnum LangPtBr).data
      = "ser um válido ".data ++ '%' :: 's' :: " enumerador".data := by decide
  unfold Sprintf
  have hv : ("%s" : String).data = ['%', 's'] := rfl
  rw [hf, hv, substVerb_at _ _ _ _ (by decide), missingVerbs_of_no_percent _ (by decide)]
  simp only [String.ext_iff, String.data_append, stringOperand]

/-- C18: for an enum field with `is_in_enum` set and an integer value `v`, the check of
`generateEnumValidator` yields exactly one violation when `v` has no symbolic name in the
field's enum definition and none when it has one, with `Field` the field's name; under the
locale `pt_br` with no `human_error` the description reads
`valor '<v>' deve ser um válido <EnumType> enumerador` (the enum type's name, a Go identifier,
holds no `%`), and the routine generated for `SomeMsg` with its field `Do` of type `Action` is
the one of the generated example; with `is_in_enum` unset or false no check is generated. -/
theorem enum_membership_check (lang : String) (env : Env) (field : FieldDescriptor)
    (variableName : Var) (ccTypeName fieldName : String) (fv : FieldValidator) (v : Int)
    (hv : evalVar env variableName = some (Value.int v)) :
    (fv.IsInEnum = some true →
      execList env (generateEnumValidator lang field variableName ccTypeName fieldName fv) =
        some (if (env.enumNames field.enumTypeName v).isNone then
          [{ Field := fieldName,
             Description := failureDescription lang env variableName (Value.int v)
              (Sprintf (mapIndex errorIsInEnum lang) "%s" (stringOperand field.enumTypeName)) fv }]
          else []))
    ∧ (fv.GetHumanError = "" → '%' ∉ field.enumTypeName.data →
        failureDescription LangPtBr env variableName (Value.int v)
            (Sprintf (mapIndex errorIsInEnum LangPtBr) "%s" (stringOperand field.enumTypeName)) fv
          = "valor '" ++ toString v ++ "' deve ser um válido " ++ field.enumTypeName
              ++ " enumerador")
    ∧ (generateProto3Message { lang := LangPtBr, ff := sampleFmt } {}
          { ccTypeName := "SomeMsg", Field := [doField] }).1.body
        = some [Stmt.ifThen (Cond.notInEnum "Action" (Var.this "Do"))
            [Stmt.appendViolation "Do"
              (Desc.sprintf "valor '%v' deve ser um válido Action enumerador" (Var.this "Do"))]]
    ∧ ((fv.IsInEnum = none ∨ fv.IsInEnum = some false) →
        generateEnumValidator lang field variableName ccTypeName fieldName fv = []) := by
  refine ⟨?_, ?_, rfl, ?_⟩
  · intro h
    unfold generateEnumValidator
    simp only [FieldValidator.GetIsInEnum, h, Option.getD_some, if_true, execList_singleton, exec,
      evalCond, hv]
    cases hn : env.enumNames field.enumTypeName v <;>
      simp [exec_generateErrorString lang env variableName fieldName _ fv _ hv]
  · intro hh hT
    unfold failureDescription
    simp only [hh, if_true]
    rw [enum_message_ptBr, Sprintf_stem_ptBr]
    · simp only [valueOperand, Value.render, String.ext_iff, String.data_append,
        List.append_assoc]
      rfl
    · simp only [String.data_append, List.mem_append, not_or]
      exact ⟨⟨by decide, hT⟩, by decide⟩
  · rintro (h | h) <;> simp [generateEnumValidator, FieldValidator.GetIsInEnum, h]

set_option maxRecDepth 100000 in
/-- The witness of C18: the value 7 of the field `Do`, which has no name in `Action`. -/
theorem enum_membership_check_witness :
    execList (sampleEnv (Value.int 7))
        (generateEnumValidator LangPtBr doField (Var.this "Do") "SomeMsg" "Do"
          { IsInEnum := some true })
      = some [{ Field := "Do",
                Description := "valor '7' deve ser um válido Action enumerador" }] :=
  ((enum_membership_check LangPtBr (sampleEnv (Value.int 7)) doField (Var.this "Do") "SomeMsg"
      "Do" { IsInEnum := some true } 7 rfl).1 rfl).trans rfl

/-! ## String presence -/

theorem dropWhile_all_of_forall (q : Char → Bool) (l : List Char)
    (h : ∀ c ∈ l.dropWhile q, q c = true) : l.dropWhile q = [] := by
  induction l with
  | nil => rfl
  | cons c rest ih =>
    by_cases hc : q c = true
    · simp only [List.dropWhile_cons_of_pos hc] at h ⊢
      exact ih h
    · exfalso
      simp only [List.dropWhile_cons_of_neg hc] at h
      exact hc (h c (by simp))

/-- The trimmed text is empty exactly when every character is white space. -/
theorem TrimSpace_eq_empty_iff (s : String) :
    TrimSpace s = "" ↔ ∀ c ∈ s.data, isSpace c = true := by
  unfold TrimSpace
  rw [String.ext_iff]
  show ((s.data.dropWhile isSpace).reverse.dropWhile isSpace).reverse = [] ↔ _
  rw [List.reverse_eq_nil_iff, List.dropWhile_eq_nil_iff]
  constructor
  · intro h
    have h2 : s.data.dropWhile isSpace = [] :=
      dropWhile_all_of_forall isSpace s.data (fun c hc => h c (by simpa using hc))
    exact List.dropWhile_eq_nil_iff.mp h2
  · intro h c hc
    have h2 : s.data.dropWhile isSpace = [] := List.dropWhile_eq_nil_iff.mpr h
    rw [h2] at hc
    simp at hc

/-- C19: for a string value `s`, the check of `string_not_empty = true` yields one violation
when `s` is the empty string and none otherwise; the check of `trimmed_string_not_empty = true`
yields one violation when `strings.TrimSpace(s)` is empty, which is when every character of `s`
is white space, and none otherwise; so every `s` failing the first fails the second; with a
flag set to false no check is generated for it. -/
theorem string_presence_checks (lang : String) (env : Env) (variableName : Var)
    (ccTypeName fieldName : String) (index : Nat) (s : String) (humanError : Option String)
    (hv : evalVar env variableName = some (Value.str s)) :
    (execList env (generateStringValidator lang variableName ccTypeName fieldName
        { StringNotEmpty := some true, HumanError := humanError } index).1 =
      some (if s = "" then
        [{ Field := fieldName,
           Description := if humanError.getD "" = "" then mapIndex errorStringNotEmpty lang
             else humanError.getD "" }]
        else []))
    ∧ (execList env (generateStringValidator lang variableName ccTypeName fieldName
        { TrimmedStringNotEmpty := some true, HumanError := humanError } index).1 =
      some (if TrimSpace s = "" then
        [{ Field := fieldName,
           Description := if humanError.getD "" = "" then mapIndex errorTrimmedStringNotEmpty lang
             else humanError.getD "" }]
        else []))
    ∧ (TrimSpace s = "" ↔ ∀ c ∈ s.data, isSpace c = true)
    ∧ (s = "" → TrimSpace s = "")
    ∧ (generateStringValidator lang variableName ccTypeName fieldName
        { StringNotEmpty := some false, HumanError := humanError } index).1 = []
    ∧ (generateStringValidator lang variableName ccTypeName fieldName
        { TrimmedStringNotEmpty := some false, HumanError := humanError } index).1 = [] := by
  refine ⟨?_, ?_, TrimSpace_eq_empty_iff s, ?_, ?_, ?_⟩
  · simp only [generateStringValidator, generateLengthValidator, Option.isSome_none,
      Bool.false_eq_true, or_self, if_false, List.nil_append, List.append_nil,
      FieldValidator.GetStringNotEmpty, Option.isSome_some, Option.getD_some, and_self, if_true,
      and_false, execList_singleton, exec, evalCond, hv, exec_generateErrorStringEmpty,
      FieldValidator.GetHumanError]
    by_cases hs : s = "" <;>
      simp [hs, exec, evalCond, hv, exec_generateErrorStringEmpty, FieldValidator.GetHumanError]
  · simp only [generateStringValidator, generateLengthValidator, Option.isSome_none,
      Bool.false_eq_true, or_self, if_false, List.nil_append, List.append_nil,
      FieldValidator.GetTrimmedStringNotEmpty, Option.isSome_some, Option.getD_some, and_self,
      if_true, and_false, execList_singleton, exec, evalCond, hv, exec_generateErrorStringEmpty,
      FieldValidator.GetHumanError]
    by_cases hs : TrimSpace s = "" <;>
      simp [hs, exec, evalCond, hv, exec_generateErrorStringEmpty, FieldValidator.GetHumanError]
  · rintro rfl
    rfl
  · simp [generateStringValidator, generateLengthValidator, FieldValidator.GetStringNotEmpty]
  · simp [generateStringValidator, generateLengthValidator,
      FieldValidator.GetTrimmedStringNotEmpty]

/-- The witness of C19: a value of two blanks passes `string_not_empty` and fails
`trimmed_string_not_empty`. -/
theorem string_presence_checks_witness :
    execList (sampleEnv (Value.str "  "))
        (generateStringValidator LangDefault (Var.this "Id") "Msg" "Id"
          { StringNotEmpty := some true } 0).1 = some []
    ∧ execList (sampleEnv (Value.str "  "))
        (generateStringValidator LangDefault (Var.this "Id") "Msg" "Id"
          { TrimmedStringNotEmpty := some true } 0).1
      = some [{ Field := "Id", Description := "must not be an empty string" }] :=
  ⟨(string_presence_checks LangDefault (sampleEnv (Value.str "  ")) (Var.this "Id") "Msg" "Id" 0
      "  " none rfl).1.trans (by decide),
   (string_presence_checks LangDefault (sampleEnv (Value.str "  ")) (Var.this "Id") "Msg" "Id" 0
      "  " none rfl).2.1.trans (by decide)⟩

/-! ## Repeated fields -/

/-- The description of a violation does not depend on the loop variable of the instance. -/
theorem failureDescription_item (lang : String) (env : Env) (it : Option Value)
    (variableName : Var) (val : Value) (specificError : String) (fv : FieldValidator) :
    failureDescription lang { env with item := it } variableName val specificError fv
      = failureDescription lang env variableName val specificError fv := rfl

/-- The loop over the elements of a repeated integer field, element by element. -/
theorem collect_elements (env : Env) (body : List Stmt) (vs : List Int)
    (out : Int → List Violation)
    (h : ∀ v ∈ vs, execList { env with item := some (Value.int v) } body = some (out v)) :
    collect (fun it => execList { env with item := some it } body) (vs.map Value.int)
      = some (vs.flatMap out) := by
  induction vs with
  | nil => rfl
  | cons v rest ih =>
    simp only [List.map_cons, collect, List.flatMap_cons]
    rw [h v (by simp), ih (fun x hx => h x (by simp [hx]))]
    rfl

/-- The two count checks: each limit that is set and fails yields one violation, the minimum
first. -/
theorem exec_generateRepeatedCount (lang : String) (env : Env) (variableName : Var)
    (fieldName : String) (fv : FieldValidator) (vs : List Value)
    (hv : evalVar env variableName = some (Value.list vs)) :
    execList env (generateRepeatedCount lang variableName fieldName fv) =
      some (boundViolations fv.RepeatedCountMin (fun n => !decide ((vs.length : Int) < n))
          (countViolation lang env variableName fieldName fv vs errorRepeatedCountMin)
        ++ boundViolations fv.RepeatedCountMax (fun n => !decide ((vs.length : Int) > n))
          (countViolation lang env variableName fieldName fv vs errorRepeatedCountMax)) := by
  have hmin : ∀ n : Int, exec env (Stmt.ifThen (Cond.lenLt variableName n)
      (generateErrorString lang variableName fieldName
        (Sprintf (mapIndex errorRepeatedCountMin lang) "%v" (int64Operand n)) fv)) =
      some (boundViolations (some n) (fun n => !decide ((vs.length : Int) < n))
          (countViolation lang env variableName fieldName fv vs errorRepeatedCountMin)) := by
    intro n
    simp only [exec, evalCond, hv, Option.bind_some, goLen, boundViolations, countViolation]
    by_cases h : (vs.length : Int) < n <;>
      simp [h, exec_generateErrorString lang env variableName fieldName _ fv _ hv]
  have hmax : ∀ n : Int, exec env (Stmt.ifThen (Cond.lenGt variableName n)
      (generateErrorString lang variableName fieldName
        (Sprintf (mapIndex errorRepeatedCountMax lang) "%v" (int64Operand n)) fv)) =
      some (boundViolations (some n) (fun n => !decide ((vs.length : Int) > n))
          (countViolation lang env variableName fieldName fv vs errorRepeatedCountMax)) := by
    intro n
    simp only [exec, evalCond, hv, Option.bind_some, goLen, boundViolations, countViolation]
    by_cases h : (vs.length : Int) > n <;>
      simp [h, exec_generateErrorString lang env variableName fieldName _ fv _ hv]
  unfold generateRepeatedCount
  rw [execList_append]
  cases h1 : fv.RepeatedCountMin <;> cases h2 : fv.RepeatedCountMax <;>
    simp only [execList_nil, execList_singleton, FieldValidator.GetRepeatedCountMin,
      FieldValidator.GetRepeatedCountMax, h1, h2, Option.getD_some, hmin, hmax, appendOpt_some,
      appendOpt_nil_left, appendOpt_nil_right] <;>
    simp [boundViolations]

/-! ## Presence of message fields -/

/-- The code of a singular message field: the presence checks of its validators, then the
guarded child call, inside the type switch of the oneof for a member of a oneof. -/
theorem generateProto3Field_message_singular (p : Plugin) (file : FileDescriptor)
    (ccTypeName : String) (field : FieldDescriptor) (hmsg : field.Typ = FieldType.TYPE_MESSAGE)
    (hrep : field.Repeated = false) :
    (generateProto3Field p file ccTypeName field).1 =
      if field.OneofIndex.isSome then
        [Stmt.ifOneof (p.GetFieldName field) field.oneOfTypeName
          (field.validators.flatMap (generateMessagePresence p.lang
              (Var.nester (p.GetOneOfFieldName field)) (p.GetOneOfFieldName field)
              ((field.nullable || !file.importsGoGoProto) && !(p.useGogoImport && field.embed))
              false)
            ++ generateChildCall (Var.nester (p.GetOneOfFieldName field))
              (p.GetOneOfFieldName field)
              ((field.nullable || !file.importsGoGoProto)
                && !(p.useGogoImport && field.embed)))]
      else
        field.validators.flatMap (generateMessagePresence p.lang
            (Var.this (p.GetOneOfFieldName field)) (p.GetOneOfFieldName field)
            ((field.nullable || !file.importsGoGoProto) && !(p.useGogoImport && field.embed))
            false)
          ++ generateChildCall (Var.this (p.GetOneOfFieldName field)) (p.GetOneOfFieldName field)
            ((field.nullable || !file.importsGoGoProto) && !(p.useGogoImport && field.embed)) := by
  have hM : field.IsMessage = true := by simp [FieldDescriptor.IsMessage, hmsg]
  have hR : field.IsRepeated = false := hrep
  have hmap : fieldIsProto3Map field = false := by simp [fieldIsProto3Map, hR]
  unfold generateProto3Field
  simp only [hM, hR, hmap, Bool.false_and, Bool.false_eq_true, if_false,
    not_true_eq_false, and_false, generateValidatorsFrom_message p field _ ccTypeName _ hmsg,
    List.nil_append, getFieldValidatorIfAny, Bool.and_true, Bool.true_and, if_true]
  by_cases ho : field.OneofIndex.isSome = true
  · simp only [ho, if_true]
  · simp only [ho, if_false, Bool.false_eq_true]

/-- The presence checks of the validators on an absent nullable singular field, validator by
validator. -/
theorem exec_generateMessagePresence_null (lang : String) (env : Env) (variableName : Var)
    (fieldName : String) (validators : List FieldValidator)
    (hv : evalVar env variableName = some Value.null) :
    execList env (validators.flatMap
      (generateMessagePresence lang variableName fieldName true false))
      = some (validators.flatMap (presenceViolations lang env fieldName)) := by
  induction validators with
  | nil => simp
  | cons v rest ih =>
    rw [List.flatMap_cons, execList_append, ih, List.flatMap_cons]
    unfold generateMessagePresence presenceViolations
    rw [execList_append]
    have h1 : execList env (if v.MsgExists = some true then
        if true = true ∧ ¬ false = true then
          [Stmt.ifThen (Cond.isNil variableName)
            (generateErrorStringEmpty lang variableName fieldName
              (mapIndex errorMsgExists lang) v)]
        else []
      else []) = some (if v.MsgExists = some true then
        [{ Field := fieldName,
           Description := if v.GetHumanError = "" then mapIndex errorMsgExists lang
             else v.GetHumanError }] else []) := by
      by_cases h : v.MsgExists = some true
      · simp [h, exec, evalCond, hv, isNull, exec_generateErrorStringEmpty]
      · simp [h]
    rw [h1]
    cases hm : v.MsgExistsIfAnotherNot with
    | none => simp
    | some another =>
      simp only []
      by_cases h : another ≠ "" ∧ isNull (env.field another) = true
      · have hn : isNull Value.null = true := rfl
        simp [h, h.1, h.2, exec, evalCond, hv, hn, exec_generateErrorStringEmpty]
      · by_cases h2 : another = ""
        · simp [h2]
        · have h3 : isNull (env.field another) = false := by
            cases hh : isNull (env.field another)
            · rfl
            · exact absurd ⟨h2, hh⟩ h
          have hn : isNull Value.null = true := rfl
          simp [h2, h3, exec, evalCond, hv, hn]

/-- On a repeated or non-nullable field `msg_exists` adds nothing to the presence checks. -/
theorem generateMessagePresence_dropMsgExists (lang : String) (variableName : Var)
    (fieldName : String) (nullable repeated : Bool) (fv : FieldValidator)
    (h : ¬ (nullable = true ∧ ¬ repeated = true)) :
    generateMessagePresence lang variableName fieldName nullable repeated (dropMsgExists fv)
      = generateMessagePresence lang variableName fieldName nullable repeated fv := by
  unfold generateMessagePresence
  have h1 : (dropMsgExists fv).MsgExists = none := rfl
  have h2 : (dropMsgExists fv).MsgExistsIfAnotherNot = fv.MsgExistsIfAnotherNot := rfl
  rw [h1, h2]
  simp only [h, if_false, reduceCtorEq, ite_self, List.nil_append]
  cases fv.MsgExistsIfAnotherNot with
  | none => rfl
  | some a => simp [h]


theorem generateRepeatedCount_dropMsgExists (lang : String) (variableName : Var)
    (fieldName : String) (fv : FieldValidator) :
    generateRepeatedCount lang variableName fieldName (dropMsgExists fv)
      = generateRepeatedCount lang variableName fieldName fv := rfl

/-- C21: in the routine of `generateProto3Message`, for a singular nullable message field (a
plain field, or the alternative of a oneof that is set): when the field is nil, the code of the
field returns the presence violations of its validators and nothing else, which for one
validator with `msg_exists = true` (and no `msg_exists_if_another_empty`) is exactly one
violation with `Field` the field's name and the locale's `message must exist` text, or
`human_error`, as description; the child validation is not called (a call on nil cannot run);
when the field is present there is no presence violation and the result is the child's
violations, re-parented.  For a repeated or non-nullable message field `msg_exists` generates
no check: the code of the field is the same as without it. -/
theorem msg_exists_presence_check (p : Plugin) (file : FileDescriptor) (ccTypeName : String)
    (field : FieldDescriptor) (env : Env) (hmsg : field.Typ = FieldType.TYPE_MESSAGE) :
    (field.Repeated = false →
      ((field.nullable || !file.importsGoGoProto) && !(p.useGogoImport && field.embed)) = true →
      ((if field.OneofIndex.isSome then
          env.oneof (p.GetFieldName field) = some (field.oneOfTypeName, Value.null)
        else env.field (p.GetOneOfFieldName field) = Value.null) →
        execList env (generateProto3Field p file ccTypeName field).1 =
            some (field.validators.flatMap
              (presenceViolations p.lang env (p.GetOneOfFieldName field)))
        ∧ (∀ fv : FieldValidator, field.validators = [fv] → fv.MsgExists = some true →
            fv.MsgExistsIfAnotherNot = none →
            execList env (generateProto3Field p file ccTypeName field).1 =
              some [{ Field := p.GetOneOfFieldName field,
                      Description := if fv.GetHumanError = "" then
                        mapIndex errorMsgExists p.lang else fv.GetHumanError }])
        ∧ (∀ v : Var, evalVar env v = some Value.null →
            exec env (Stmt.callChild v (p.GetOneOfFieldName field)) = none))
      ∧ (∀ (repr : String) (children : List Violation),
          (if field.OneofIndex.isSome then
            env.oneof (p.GetFieldName field)
              = some (field.oneOfTypeName, Value.msg repr children)
          else env.field (p.GetOneOfFieldName field) = Value.msg repr children) →
          execList env (generateProto3Field p file ccTypeName field).1 =
            some (children.map (fun c =>
              { Field := p.GetOneOfFieldName field ++ "." ++ c.Field,
                Description := c.Description }))))
    ∧ ((field.Repeated = true
          ∨ ((field.nullable || !file.importsGoGoProto)
              && !(p.useGogoImport && field.embed)) = false) →
        (generateProto3Field p file ccTypeName field).1 =
          (generateProto3Field p file ccTypeName
            { field with validators := field.validators.map dropMsgExists }).1
        ∧ ∀ (variableName : Var) (fv : FieldValidator),
            generateMessagePresence p.lang variableName (p.GetOneOfFieldName field)
                ((field.nullable || !file.importsGoGoProto)
                  && !(p.useGogoImport && field.embed)) field.Repeated
                { MsgExists := fv.MsgExists, HumanError := fv.HumanError } = []) := by
  constructor
  · intro hrep hnull
    rw [generateProto3Field_message_singular p file ccTypeName field hmsg hrep, hnull]
    constructor
    · intro habsent
      have hmain : execList env (if field.OneofIndex.isSome = true then
          [Stmt.ifOneof (p.GetFieldName field) field.oneOfTypeName
            (field.validators.flatMap (generateMessagePresence p.lang
                (Var.nester (p.GetOneOfFieldName field)) (p.GetOneOfFieldName field) true false)
              ++ generateChildCall (Var.nester (p.GetOneOfFieldName field))
                (p.GetOneOfFieldName field) true)]
          else
            field.validators.flatMap (generateMessagePresence p.lang
                (Var.this (p.GetOneOfFieldName field)) (p.GetOneOfFieldName field) true false)
              ++ generateChildCall (Var.this (p.GetOneOfFieldName field))
                (p.GetOneOfFieldName field) true) =
          some (field.validators.flatMap
            (presenceViolations p.lang env (p.GetOneOfFieldName field))) := by
        by_cases ho : field.OneofIndex.isSome = true
        · rw [if_pos ho] at habsent
          rw [if_pos ho]
          simp only [execList_singleton, exec, habsent, if_true]
          rw [execList_append, exec_generateMessagePresence_null _ _ _ _ _ (by simp [evalVar])]
          have hn : isNull Value.null = true := rfl
          simp [generateChildCall, exec, evalCond, evalVar, hn]
          rfl
        · rw [if_neg ho] at habsent
          rw [if_neg ho]
          rw [execList_append,
            exec_generateMessagePresence_null _ _ _ _ _ (by simp [evalVar, habsent])]
          have hn : isNull Value.null = true := rfl
          simp [generateChildCall, exec, evalCond, evalVar, habsent, hn]
      refine ⟨hmain, ?_, ?_⟩
      · intro fv hval hex hanother
        rw [hmain, hval]
        simp [presenceViolations, hex, hanother]
      · intro v hv
        simp [exec, hv]
    · intro repr children hpresent
      by_cases ho : field.OneofIndex.isSome = true
      · rw [if_pos ho] at hpresent
        rw [if_pos ho]
        simp only [execList_singleton, exec, hpresent, if_true]
        rw [execList_append,
          exec_generateMessagePresence _ _ _ _ _ _ _ repr children (by simp [evalVar]),
          exec_generateChildCall _ _ _ _ repr children (by simp [evalVar])]
        simp [reparent]
      · rw [if_neg ho] at hpresent
        rw [if_neg ho]
        rw [execList_append,
          exec_generateMessagePresence _ _ _ _ _ _ _ repr children (by simp [evalVar, hpresent]),
          exec_generateChildCall _ _ _ _ repr children (by simp [evalVar, hpresent])]
        simp [reparent]
  · intro h
    have hno : ¬ (((field.nullable || !file.importsGoGoProto)
        && !(p.useGogoImport && field.embed)) = true ∧ ¬ field.Repeated = true) := by
      rintro ⟨h1, h2⟩
      rcases h with h | h
      · exact h2 h
      · rw [h] at h1
        exact absurd h1 (by decide)
    constructor
    · have hM : field.IsMessage = true := by simp [FieldDescriptor.IsMessage, hmsg]
      have hM2 : FieldDescriptor.IsMessage
          { field with validators := field.validators.map dropMsgExists } = true := hM
      have hR2 : FieldDescriptor.IsRepeated
          { field with validators := field.validators.map dropMsgExists } = field.Repeated := rfl
      have hR : field.IsRepeated = field.Repeated := rfl
      have hmap2 : fieldIsProto3Map
          { field with validators := field.validators.map dropMsgExists }
            = fieldIsProto3Map field := rfl
      have hn2 : p.GetOneOfFieldName
          { field with validators := field.validators.map dropMsgExists }
            = p.GetOneOfFieldName field := rfl
      have hf2 : p.GetFieldName
          { field with validators := field.validators.map dropMsgExists }
            = p.GetFieldName field := rfl
      have hpres : ∀ v : Var, (field.validators.map dropMsgExists).flatMap
          (generateMessagePresence p.lang v (p.GetOneOfFieldName field)
            ((field.nullable || !file.importsGoGoProto) && !(p.useGogoImport && field.embed))
            field.Repeated) =
          field.validators.flatMap
          (generateMessagePresence p.lang v (p.GetOneOfFieldName field)
            ((field.nullable || !file.importsGoGoProto) && !(p.useGogoImport && field.embed))
            field.Repeated) := by
        intro v
        rw [List.flatMap_map]
        congr 1
        funext fv
        exact generateMessagePresence_dropMsgExists _ _ _ _ _ fv hno
      have hcount : ∀ v : Var, generateRepeatedCountValidator p.lang v ccTypeName
          (p.GetOneOfFieldName field) (field.validators.map dropMsgExists) =
          generateRepeatedCountValidator p.lang v ccTypeName
          (p.GetOneOfFieldName field) field.validators := by
        intro v
        unfold generateRepeatedCountValidator
        rw [List.flatMap_map]
        rfl
      unfold generateProto3Field
      simp only [hM, hM2, hR, hR2, hmap2, hn2, hf2, not_true_eq_false, and_false, if_false,
        generateValidatorsFrom_message p field _ ccTypeName _ hmsg,
        generateValidatorsFrom_message p
          { field with validators := field.validators.map dropMsgExists } _ ccTypeName _ hmsg,
        getFieldValidatorIfAny, List.nil_append, Bool.and_true, Bool.true_or, if_true, hpres,
        hcount]
      by_cases hm : fieldIsProto3Map field = true
      · simp only [hm, if_true]
      · simp only [hm, if_false, Bool.false_eq_true]
    · intro variableName fv
      unfold generateMessagePresence
      simp only [hno, if_false, ite_self, List.nil_append]

/-- The witness of C21: the field `address` with `msg_exists = true`, absent. -/
theorem msg_exists_presence_check_witness :
    execList (sampleEnv Value.null)
        (generateProto3Field samplePlugin {} "Person" requiredAddress).1
      = some [{ Field := "Address", Description := "message must exist" }] :=
  (((msg_exists_presence_check samplePlugin {} "Person" requiredAddress
      (sampleEnv Value.null) rfl).1 rfl rfl).1 rfl).2.1 { MsgExists := some true } rfl rfl rfl

/-! ## Locales -/

/-- The characters whose lower case is a given small ASCII letter other than `i` and `k`: the
letter and its capital. -/
theorem toLowerRune_eq_iff (c x X : Char)
    (hx : 'a'.toNat ≤ x.toNat ∧ x.toNat ≤ 'z'.toNat) (hX : X.toNat + 32 = x.toNat)
    (hi : x ≠ 'i') (hk : x ≠ 'k') :
    toLowerRune c = x ↔ c = x ∨ c = X := by
  have ha : 'a'.toNat = 97 := rfl
  have hz : 'z'.toNat = 122 := rfl
  have hA : 'A'.toNat = 65 := rfl
  have hZ : 'Z'.toNat = 90 := rfl
  rw [ha, hz] at hx
  constructor
  · intro h
    unfold toLowerRune at h
    by_cases h1 : 'A'.toNat ≤ c.toNat ∧ c.toNat ≤ 'Z'.toNat
    · rw [if_pos h1] at h
      right
      rw [hA, hZ] at h1
      obtain ⟨n, hn⟩ : ∃ n, n = c.toNat := ⟨_, rfl⟩
      rw [← hn] at h h1
      have hc : c = Char.ofNat n := by rw [hn, Char.ofNat_toNat]
      have hXc : X = Char.ofNat X.toNat := (Char.ofNat_toNat X).symm
      obtain ⟨h1a, h1b⟩ := h1
      rw [hc, hXc]
      congr 1
      rw [← h] at hX
      interval_cases n <;> exact (Nat.add_right_cancel hX).symm
    · rw [if_neg h1] at h
      by_cases h2 : c.toNat = 0x130
      · rw [if_pos h2] at h
        exact absurd h.symm hi
      · rw [if_neg h2] at h
        by_cases h3 : c.toNat = 0x212A
        · rw [if_pos h3] at h
          exact absurd h.symm hk
        · rw [if_neg h3] at h
          exact Or.inl h
  · rintro (rfl | rfl)
    · unfold toLowerRune
      rw [if_neg (by rw [hZ]; omega), if_neg (by omega), if_neg (by omega)]
    · unfold toLowerRune
      rw [if_pos (by rw [hA, hZ]; omega), hX, Char.ofNat_toNat]

/-- The underscore is the lower case of itself only. -/
theorem toLowerRune_underscore (c : Char) : toLowerRune c = '_' ↔ c = '_' := by
  have hA : 'A'.toNat = 65 := rfl
  have hZ : 'Z'.toNat = 90 := rfl
  constructor
  · intro h
    unfold toLowerRune at h
    by_cases h1 : 'A'.toNat ≤ c.toNat ∧ c.toNat ≤ 'Z'.toNat
    · rw [if_pos h1] at h
      rw [hA, hZ] at h1
      obtain ⟨n, hn⟩ : ∃ n, n = c.toNat := ⟨_, rfl⟩
      rw [← hn] at h h1
      obtain ⟨h1a, h1b⟩ := h1
      exfalso
      have h2 : (Char.ofNat (n + 32)).toNat = 95 := by rw [h]; rfl
      interval_cases n <;> exact absurd h2 (by decide)
    · rw [if_neg h1] at h
      by_cases h2 : c.toNat = 0x130
      · rw [if_pos h2] at h
        exact absurd h (by decide)
      · rw [if_neg h2] at h
        by_cases h3 : c.toNat = 0x212A
        · rw [if_pos h3] at h
          exact absurd h (by decide)
        · rw [if_neg h3] at h
          exact h
  · rintro rfl
    rfl

/-- The texts whose lower case is `pt_br`: the spellings of `pt_br` in small and capital
letters. -/
theorem ToLower_eq_ptBr_iff (s : String) :
    ToLower s = LangPtBr ↔ matchesClasses ptBrSpellings s.data = true := by
  have hp := fun c => toLowerRune_eq_iff c 'p' 'P' (by decide) (by decide) (by decide) (by decide)
  have ht := fun c => toLowerRune_eq_iff c 't' 'T' (by decide) (by decide) (by decide) (by decide)
  have hb := fun c => toLowerRune_eq_iff c 'b' 'B' (by decide) (by decide) (by decide) (by decide)
  have hr := fun c => toLowerRune_eq_iff c 'r' 'R' (by decide) (by decide) (by decide) (by decide)
  have hu := toLowerRune_underscore
  unfold ToLower
  rw [String.ext_iff]
  show s.data.map toLowerRune = ['p', 't', '_', 'b', 'r'] ↔ _
  rcases s.data with _ | ⟨c1, _ | ⟨c2, _ | ⟨c3, _ | ⟨c4, _ | ⟨c5, _ | ⟨c6, l⟩⟩⟩⟩⟩⟩ <;>
    simp [matchesClasses, ptBrSpellings, hp, ht, hb, hr, hu]

/-- C22: `SetLanguage` selects one of two locales: after `SetLanguage(s)` the locale is `pt_br`
exactly when `strings.ToLower(s)` is `pt_br` (which is when `s` spells `pt_br` in small or
capital letters), and the default locale for every other `s`; and every message table of
`error_messages.go` (there are 23) has a non-empty template for the locale selected. -/
theorem SetLanguage_selects_locale (s : String) :
    (SetLanguage s = LangPtBr ↔ ToLower s = "pt_br")
    ∧ (ToLower s ≠ "pt_br" → SetLanguage s = LangDefault)
    ∧ (ToLower s = "pt_br" ↔ matchesClasses ptBrSpellings s.data = true)
    ∧ (∀ table ∈ catalogue, mapIndex table (SetLanguage s) ≠ "")
    ∧ catalogue.length = 23 := by
  have hne : LangDefault ≠ LangPtBr := by decide
  refine ⟨?_, ?_, ToLower_eq_ptBr_iff s, ?_, rfl⟩
  · unfold SetLanguage
    by_cases h : ToLower s = LangPtBr
    · simp [h, LangPtBr]
    · have h' : ¬ ToLower s = "pt_br" := h
      simp [h, h', hne]
  · intro h
    have h' : ¬ ToLower s = LangPtBr := h
    simp [SetLanguage, h']
  · have hcases : SetLanguage s = LangPtBr ∨ SetLanguage s = LangDefault := by
      unfold SetLanguage
      by_cases h : ToLower s = LangPtBr <;> simp [h]
    intro table htable
    rcases hcases with h | h <;> rw [h] <;> revert table <;> decide

/-- The witness of C22: `PT_br` selects `pt_br`, the unknown name `en_us` the default locale. -/
theorem SetLanguage_selects_locale_witness :
    SetLanguage "PT_br" = LangPtBr ∧ SetLanguage "en_us" = LangDefault
    ∧ mapIndex errorMsgExists (SetLanguage "en_us") ≠ "" :=
  ⟨(SetLanguage_selects_locale "PT_br").1.mpr (by decide),
   (SetLanguage_selects_locale "en_us").2.1 (by decide),
   (SetLanguage_selects_locale "en_us").2.2.2.1 errorMsgExists (by simp [catalogue])⟩

/-! ## Count limits and the loop over elements -/

theorem isSome_eq_false_iff_eq_none {α : Type} (o : Option α) : o.isSome = false ↔ o = none := by
  cases o <;> simp

/-- The reflection loop finds no field exactly when the validator sets nothing other than the
count limits. -/
theorem hasNonRepeatedConstraint_eq_false_iff (fv : FieldValidator) :
    hasNonRepeatedConstraint fv = false ↔ onlyCountLimits fv = true := by
  cases fv
  simp only [hasNonRepeatedConstraint, onlyCountLimits, Bool.or_eq_false_iff,
    isSome_eq_false_iff_eq_none, decide_eq_true_eq,
    FieldValidator.mk.injEq, and_true, true_and, and_assoc]

/-- The function `validatorWithNonRepeatedConstraint` returns false exactly on the lists whose
validators set nothing other than the count limits. -/
theorem validatorWithNonRepeatedConstraint_eq_false_iff (validators : List FieldValidator) :
    validatorWithNonRepeatedConstraint validators = false
      ↔ ∀ fv ∈ validators, onlyCountLimits fv = true := by
  unfold validatorWithNonRepeatedConstraint
  rw [List.any_eq_false]
  constructor
  · intro h fv hfv
    exact (hasNonRepeatedConstraint_eq_false_iff fv).mp (by simpa using h fv hfv)
  · intro h fv hfv
    simp [(hasNonRepeatedConstraint_eq_false_iff fv).mpr (h fv hfv)]

/-- A validator that sets nothing other than the count limits has no check of its own,
whatever the field's type. -/
theorem generateValidatorsFrom_onlyCounts (p : Plugin) (field : FieldDescriptor)
    (variableName : Var) (ccTypeName fieldName : String) (i : Nat)
    (validators : List FieldValidator)
    (h : ∀ fv ∈ validators, onlyCountLimits fv = true) :
    generateValidatorsFrom p field variableName ccTypeName fieldName i validators
      = ([], validators) := by
  induction validators generalizing i with
  | nil => rfl
  | cons v rest ih =>
    have hv : v = { RepeatedCountMin := v.RepeatedCountMin,
                    RepeatedCountMax := v.RepeatedCountMax } := by
      simpa [onlyCountLimits] using h v (by simp)
    simp only [generateValidatorsFrom, ih (i + 1) (fun fv hfv => h fv (by simp [hfv]))]
    rw [hv]
    by_cases h1 : field.IsString = true
    · simp only [h1, if_true]
      rfl
    · by_cases h2 : isSupportedInt field = true
      · simp only [h1, h2, if_true, if_false]
        rfl
      · by_cases h3 : field.IsEnum = true
        · simp only [h1, h2, h3, if_true, if_false]
          rfl
        · by_cases h4 : isSupportedFloat field = true
          · simp only [h1, h2, h3, h4, if_true, if_false]
            rfl
          · by_cases h5 : field.IsBytes = true
            · simp only [h1, h2, h3, h4, h5, if_true, if_false]
              rfl
            · simp only [h1, h2, h3, h4, h5, if_false, Bool.false_eq_true]
              rfl

/-- The count checks hold no loop. -/
theorem generateRepeatedCountValidator_no_loop (lang : String) (variableName : Var)
    (ccTypeName fieldName : String) (validators : List FieldValidator) :
    (generateRepeatedCountValidator lang variableName ccTypeName fieldName validators).any isLoop
      = false := by
  unfold generateRepeatedCountValidator
  rw [List.any_eq_false]
  intro s hs
  rw [List.mem_flatMap] at hs
  obtain ⟨fv, _, hs⟩ := hs
  unfold generateRepeatedCount at hs
  cases h1 : fv.RepeatedCountMin <;> cases h2 : fv.RepeatedCountMax <;>
    simp [h1, h2] at hs
  · rw [hs]; simp [isLoop]
  · rw [hs]; simp [isLoop]
  · rcases hs with hs | hs <;> rw [hs] <;> simp [isLoop]


/-- C24: `validatorWithNonRepeatedConstraint` is false for the empty list and for every list
whose validators set nothing other than `repeated_count_min` and `repeated_count_max`, and true
as soon as one validator sets another field of the struct (any of the other 21, `human_error`
included); so the code of a repeated scalar field holds a loop over the elements exactly when
the field carries something besides count limits: then it is the count checks followed by the
loop, otherwise the count checks alone. -/
theorem per_element_loop_iff_other_constraint (p : Plugin) (file : FileDescriptor) (ccTypeName : String)
    (field : FieldDescriptor) (validators : List FieldValidator) :
    validatorWithNonRepeatedConstraint [] = false
    ∧ ((∀ fv ∈ validators, onlyCountLimits fv = true) →
        validatorWithNonRepeatedConstraint validators = false)
    ∧ ((∃ fv ∈ validators, onlyCountLimits fv = false) →
        validatorWithNonRepeatedConstraint validators = true)
    ∧ (∀ fv : FieldValidator, onlyCountLimits fv = true ↔
        (fv.Regex = none ∧ fv.IntGt = none ∧ fv.IntLt = none ∧ fv.MsgExists = none
          ∧ fv.HumanError = none ∧ fv.FloatGt = none ∧ fv.FloatLt = none
          ∧ fv.FloatEpsilon = none ∧ fv.FloatGte = none ∧ fv.FloatLte = none
          ∧ fv.StringNotEmpty = none ∧ fv.LengthGt = none ∧ fv.LengthLt = none
          ∧ fv.LengthEq = none ∧ fv.IsInEnum = none ∧ fv.UuidVer = none
          ∧ fv.TrimmedStringNotEmpty = none ∧ fv.IntGte = none ∧ fv.IntLte = none
          ∧ fv.MsgExistsIfAnotherNot = none ∧ fv.DecimalPlacesLte = none))
    ∧ (field.Repeated = true → field.Typ ≠ FieldType.TYPE_MESSAGE → field.OneofIndex = none →
        ((generateProto3Field p file ccTypeName field).1.any isLoop
            = validatorWithNonRepeatedConstraint field.validators)
        ∧ (validatorWithNonRepeatedConstraint field.validators = true →
            (generateProto3Field p file ccTypeName field).1 =
              generateRepeatedCountValidator p.lang (Var.this (p.GetOneOfFieldName field))
                  ccTypeName (p.GetOneOfFieldName field) field.validators
                ++ [Stmt.forRange (Var.this (p.GetOneOfFieldName field))
                    (generateValidatorsFrom p field Var.item ccTypeName
                      (p.GetOneOfFieldName field) 0 field.validators).1])
        ∧ (validatorWithNonRepeatedConstraint field.validators = false →
            (generateProto3Field p file ccTypeName field).1 =
              generateRepeatedCountValidator p.lang (Var.this (p.GetOneOfFieldName field))
                  ccTypeName (p.GetOneOfFieldName field) field.validators)) := by
  refine ⟨rfl, (validatorWithNonRepeatedConstraint_eq_false_iff validators).mpr, ?_, ?_, ?_⟩
  · rintro ⟨fv, hfv, hno⟩
    cases h : validatorWithNonRepeatedConstraint validators with
    | true => rfl
    | false =>
      have := (validatorWithNonRepeatedConstraint_eq_false_iff validators).mp h fv hfv
      rw [hno] at this
      exact absurd this (by decide)
  · intro fv
    cases fv
    simp only [onlyCountLimits, decide_eq_true_eq, FieldValidator.mk.injEq, and_true, true_and,
      and_assoc]
  · intro hrep hnomsg hone
    have hM : field.IsMessage = false := by simp [FieldDescriptor.IsMessage, hnomsg]
    have hR : field.IsRepeated = true := hrep
    have hmap : fieldIsProto3Map field = false := by simp [fieldIsProto3Map, hnomsg]
    have hshape : (generateProto3Field p file ccTypeName field).1 =
        generateRepeatedCountValidator p.lang (Var.this (p.GetOneOfFieldName field))
            ccTypeName (p.GetOneOfFieldName field) field.validators
          ++ (if validatorWithNonRepeatedConstraint field.validators = true then
              [Stmt.forRange (Var.this (p.GetOneOfFieldName field))
                (generateValidatorsFrom p field Var.item ccTypeName
                  (p.GetOneOfFieldName field) 0 field.validators).1]
            else (generateValidatorsFrom p field (Var.this (p.GetOneOfFieldName field))
                ccTypeName (p.GetOneOfFieldName field) 0 field.validators).1) := by
      by_cases hlen : field.validators.length = 0
      · have hnil : field.validators = [] := List.length_eq_zero.mp hlen
        unfold generateProto3Field
        simp only [getFieldValidatorIfAny, hlen, hM, Bool.false_eq_true, not_false_eq_true,
          and_self, if_true]
        rw [hnil]
        rfl
      · unfold generateProto3Field
        simp only [getFieldValidatorIfAny, hlen, false_and, if_false, hM, hR, hmap, hone,
          Option.isSome_none, Bool.false_eq_true, Bool.false_or, Bool.true_and, if_true,
          List.append_nil]
        by_cases hc : validatorWithNonRepeatedConstraint field.validators = true
        · simp only [hc, if_true]
        · simp only [hc, if_false, Bool.false_eq_true]
    have htrue : validatorWithNonRepeatedConstraint field.validators = true →
        (generateProto3Field p file ccTypeName field).1 =
          generateRepeatedCountValidator p.lang (Var.this (p.GetOneOfFieldName field))
              ccTypeName (p.GetOneOfFieldName field) field.validators
            ++ [Stmt.forRange (Var.this (p.GetOneOfFieldName field))
                (generateValidatorsFrom p field Var.item ccTypeName
                  (p.GetOneOfFieldName field) 0 field.validators).1] := by
      intro hc
      rw [hshape, if_pos hc]
    have hfalse : validatorWithNonRepeatedConstraint field.validators = false →
        (generateProto3Field p file ccTypeName field).1 =
          generateRepeatedCountValidator p.lang (Var.this (p.GetOneOfFieldName field))
              ccTypeName (p.GetOneOfFieldName field) field.validators := by
      intro hc
      rw [hshape, if_neg (by simp [hc]),
        generateValidatorsFrom_onlyCounts p field _ _ _ 0 _
          ((validatorWithNonRepeatedConstraint_eq_false_iff _).mp hc)]
      simp
    refine ⟨?_, htrue, hfalse⟩
    cases hc : validatorWithNonRepeatedConstraint field.validators with
    | true =>
      rw [htrue hc]
      simp [isLoop]
    | false =>
      rw [hfalse hc]
      exact generateRepeatedCountValidator_no_loop _ _ _ _ _

/-- The witness of C24: the field `scores` with a count limit alone has no loop, with `int_gt`
beside it it has one. -/
theorem per_element_loop_iff_other_constraint_witness :
    (generateProto3Field samplePlugin {} "Msg"
        (scoresField [{ RepeatedCountMin := some 1 }])).1.any isLoop = false
    ∧ (generateProto3Field samplePlugin {} "Msg"
        (scoresField [{ RepeatedCountMin := some 1, IntGt := some 0 }])).1.any isLoop = true :=
  ⟨((per_element_loop_iff_other_constraint samplePlugin {} "Msg"
      (scoresField [{ RepeatedCountMin := some 1 }]) []).2.2.2.2 rfl (by decide) rfl).1,
   ((per_element_loop_iff_other_constraint samplePlugin {} "Msg"
      (scoresField [{ RepeatedCountMin := some 1, IntGt := some 0 }]) []).2.2.2.2
      rfl (by decide) rfl).1⟩

/-! ## Length bounds -/

/-- A generated length comparison: nothing when the comparison holds, the violation otherwise. -/
theorem exec_lenCheck (lang : String) (env : Env) (variableName : Var) (fieldName : String)
    (fv : FieldValidator) (op : CmpOp) (n l : Int) (val : Value) (table : List (String × String))
    (hv : evalVar env variableName = some val) (hl : goLen val = some l) :
    exec env (Stmt.ifThen (Cond.notLenCmp variableName op n)
        (generateErrorString lang variableName fieldName
          (Sprintf (mapIndex table lang) "%d" (int64Operand n)) fv)) =
      some (boundViolations (some n) (cmpInt op l)
        (lenViolation lang env variableName fieldName fv val table)) := by
  simp only [exec, evalCond, hv, Option.bind_some, hl, boundViolations, lenViolation]
  cases h : cmpInt op l n <;>
    simp [hl, h, exec_generateErrorString lang env variableName fieldName _ fv _ hv]

/-- The violations of `generateLengthValidator` on a value of length `l`, bound by bound. -/
theorem exec_generateLengthValidator (lang : String) (env : Env) (variableName : Var)
    (ccTypeName fieldName : String) (fv : FieldValidator) (val : Value) (l : Int)
    (hv : evalVar env variableName = some val) (hl : goLen val = some l) :
    execList env (generateLengthValidator lang variableName ccTypeName fieldName fv) =
      some (lengthViolations lang env variableName fieldName fv val l) := by
  simp only [generateLengthValidator, execList_append, lengthViolations]
  have e1 : (fun n => decide (l > n)) = cmpInt CmpOp.gt l := by funext n; simp [cmpInt]
  have e2 : (fun n => decide (l < n)) = cmpInt CmpOp.lt l := by funext n; simp [cmpInt]
  have e3 : (fun n => decide (l = n)) = cmpInt CmpOp.eq l := by funext n; simp [cmpInt]
  rw [e1, e2, e3]
  cases h1 : fv.LengthGt <;> cases h2 : fv.LengthLt <;> cases h3 : fv.LengthEq <;>
    simp only [execList_nil, execList_singleton, FieldValidator.GetLengthGt,
      FieldValidator.GetLengthLt, FieldValidator.GetLengthEq, h1, h2, h3, Option.getD_some,
      exec_lenCheck _ _ _ _ _ _ _ _ _ _ hv hl, appendOpt_some, appendOpt_nil_left,
      appendOpt_nil_right] <;>
    simp [boundViolations]

/-- The string checks do not read the count limits. -/
theorem generateStringValidator_dropCounts (lang : String) (variableName : Var)
    (ccTypeName fieldName : String) (fv : FieldValidator) (i : Nat) :
    generateStringValidator lang variableName ccTypeName fieldName (dropCounts fv) i
      = ((generateStringValidator lang variableName ccTypeName fieldName fv i).1,
          dropCounts (generateStringValidator lang variableName ccTypeName fieldName fv i).2) := by
  unfold generateStringValidator
  have hR : (dropCounts fv).Regex = fv.Regex := rfl
  have hU : (dropCounts fv).UuidVer = fv.UuidVer := rfl
  simp only [hR, hU]
  by_cases h1 : fv.Regex.isSome = true ∨ fv.UuidVer.isSome = true
  · simp only [h1, if_true]
    by_cases h2 : fv.UuidVer.isSome = true
    · simp only [h2, if_true]
      cases getUUIDRegex fv.UuidVer with
      | error e => rfl
      | ok uuid => rfl
    · simp only [h2, if_false, Bool.false_eq_true]
      rfl
  · simp only [h1, if_false]
    rfl

/-- The checks of the validators do not read the count limits, whatever the field's type. -/
theorem generateValidatorsFrom_dropCounts (p : Plugin) (field : FieldDescriptor)
    (variableName : Var) (ccTypeName fieldName : String) (i : Nat)
    (validators : List FieldValidator) (extra : List FieldValidator) :
    generateValidatorsFrom p { field with validators := extra } variableName ccTypeName fieldName
        i (validators.map dropCounts)
      = ((generateValidatorsFrom p field variableName ccTypeName fieldName i validators).1,
          (generateValidatorsFrom p field variableName ccTypeName fieldName i validators).2.map
            dropCounts) := by
  induction validators generalizing i with
  | nil => rfl
  | cons v rest ih =>
    simp only [List.map_cons, generateValidatorsFrom, ih]
    have hS : FieldDescriptor.IsString { field with validators := extra } = field.IsString := rfl
    have hI : isSupportedInt { field with validators := extra } = isSupportedInt field := rfl
    have hE : FieldDescriptor.IsEnum { field with validators := extra } = field.IsEnum := rfl
    have hF : isSupportedFloat { field with validators := extra } = isSupportedFloat field := rfl
    have hB : FieldDescriptor.IsBytes { field with validators := extra } = field.IsBytes := rfl
    rw [hS, hI, hE, hF, hB]
    by_cases h1 : field.IsString = true
    · simp only [h1, if_true, generateStringValidator_dropCounts]
    · by_cases h2 : isSupportedInt field = true
      · simp only [h1, h2, if_true, if_false]
        rfl
      · by_cases h3 : field.IsEnum = true
        · simp only [h1, h2, h3, if_true, if_false]
          rfl
        · by_cases h4 : isSupportedFloat field = true
          · simp only [h1, h2, h3, h4, if_true, if_false]
            rfl
          · by_cases h5 : field.IsBytes = true
            · simp only [h1, h2, h3, h4, h5, if_true, if_false]
              rfl
            · simp only [h1, h2, h3, h4, h5, if_false]
              rfl


/-- The presence checks do not read the count limits. -/
theorem generateMessagePresence_dropCounts (lang : String) (variableName : Var)
    (fieldName : String) (nullable repeated : Bool) (fv : FieldValidator) :
    generateMessagePresence lang variableName fieldName nullable repeated (dropCounts fv)
      = generateMessagePresence lang variableName fieldName nullable repeated fv := rfl

/-- The code of a field that is not repeated does not depend on the count limits of its
validators. -/
theorem generateProto3Field_dropCounts (p : Plugin) (file : FileDescriptor) (ccTypeName : String)
    (field : FieldDescriptor) (hrep : field.Repeated = false) :
    (generateProto3Field p file ccTypeName
        { field with validators := field.validators.map dropCounts }).1
      = (generateProto3Field p file ccTypeName field).1 := by
  have hR : field.IsRepeated = false := hrep
  have hR2 : FieldDescriptor.IsRepeated
      { field with validators := field.validators.map dropCounts } = false := hrep
  have hM2 : FieldDescriptor.IsMessage
      { field with validators := field.validators.map dropCounts } = field.IsMessage := rfl
  have hmap : fieldIsProto3Map field = false := by simp [fieldIsProto3Map, hR]
  have hmap2 : fieldIsProto3Map
      { field with validators := field.validators.map dropCounts } = false := by
    simp [fieldIsProto3Map, hR2]
  have hn2 : p.GetOneOfFieldName
      { field with validators := field.validators.map dropCounts }
        = p.GetOneOfFieldName field := rfl
  have hf2 : p.GetFieldName
      { field with validators := field.validators.map dropCounts }
        = p.GetFieldName field := rfl
  have hpres : ∀ (v : Var) (nullable : Bool) (l : List FieldValidator),
      (l.map dropCounts).flatMap
        (generateMessagePresence p.lang v (p.GetOneOfFieldName field) nullable false) =
      l.flatMap
        (generateMessagePresence p.lang v (p.GetOneOfFieldName field) nullable false) := by
    intro v nullable l
    rw [List.flatMap_map]
    rfl
  unfold generateProto3Field
  simp only [getFieldValidatorIfAny, List.length_map, hR, hR2, hM2, hmap, hmap2, hn2, hf2,
    generateValidatorsFrom_dropCounts, hpres, Bool.false_and, Bool.false_eq_true, if_false,
    List.nil_append]
  by_cases h : field.validators.length = 0 ∧ ¬ field.IsMessage = true
  · rw [if_pos h, if_pos h]
  · rw [if_neg h, if_neg h]

/-- C23: on a value of byte length `n` (a string or a byte slice), the checks of
`generateLengthValidator` return, in the order `length_gt`, `length_lt`, `length_eq`, one
violation for each bound that is set and fails: `length_gt = a` fails when `n ≤ a`,
`length_lt = b` when `n ≥ b`, `length_eq = c` when `n ≠ c`; these are the checks of a bytes
field, and of a string field whose validator sets no pattern and no presence flag.  On a field
that is not repeated the count limits generate no check: the code of the field is the same as
with `repeated_count_min` and `repeated_count_max` taken out, and it is empty when the
validators of a scalar field set nothing else. -/
theorem length_bounds_and_count_limits (p : Plugin) (file : FileDescriptor) (ccTypeName fieldName : String)
    (field : FieldDescriptor) (env : Env) (variableName : Var) (fv : FieldValidator)
    (val : Value) (n : Int) (i : Nat)
    (hv : evalVar env variableName = some val) (hl : goLen val = some n) :
    execList env (generateLengthValidator p.lang variableName ccTypeName fieldName fv)
      = some (lengthViolations p.lang env variableName fieldName fv val n)
    ∧ (∀ a, fv.LengthGt = some a →
        (boundViolations fv.LengthGt (fun a => decide (n > a))
          (lenViolation p.lang env variableName fieldName fv val errorLengthGt)).length
          = if n ≤ a then 1 else 0)
    ∧ (∀ b, fv.LengthLt = some b →
        (boundViolations fv.LengthLt (fun b => decide (n < b))
          (lenViolation p.lang env variableName fieldName fv val errorLengthLt)).length
          = if n ≥ b then 1 else 0)
    ∧ (∀ c, fv.LengthEq = some c →
        (boundViolations fv.LengthEq (fun c => decide (n = c))
          (lenViolation p.lang env variableName fieldName fv val errorLengthEq)).length
          = if n ≠ c then 1 else 0)
    ∧ (∀ s : String, goLen (Value.str s) = some (s.utf8ByteSize : Int))
    ∧ (∀ b : List Nat, goLen (Value.bytes b) = some (b.length : Int))
    ∧ (field.Typ = FieldType.TYPE_BYTES →
        (generateValidatorsFrom p field variableName ccTypeName fieldName i [fv]).1
          = generateLengthValidator p.lang variableName ccTypeName fieldName fv)
    ∧ (field.Typ = FieldType.TYPE_STRING → fv.Regex = none → fv.UuidVer = none →
        fv.StringNotEmpty = none → fv.TrimmedStringNotEmpty = none →
        (generateValidatorsFrom p field variableName ccTypeName fieldName i [fv]).1
          = generateLengthValidator p.lang variableName ccTypeName fieldName fv)
    ∧ (field.Repeated = false →
        (generateProto3Field p file ccTypeName
            { field with validators := field.validators.map dropCounts }).1
          = (generateProto3Field p file ccTypeName field).1)
    ∧ (field.Repeated = false → field.Typ ≠ FieldType.TYPE_MESSAGE → field.OneofIndex = none →
        (∀ v ∈ field.validators, onlyCountLimits v = true) →
        (generateProto3Field p file ccTypeName field).1 = []) := by
  refine ⟨exec_generateLengthValidator _ _ _ _ _ _ _ _ hv hl, ?_, ?_, ?_, fun _ => rfl,
    fun _ => rfl, ?_, ?_, generateProto3Field_dropCounts p file ccTypeName field, ?_⟩
  · intro a ha
    rw [ha]
    by_cases h : n ≤ a
    · have h' : ¬ n > a := not_lt.mpr h
      simp [boundViolations, h, h']
    · have h' : n > a := not_le.mp h
      simp [boundViolations, h, h']
  · intro b hb
    rw [hb]
    by_cases h : n ≥ b
    · have h' : ¬ n < b := not_lt.mpr h
      simp [boundViolations, h, h']
    · have h' : n < b := not_le.mp h
      simp [boundViolations, h, h']
  · intro c hc
    rw [hc]
    by_cases h : n = c <;> simp [boundViolations, h]
  · intro hT
    simp [generateValidatorsFrom, FieldDescriptor.IsString, FieldDescriptor.IsEnum,
      FieldDescriptor.IsBytes, isSupportedInt, isSupportedFloat, hT]
  · intro hT h1 h2 h3 h4
    simp [generateValidatorsFrom, FieldDescriptor.IsString, hT, generateStringValidator, h1, h2,
      h3, h4]
  · intro hrep hnomsg hone honly
    have hM : field.IsMessage = false := by simp [FieldDescriptor.IsMessage, hnomsg]
    have hR : field.IsRepeated = false := hrep
    have hmap : fieldIsProto3Map field = false := by simp [fieldIsProto3Map, hnomsg]
    unfold generateProto3Field
    by_cases hlen : field.validators.length = 0
    · simp only [getFieldValidatorIfAny, hlen, hM, Bool.false_eq_true, not_false_eq_true,
        and_self, if_true]
    · simp only [getFieldValidatorIfAny, hlen, false_and, if_false, hM, hR, hmap, hone,
        Option.isSome_none, Bool.false_eq_true, Bool.false_and, List.append_nil, List.nil_append,
        generateValidatorsFrom_onlyCounts p field _ _ _ 0 _ honly]

set_option maxRecDepth 100000 in
/-- The witness of C23: the text `abcd` under `length_gt = 5`, `length_lt = 3`,
`length_eq = 4` fails the first two bounds, and a count limit on the singular field `id`
generates nothing. -/
theorem length_bounds_and_count_limits_witness :
    execList (sampleEnv (Value.str "abcd"))
        (generateLengthValidator LangDefault (Var.this "Id") "Msg" "Id"
          { LengthGt := some 5, LengthLt := some 3, LengthEq := some 4 })
      = some [{ Field := "Id",
                Description := "value 'abcd' must have a length greater than '5'" },
              { Field := "Id",
                Description := "value 'abcd' must have a length smaller than '3'" }]
    ∧ (generateProto3Field samplePlugin {} "Msg" (idField [{ RepeatedCountMin := some 2 }])).1
      = [] :=
  ⟨(length_bounds_and_count_limits samplePlugin {} "Msg" "Id" (idField [])
      (sampleEnv (Value.str "abcd")) (Var.this "Id")
      { LengthGt := some 5, LengthLt := some 3, LengthEq := some 4 } (Value.str "abcd") 4 0
      rfl rfl).1.trans rfl,
   (length_bounds_and_count_limits samplePlugin {} "Msg" "Id"
      (idField [{ RepeatedCountMin := some 2 }])
      (sampleEnv (Value.str "abcd")) (Var.this "Id") {} (Value.str "abcd") 4 0
      rfl rfl).2.2.2.2.2.2.2.2.2 rfl (by decide) rfl (by decide)⟩

/-! ## Pattern checks and their variables -/

set_option maxRecDepth 100000 in
/-- C25 (the code at the failing input): for the field `id` of `Msg` with both `regex` and
`uuid_ver = 4` set, `generateRegexVars` declares no pattern variable, and the routine of
`generateProto3Message` holds a pattern check that refers to `_regex_Msg_Id_00`, so it cannot
run; the same for `uuid_ver = 6`.  With `uuid_ver = 4` alone the variable the check refers to
is the one declared. -/
theorem pattern_check_on_undeclared_variable :
    (generateRegexVars samplePlugin (idMessage [regexAndUuid])).1 = []
    ∧ (generateProto3Message samplePlugin {}
          (generateRegexVars samplePlugin (idMessage [regexAndUuid])).2).1.body.map patternVarsList
        = some [regexName "Msg" "Id" 0]
    ∧ (generateProto3Message samplePlugin {}
          (generateRegexVars samplePlugin (idMessage [regexAndUuid])).2).1.run
        { sampleEnv (Value.str "abc") with
          regexVars := (generateRegexVars samplePlugin (idMessage [regexAndUuid])).1 } = none
    ∧ (generateRegexVars samplePlugin (idMessage [uuidSix])).1 = []
    ∧ (generateProto3Message samplePlugin {}
          (generateRegexVars samplePlugin (idMessage [uuidSix])).2).1.body.map patternVarsList
        = some [regexName "Msg" "Id" 0]
    ∧ (generateRegexVars samplePlugin (idMessage [uuidFour])).1.map Prod.fst
        = [regexName "Msg" "Id" 0]
    ∧ (generateProto3Message samplePlugin {}
          (generateRegexVars samplePlugin (idMessage [uuidFour])).2).1.body.map patternVarsList
        = some [regexName "Msg" "Id" 0] := by
  refine ⟨rfl, rfl, rfl, rfl, rfl, rfl, rfl⟩

/-- A version from 0 to 5 has a pattern. -/
theorem getUUIDRegex_ok (v : Int) (h0 : 0 ≤ v) (h5 : v ≤ 5) :
    ∃ pattern, getUUIDRegex (some v) = Except.ok pattern := by
  unfold getUUIDRegex
  have h : ¬ (v < 0 ∨ v > 5) := by omega
  simp only [h, if_false]
  split <;> exact ⟨_, rfl⟩

set_option maxRecDepth 100000 in
/-- C26: for every version from 0 to 5 the synthesized UUID pattern accepts the empty text: the
pattern check of a string field constrained by `uuid_ver` alone returns no violation on the
value `""` (with the pattern variable `generateRegexVars` declares for it), and so does the
routine of a message with such a field. -/
theorem uuid_pattern_accepts_empty (v : Int) (h0 : 0 ≤ v) (h5 : v ≤ 5) :
    matchUUID v "" = some true
    ∧ (∀ (lang : String) (env : Env) (variableName : Var) (ccTypeName fieldName : String)
        (index : Nat), evalVar env variableName = some (Value.str "") →
        env.regexVars = (generateRegexVar ccTypeName fieldName index { UuidVer := some v }).1 →
        execList env (generateStringValidator lang variableName ccTypeName fieldName
          { UuidVer := some v } index).1 = some [])
    ∧ (generateProto3Message samplePlugin {}
          (generateRegexVars samplePlugin (idMessage [{ UuidVer := some v }])).2).1.run
        { sampleEnv (Value.str "") with
          regexVars := (generateRegexVars samplePlugin (idMessage [{ UuidVer := some v }])).1 }
        = some [] := by
  have hm : matchUUID v "" = some true := by
    rw [matchUUID_eq v h0 h5]
    rfl
  refine ⟨hm, ?_, ?_⟩
  · intro lang env variableName ccTypeName fieldName index hv hvars
    obtain ⟨pattern, hp⟩ := getUUIDRegex_ok v h0 h5
    unfold matchUUID at hm
    rw [hp] at hm
    simp only [Option.map_eq_some'] at hm
    obtain ⟨re, hre, hmatch⟩ := hm
    have hdecl : env.regexVars = [(regexName ccTypeName fieldName index, pattern)] := by
      rw [hvars]
      simp [generateRegexVar, hp]
    simp [generateStringValidator, generateLengthValidator, hp, exec, evalCond, hv, hdecl,
      List.lookup, hre, hmatch, FieldValidator.GetStringNotEmpty,
      FieldValidator.GetTrimmedStringNotEmpty]
  · interval_cases v <;> rfl

set_option maxRecDepth 100000 in
/-- The witness of C26: version 4. -/
theorem uuid_pattern_accepts_empty_witness :
    matchUUID 4 "" = some true
    ∧ (generateProto3Message samplePlugin {}
          (generateRegexVars samplePlugin (idMessage [{ UuidVer := some 4 }])).2).1.run
        { sampleEnv (Value.str "") with
          regexVars := (generateRegexVars samplePlugin (idMessage [{ UuidVer := some 4 }])).1 }
        = some [] :=
  ⟨(uuid_pattern_accepts_empty 4 (by decide) (by decide)).1,
   (uuid_pattern_accepts_empty 4 (by decide) (by decide)).2.2⟩

/-! ## Names of the pattern variables -/

/-- The decimal digit characters. -/
theorem digitChar_value (k : Nat) (hk : k < 10) :
    (Nat.digitChar k).toNat - '0'.toNat = k ∧ Nat.digitChar k ≠ '_' := by
  interval_cases k <;> exact ⟨rfl, by decide⟩

/-- Reading back the digits `Nat.toDigitsCore` writes in front of `ds`. -/
theorem digitsValue_toDigitsCore (fuel n : Nat) (ds : List Char) (h : n < fuel) :
    digitsValue 0 (Nat.toDigitsCore 10 fuel n ds) = digitsValue n ds := by
  induction fuel generalizing n ds with
  | zero => omega
  | succ fuel ih =>
    have hmod : n % 10 < 10 := Nat.mod_lt _ (by decide)
    have hstep : digitsValue (n / 10) (Nat.digitChar (n % 10) :: ds) = digitsValue n ds := by
      unfold digitsValue
      rw [List.foldl_cons, (digitChar_value _ hmod).1]
      congr 1
      omega
    unfold Nat.toDigitsCore
    simp only []
    by_cases h0 : n / 10 = 0
    · rw [if_pos h0]
      rw [← hstep, h0]
    · rw [if_neg h0, ih _ _ (by omega), hstep]

/-- The digits of a number hold no underscore. -/
theorem toDigitsCore_no_underscore (fuel n : Nat) (ds : List Char) (h : '_' ∉ ds) :
    '_' ∉ Nat.toDigitsCore 10 fuel n ds := by
  induction fuel generalizing n ds with
  | zero => exact h
  | succ fuel ih =>
    have hmod : n % 10 < 10 := Nat.mod_lt _ (by decide)
    have hcons : '_' ∉ Nat.digitChar (n % 10) :: ds := by
      simp only [List.mem_cons, not_or]
      exact ⟨fun e => (digitChar_value _ hmod).2 e.symm, h⟩
    unfold Nat.toDigitsCore
    simp only []
    by_cases h0 : n / 10 = 0
    · rw [if_pos h0]
      exact hcons
    · rw [if_neg h0]
      exact ih _ _ hcons

/-- The text of a natural number is the list of its decimal digits. -/
theorem toString_data (n : Nat) : (toString n).data = Nat.toDigitsCore 10 (n + 1) n [] := rfl

/-- The index text of `regexName` determines the index. -/
theorem digitsValue_pad02 (i : Nat) : digitsValue 0 (pad02 i).data = i := by
  unfold pad02
  by_cases h : i < 10
  · rw [if_pos h, String.data_append, toString_data]
    show digitsValue (10 * 0 + ('0'.toNat - '0'.toNat)) (Nat.toDigitsCore 10 (i + 1) i []) = i
    exact digitsValue_toDigitsCore (i + 1) i [] (by omega)
  · rw [if_neg h, toString_data, digitsValue_toDigitsCore _ _ _ (by omega)]
    rfl

/-- The index text holds no underscore. -/
theorem pad02_no_underscore (i : Nat) : '_' ∉ (pad02 i).data := by
  unfold pad02
  by_cases h : i < 10
  · rw [if_pos h, String.data_append, toString_data]
    simp only [List.mem_append, not_or]
    exact ⟨by decide, toDigitsCore_no_underscore _ _ _ (by simp)⟩
  · rw [if_neg h, toString_data]
    exact toDigitsCore_no_underscore _ _ _ (by simp)

/-- The text of `%02d` determines the index. -/
theorem pad02_injective (i j : Nat) (h : pad02 i = pad02 j) : i = j := by
  rw [← digitsValue_pad02 i, ← digitsValue_pad02 j, h]

/-- A text is cut in one way only at its last underscore. -/
theorem append_underscore_cancel (x y a b : List Char) (ha : '_' ∉ a) (hb : '_' ∉ b)
    (h : x ++ '_' :: a = y ++ '_' :: b) : x = y ∧ a = b := by
  induction x generalizing y with
  | nil =>
    cases y with
    | nil => simpa using h
    | cons d y =>
      exfalso
      simp only [List.nil_append, List.cons_append, List.cons.injEq] at h
      apply ha
      rw [h.2]
      simp
  | cons c x ih =>
    cases y with
    | nil =>
      exfalso
      simp only [List.nil_append, List.cons_append, List.cons.injEq] at h
      apply hb
      rw [← h.2]
      simp
    | cons d y =>
      simp only [List.cons_append, List.cons.injEq] at h
      obtain ⟨hxy, hab⟩ := ih y h.2
      exact ⟨by rw [h.1, hxy], hab⟩

/-- The characters of a pattern variable's name. -/
theorem regexName_data (ccTypeName fieldName : String) (index : Nat) :
    (regexName ccTypeName fieldName index).data =
      "_regex_".data ++ (ccTypeName.data ++ '_' :: (fieldName.data ++ '_' :: (pad02 index).data)) := by
  unfold regexName
  simp only [String.data_append, List.append_assoc]
  rfl

/-- C27 (as stated, refuted): the triples (`A_B`, `C`, 0) and (`A`, `B_C`, 0) differ and have
the same name `_regex_A_B_C_00`. -/
theorem regexName_collision :
    regexName "A_B" "C" 0 = regexName "A" "B_C" 0
    ∧ regexName "A_B" "C" 0 = "_regex_A_B_C_00"
    ∧ (("A_B", "C", 0) : String × String × Nat) ≠ ("A", "B_C", 0) := by
  decide

/-- C27 (amended): two different triples have different names when they belong to the same
message type, or when neither field name holds an underscore; and the index is determined by
the name in every case. -/
theorem regexName_determines_key (cc1 fn1 cc2 fn2 : String) (i1 i2 : Nat) :
    ((cc1 = cc2 ∨ ('_' ∉ fn1.data ∧ '_' ∉ fn2.data)) → (cc1, fn1, i1) ≠ (cc2, fn2, i2) →
      regexName cc1 fn1 i1 ≠ regexName cc2 fn2 i2)
    ∧ (regexName cc1 fn1 i1 = regexName cc2 fn2 i2 → i1 = i2) := by
  have hcut : regexName cc1 fn1 i1 = regexName cc2 fn2 i2 →
      cc1.data ++ '_' :: fn1.data = cc2.data ++ '_' :: fn2.data ∧ i1 = i2 := by
    intro h
    have hd := congrArg String.data h
    rw [regexName_data, regexName_data] at hd
    have hd2 := List.append_cancel_left hd
    have hd3 : (cc1.data ++ '_' :: fn1.data) ++ '_' :: (pad02 i1).data
        = (cc2.data ++ '_' :: fn2.data) ++ '_' :: (pad02 i2).data := by
      simpa using hd2
    obtain ⟨h1, h2⟩ := append_underscore_cancel _ _ _ _ (pad02_no_underscore i1)
      (pad02_no_underscore i2) hd3
    exact ⟨h1, pad02_injective _ _ (String.ext h2)⟩
  constructor
  · intro hside hne h
    apply hne
    obtain ⟨h1, h2⟩ := hcut h
    rcases hside with hcc | ⟨hf1, hf2⟩
    · subst hcc
      have h3 := List.append_cancel_left h1
      simp only [List.cons.injEq, true_and] at h3
      rw [String.ext h3, h2]
    · obtain ⟨h3, h4⟩ := append_underscore_cancel _ _ _ _ hf1 hf2 h1
      rw [String.ext h3, String.ext h4, h2]
  · intro h
    exact (hcut h).2

/-- The witness of C27 (amended): two indices of the same field, and the same field name in two
message types. -/
theorem regexName_determines_key_witness :
    regexName "Msg" "Id" 0 ≠ regexName "Msg" "Id" 1
    ∧ regexName "A_B" "Id" 0 ≠ regexName "A" "Id" 0 :=
  ⟨(regexName_determines_key "Msg" "Id" "Msg" "Id" 0 1).1 (Or.inl rfl) (by decide),
   (regexName_determines_key "A_B" "Id" "A" "Id" 0 0).1 (Or.inr ⟨by decide, by decide⟩)
     (by decide)⟩

/-! ## Dispatch on the field's type -/

/-- A validator without float bound and decimal-places limit has no float check. -/
theorem generateFloatValidator_noFloatConstraint (lang : String) (ff : FloatFmt)
    (table : List (String × String)) (variableName : Var) (ccTypeName fieldName : String)
    (fv : FieldValidator) (index : Nat) (h : noFloatConstraint fv = true) :
    generateFloatValidator lang ff table variableName ccTypeName fieldName fv index = [] := by
  simp only [noFloatConstraint, Bool.and_eq_true, Option.isNone_iff_eq_none] at h
  obtain ⟨⟨⟨⟨h1, h2⟩, h3⟩, h4⟩, h5⟩ := h
  simp [generateFloatValidator, generateFloatLower, generateFloatUpper, generateDecimalPlaces,
    h1, h2, h3, h4, h5]

/-- On a field of a fixed-width type the validators without float constraint have no check. -/
theorem generateValidatorsFrom_fixed (p : Plugin) (field : FieldDescriptor) (variableName : Var)
    (ccTypeName fieldName : String) (hfix : isFixedWidth field = true) (i : Nat)
    (validators : List FieldValidator)
    (h : ∀ fv ∈ validators, noFloatConstraint fv = true) :
    generateValidatorsFrom p field variableName ccTypeName fieldName i validators
      = ([], validators) := by
  have hS : field.IsString = false := by
    unfold isFixedWidth at hfix
    unfold FieldDescriptor.IsString
    cases hT : field.Typ <;> simp [hT] at hfix ⊢
  have hI : isSupportedInt field = false := by
    unfold isFixedWidth at hfix
    unfold isSupportedInt
    cases hT : field.Typ <;> simp [hT] at hfix ⊢
  have hE : field.IsEnum = false := by
    unfold isFixedWidth at hfix
    unfold FieldDescriptor.IsEnum
    cases hT : field.Typ <;> simp [hT] at hfix ⊢
  have hF : isSupportedFloat field = true := by
    unfold isFixedWidth at hfix
    unfold isSupportedFloat
    cases hT : field.Typ <;> simp [hT] at hfix ⊢
  induction validators generalizing i with
  | nil => rfl
  | cons v rest ih =>
    simp only [generateValidatorsFrom, hS, hI, hE, hF, Bool.false_eq_true, if_false, if_true,
      ih (i + 1) (fun fv hfv => h fv (by simp [hfv])),
      generateFloatValidator_noFloatConstraint _ _ _ _ _ _ _ _ (h v (by simp)), List.append_nil]

/-- C28: no field type satisfies both `isSupportedInt` and `isSupportedFloat`; a field of type
`fixed32`, `fixed64`, `sfixed32` or `sfixed64` is not an integer field and is a float field for
the plugin: the checks of a validator on it are those of `generateFloatValidator`, so the
integer bounds generate no check (validators without float constraint generate nothing, and the
code of a singular field with such validators is empty and reports no violation on any
instance), while a float bound does generate a check. -/
theorem fixed_width_dispatched_as_float (p : Plugin) (file : FileDescriptor) (ccTypeName fieldName : String)
    (field : FieldDescriptor) (variableName : Var) (i : Nat) :
    ¬ (isSupportedInt field = true ∧ isSupportedFloat field = true)
    ∧ (isFixedWidth field = true ↔ field.Typ = FieldType.TYPE_FIXED32
        ∨ field.Typ = FieldType.TYPE_FIXED64 ∨ field.Typ = FieldType.TYPE_SFIXED32
        ∨ field.Typ = FieldType.TYPE_SFIXED64)
    ∧ (isFixedWidth field = true →
        isSupportedInt field = false ∧ isSupportedFloat field = true
        ∧ (∀ fv : FieldValidator,
            (generateValidatorsFrom p field variableName ccTypeName fieldName i [fv]).1
              = generateFloatValidator p.lang p.ff p.errorDecimalPlacesLte variableName ccTypeName
                  fieldName fv i)
        ∧ (∀ validators : List FieldValidator,
            (∀ fv ∈ validators, noFloatConstraint fv = true) →
            (generateValidatorsFrom p field variableName ccTypeName fieldName i validators).1
              = [])
        ∧ (field.Repeated = false → field.OneofIndex = none →
            (∀ fv ∈ field.validators, noFloatConstraint fv = true) →
            (generateProto3Field p file ccTypeName field).1 = []
            ∧ ∀ env : Env,
                execList env (generateProto3Field p file ccTypeName field).1 = some [])
        ∧ (∀ fv : FieldValidator, fv.FloatGt.isSome ∨ fv.FloatGte.isSome ∨ fv.FloatLt.isSome
              ∨ fv.FloatLte.isSome →
            (generateValidatorsFrom p field variableName ccTypeName fieldName i [fv]).1
              ≠ [])) := by
  refine ⟨?_, ?_, ?_⟩
  · unfold isSupportedInt isSupportedFloat
    cases field.Typ <;> simp
  · unfold isFixedWidth
    cases field.Typ <;> simp
  · intro hfix
    have hS : field.IsString = false := by
      unfold isFixedWidth at hfix
      unfold FieldDescriptor.IsString
      cases hT : field.Typ <;> simp [hT] at hfix ⊢
    have hI : isSupportedInt field = false := by
      unfold isFixedWidth at hfix
      unfold isSupportedInt
      cases hT : field.Typ <;> simp [hT] at hfix ⊢
    have hE : field.IsEnum = false := by
      unfold isFixedWidth at hfix
      unfold FieldDescriptor.IsEnum
      cases hT : field.Typ <;> simp [hT] at hfix ⊢
    have hF : isSupportedFloat field = true := by
      unfold isFixedWidth at hfix
      unfold isSupportedFloat
      cases hT : field.Typ <;> simp [hT] at hfix ⊢
    have hM : field.IsMessage = false := by
      unfold isFixedWidth at hfix
      unfold FieldDescriptor.IsMessage
      cases hT : field.Typ <;> simp [hT] at hfix ⊢
    have hsingle : ∀ fv : FieldValidator,
        (generateValidatorsFrom p field variableName ccTypeName fieldName i [fv]).1
          = generateFloatValidator p.lang p.ff p.errorDecimalPlacesLte variableName ccTypeName
              fieldName fv i := by
      intro fv
      simp [generateValidatorsFrom, hS, hI, hE, hF]
    refine ⟨hI, hF, hsingle, ?_, ?_, ?_⟩
    · intro validators h
      rw [generateValidatorsFrom_fixed p field _ _ _ hfix i validators h]
    · intro hrep hone h
      have hR : field.IsRepeated = false := hrep
      have hmap : fieldIsProto3Map field = false := by simp [fieldIsProto3Map, hR]
      have hcode : (generateProto3Field p file ccTypeName field).1 = [] := by
        unfold generateProto3Field
        by_cases hlen : field.validators.length = 0
        · simp only [getFieldValidatorIfAny, hlen, hM, Bool.false_eq_true, not_false_eq_true,
            and_self, if_true]
        · simp only [getFieldValidatorIfAny, hlen, false_and, if_false, hM, hR, hmap, hone,
            Option.isSome_none, Bool.false_eq_true, Bool.false_and, List.append_nil,
            List.nil_append, generateValidatorsFrom_fixed p field _ _ _ hfix 0 _ h]
      refine ⟨hcode, ?_⟩
      intro env
      rw [hcode]
      rfl
    · intro fv hset
      rw [hsingle]
      unfold generateFloatValidator
      intro hnil
      have hlen := congrArg List.length hnil
      simp only [List.length_append, List.length_nil] at hlen
      have hlow : (fv.FloatGt.isSome ∨ fv.FloatGte.isSome) →
          (generateFloatLower p.lang p.ff variableName fieldName fv).length = 1 := by
        intro hs
        unfold generateFloatLower
        rw [if_pos hs]
        split
        · split <;> rfl
        · rfl
      have hup : (fv.FloatLt.isSome ∨ fv.FloatLte.isSome) →
          (generateFloatUpper p.lang p.ff variableName fieldName fv).length = 1 := by
        intro hs
        unfold generateFloatUpper
        rw [if_pos hs]
        split
        · split <;> rfl
        · rfl
      rcases hset with hs | hs | hs | hs
      · have := hlow (Or.inl hs); omega
      · have := hlow (Or.inr hs); omega
      · have := hup (Or.inl hs); omega
      · have := hup (Or.inr hs); omega

set_option maxRecDepth 100000 in
/-- The witness of C28: on the `fixed32` field `count`, `int_gt = 10` generates nothing, and
`float_gt = 10` is checked on the value 3. -/
theorem fixed_width_dispatched_as_float_witness :
    (generateProto3Field samplePlugin {} "Msg" (countField [{ IntGt := some 10 }])).1 = []
    ∧ execList (sampleEnv (Value.int 3))
        (generateProto3Field samplePlugin {} "Msg"
          (countField [{ IntGt := some 10, FloatGt := some 10 }])).1
      = some [{ Field := "Count",
                Description := "value '3' must be strictly greater than ''" }] :=
  ⟨(((fixed_width_dispatched_as_float samplePlugin {} "Msg" "Count"
      (countField [{ IntGt := some 10 }]) (Var.this "Count") 0).2.2 rfl).2.2.2.2.1
      rfl rfl (by decide)).1,
   rfl⟩

/-! ## Repeated scalar fields -/

/-- A property of the violations of two consecutive runs holds when it holds for each run. -/
theorem mem_appendOpt {β : Type} (P : β → Prop) (x y : Option (List β)) (out : List β)
    (hx : ∀ a, x = some a → ∀ v ∈ a, P v) (hy : ∀ b, y = some b → ∀ v ∈ b, P v)
    (h : appendOpt x y = some out) : ∀ v ∈ out, P v := by
  cases x with
  | none => simp at h
  | some a =>
    cases y with
    | none => simp at h
    | some b =>
      simp only [appendOpt_some, Option.some.injEq] at h
      intro v hv
      rw [← h] at hv
      rcases List.mem_append.mp hv with hv | hv
      · exact hx a rfl v hv
      · exact hy b rfl v hv

/-- A property of the violations of a loop holds when it holds for every round. -/
theorem mem_collect {α β : Type} (P : β → Prop) (f : α → Option (List β)) (items : List α)
    (hf : ∀ it ∈ items, ∀ a, f it = some a → ∀ v ∈ a, P v) (out : List β)
    (h : collect f items = some out) : ∀ v ∈ out, P v := by
  induction items generalizing out with
  | nil =>
    simp only [collect, Option.some.injEq] at h
    intro v hv
    rw [← h] at hv
    simp at hv
  | cons it rest ih =>
    simp only [collect] at h
    exact mem_appendOpt P _ _ out (hf it (by simp))
      (fun b hb => ih (fun x hx => hf x (by simp [hx])) b hb) h

mutual
/-- A statement that can only append violations with the field path `name` returns only
such violations, on every instance. -/
theorem exec_writesOnly (name : String) :
    ∀ (s : Stmt) (env : Env) (out : List Violation), writesOnly name s = true →
      exec env s = some out → ∀ v ∈ out, v.Field = name
  | Stmt.ifThen c body, env, out, hw, h => by
    simp only [writesOnly] at hw
    simp only [exec] at h
    cases hc : evalCond env c with
    | none => simp [hc] at h
    | some b =>
      cases b with
      | true =>
        simp only [hc] at h
        exact execList_writesOnly name body env out hw h
      | false =>
        simp only [hc, Option.some.injEq] at h
        intro v hv
        rw [← h] at hv
        simp at hv
  | Stmt.forRange x body, env, out, hw, h => by
    simp only [writesOnly] at hw
    simp only [exec] at h
    cases hx : evalVar env x with
    | none => simp [hx] at h
    | some val =>
      cases val with
      | list vs =>
        simp only [hx] at h
        exact mem_collect (fun v => v.Field = name) _ vs
          (fun it _ a ha => execList_writesOnly name body _ a hw ha) out h
      | _ => simp [hx] at h
  | Stmt.ifOneof oneOfName oneOfType body, env, out, hw, h => by
    simp only [writesOnly] at hw
    simp only [exec] at h
    cases ho : env.oneof oneOfName with
    | none =>
      simp only [ho, Option.some.injEq] at h
      intro v hv
      rw [← h] at hv
      simp at hv
    | some alt =>
      obtain ⟨ty, payload⟩ := alt
      simp only [ho] at h
      by_cases hty : ty = oneOfType
      · rw [if_pos hty] at h
        exact execList_writesOnly name body _ out hw h
      · rw [if_neg hty, Option.some.injEq] at h
        intro v hv
        rw [← h] at hv
        simp at hv
  | Stmt.ifOneofNil oneOfName body, env, out, hw, h => by
    simp only [writesOnly] at hw
    simp only [exec] at h
    cases ho : env.oneof oneOfName with
    | none =>
      simp only [ho] at h
      exact execList_writesOnly name body _ out hw h
    | some alt =>
      simp only [ho, Option.some.injEq] at h
      intro v hv
      rw [← h] at hv
      simp at hv
  | Stmt.appendViolation field desc, env, out, hw, h => by
    simp only [writesOnly, decide_eq_true_eq] at hw
    simp only [exec, Option.map_eq_some'] at h
    obtain ⟨d, _, hd⟩ := h
    intro v hv
    rw [← hd] at hv
    simp only [List.mem_singleton] at hv
    rw [hv]
    exact hw
  | Stmt.callChild _ _, _, _, hw, _ => by simp [writesOnly] at hw
  | Stmt.callChildFlat _, _, _, hw, _ => by simp [writesOnly] at hw
  | Stmt.decimalPlaces sl x n body, env, out, hw, h => by
    simp only [writesOnly] at hw
    simp only [exec] at h
    cases hx : evalVar env x with
    | none => simp [hx] at h
    | some val =>
      cases val with
      | float q =>
        simp only [hx] at h
        by_cases hd : decimalPlacesExceeded (env.fmtV q) n = true
        · rw [if_pos hd] at h
          exact execList_writesOnly name body _ out hw h
        · rw [if_neg hd, Option.some.injEq] at h
          intro v hv
          rw [← h] at hv
          simp at hv
      | _ => simp [hx] at h
  | Stmt.comment _, env, out, _, h => by
    simp only [exec, Option.some.injEq] at h
    intro v hv
    rw [← h] at hv
    simp at hv
/-- A block that can only append violations with the field path `name` returns only such
violations, on every instance. -/
theorem execList_writesOnly (name : String) :
    ∀ (l : List Stmt) (env : Env) (out : List Violation), writesOnlyList name l = true →
      execList env l = some out → ∀ v ∈ out, v.Field = name
  | [], env, out, _, h => by
    simp only [execList, Option.some.injEq] at h
    intro v hv
    rw [← h] at hv
    simp at hv
  | s :: rest, env, out, hw, h => by
    simp only [writesOnlyList, Bool.and_eq_true] at hw
    simp only [execList] at h
    exact mem_appendOpt (fun v => v.Field = name) _ _ out
      (fun a ha => exec_writesOnly name s env a hw.1 ha)
      (fun b hb => execList_writesOnly name rest env b hw.2 hb) h
end

theorem writesOnlyList_append (name : String) (a b : List Stmt) :
    writesOnlyList name (a ++ b) = (writesOnlyList name a && writesOnlyList name b) := by
  induction a with
  | nil => simp [writesOnlyList]
  | cons s rest ih => simp [writesOnlyList, ih, Bool.and_assoc]

/-- The violation statement of `generateErrorString` carries the field name it is given. -/
theorem writesOnlyList_generateErrorString (lang : String) (variableName : Var)
    (fieldName specificError : String) (fv : FieldValidator) :
    writesOnlyList fieldName (generateErrorString lang variableName fieldName specificError fv)
      = true := by
  unfold generateErrorString
  split <;> simp [writesOnlyList, writesOnly]

theorem writesOnlyList_generateErrorStringEmpty (lang : String) (variableName : Var)
    (fieldName specificError : String) (fv : FieldValidator) :
    writesOnlyList fieldName
      (generateErrorStringEmpty lang variableName fieldName specificError fv) = true := by
  unfold generateErrorStringEmpty
  split <;> simp [writesOnlyList, writesOnly]

theorem writesOnlyList_check (name : String) (c : Cond) (body : List Stmt)
    (h : writesOnlyList name body = true) :
    writesOnlyList name [Stmt.ifThen c body] = true := by
  simp [writesOnlyList, writesOnly, h]

theorem writesOnlyList_ite (name : String) (c : Prop) [Decidable c] (s : List Stmt)
    (h : writesOnlyList name s = true) :
    writesOnlyList name (if c then s else []) = true := by
  split
  · exact h
  · rfl

theorem writesOnlyList_generateIntValidator (lang : String) (variableName : Var)
    (ccTypeName fieldName : String) (fv : FieldValidator) :
    writesOnlyList fieldName (generateIntValidator lang variableName ccTypeName fieldName fv)
      = true := by
  unfold generateIntValidator
  simp only [writesOnlyList_append, Bool.and_eq_true]
  refine ⟨⟨⟨?_, ?_⟩, ?_⟩, ?_⟩ <;> split <;>
    simp [writesOnlyList, writesOnly, writesOnlyList_generateErrorString]

theorem writesOnlyList_generateLengthValidator (lang : String) (variableName : Var)
    (ccTypeName fieldName : String) (fv : FieldValidator) :
    writesOnlyList fieldName (generateLengthValidator lang variableName ccTypeName fieldName fv)
      = true := by
  unfold generateLengthValidator
  simp only [writesOnlyList_append, Bool.and_eq_true]
  refine ⟨⟨?_, ?_⟩, ?_⟩ <;> split <;>
    simp [writesOnlyList, writesOnly, writesOnlyList_generateErrorString]

theorem writesOnlyList_generateEnumValidator (lang : String) (field : FieldDescriptor)
    (variableName : Var) (ccTypeName fieldName : String) (fv : FieldValidator) :
    writesOnlyList fieldName
      (generateEnumValidator lang field variableName ccTypeName fieldName fv) = true := by
  unfold generateEnumValidator
  split <;> simp [writesOnlyList, writesOnly, writesOnlyList_generateErrorString]

theorem writesOnlyList_generateFloatValidator (lang : String) (ff : FloatFmt)
    (table : List (String × String)) (variableName : Var) (ccTypeName fieldName : String)
    (fv : FieldValidator) (index : Nat) :
    writesOnlyList fieldName
      (generateFloatValidator lang ff table variableName ccTypeName fieldName fv index)
      = true := by
  unfold generateFloatValidator
  simp only [writesOnlyList_append, Bool.and_eq_true]
  refine ⟨⟨?_, ?_⟩, ?_⟩
  · unfold generateFloatLower
    split
    · split
      · split <;> simp [writesOnlyList, writesOnly, writesOnlyList_generateErrorString]
      · simp [writesOnlyList, writesOnly, writesOnlyList_generateErrorString]
    · rfl
  · unfold generateFloatUpper
    split
    · split
      · split <;> simp [writesOnlyList, writesOnly, writesOnlyList_generateErrorString]
      · simp [writesOnlyList, writesOnly, writesOnlyList_generateErrorString]
    · rfl
  · unfold generateDecimalPlaces
    split <;> simp [writesOnlyList, writesOnly, writesOnlyList_generateErrorString]

theorem writesOnlyList_generateStringValidator (lang : String) (variableName : Var)
    (ccTypeName fieldName : String) (fv : FieldValidator) (index : Nat) :
    writesOnlyList fieldName
      (generateStringValidator lang variableName ccTypeName fieldName fv index).1 = true := by
  unfold generateStringValidator
  simp only [writesOnlyList_append, Bool.and_eq_true]
  refine ⟨⟨⟨?_, ?_⟩, ?_⟩, writesOnlyList_generateLengthValidator _ _ ccTypeName _ _⟩
  · exact writesOnlyList_ite _ _ _
      (writesOnlyList_check _ _ _ (writesOnlyList_generateErrorString _ _ _ _ _))
  · exact writesOnlyList_ite _ _ _
      (writesOnlyList_check _ _ _ (writesOnlyList_generateErrorStringEmpty _ _ _ _ _))
  · exact writesOnlyList_ite _ _ _
      (writesOnlyList_check _ _ _ (writesOnlyList_generateErrorStringEmpty _ _ _ _ _))

/-- Every violation the per-type checks of a field can append carries the field's name. -/
theorem writesOnlyList_generateValidatorsFrom (p : Plugin) (field : FieldDescriptor)
    (variableName : Var) (ccTypeName fieldName : String) (i : Nat)
    (validators : List FieldValidator) :
    writesOnlyList fieldName
      (generateValidatorsFrom p field variableName ccTypeName fieldName i validators).1
      = true := by
  induction validators generalizing i with
  | nil => rfl
  | cons v rest ih =>
    simp only [generateValidatorsFrom, writesOnlyList_append, ih, Bool.and_true]
    split
    · exact writesOnlyList_generateStringValidator _ _ _ _ _ _
    · split
      · exact writesOnlyList_generateIntValidator _ _ ccTypeName _ _
      · split
        · exact writesOnlyList_generateEnumValidator _ _ _ ccTypeName _ _
        · split
          · exact writesOnlyList_generateFloatValidator _ _ _ _ ccTypeName _ _ _
          · split
            · exact writesOnlyList_generateLengthValidator _ _ ccTypeName _ _
            · rfl

theorem writesOnlyList_generateRepeatedCountValidator (lang : String) (variableName : Var)
    (ccTypeName fieldName : String) (validators : List FieldValidator) :
    writesOnlyList fieldName
      (generateRepeatedCountValidator lang variableName ccTypeName fieldName validators)
      = true := by
  unfold generateRepeatedCountValidator
  induction validators with
  | nil => rfl
  | cons v rest ih =>
    rw [List.flatMap_cons, writesOnlyList_append, ih, Bool.and_true]
    unfold generateRepeatedCount
    simp only [writesOnlyList_append, Bool.and_eq_true]
    refine ⟨?_, ?_⟩ <;> split <;>
      simp [writesOnlyList, writesOnly, writesOnlyList_generateErrorString]


/-- The loop over the elements of a repeated field, element by element. -/
theorem collect_items (env : Env) (body : List Stmt) (items : List Value)
    (out : Value → List Violation)
    (h : ∀ it ∈ items, execList { env with item := some it } body = some (out it)) :
    collect (fun it => execList { env with item := some it } body) items
      = some (items.flatMap out) := by
  induction items with
  | nil => rfl
  | cons it rest ih =>
    simp only [collect, List.flatMap_cons]
    rw [h it (by simp), ih (fun x hx => h x (by simp [hx]))]
    rfl

/-- The count checks of the validators of a field, validator by validator. -/
theorem exec_generateRepeatedCountValidator (lang : String) (env : Env) (variableName : Var)
    (ccTypeName fieldName : String) (validators : List FieldValidator) (vs : List Value)
    (hv : evalVar env variableName = some (Value.list vs)) :
    execList env
        (generateRepeatedCountValidator lang variableName ccTypeName fieldName validators)
      = some (validators.flatMap (countViolations lang env variableName fieldName vs)) := by
  unfold generateRepeatedCountValidator
  induction validators with
  | nil => rfl
  | cons fv rest ih =>
    rw [List.flatMap_cons, execList_append, ih,
      exec_generateRepeatedCount lang env variableName fieldName fv vs hv, List.flatMap_cons]
    rfl

/-- The code of a repeated scalar field outside a oneof that carries something besides count
limits: the count checks, then the loop over the elements with the checks of the field's
type on `item`. -/
theorem generateProto3Field_repeated_scalar (p : Plugin) (file : FileDescriptor)
    (ccTypeName : String) (field : FieldDescriptor) (hrep : field.Repeated = true)
    (hscalar : field.Typ ≠ FieldType.TYPE_MESSAGE) (hone : field.OneofIndex = none)
    (helem : validatorWithNonRepeatedConstraint field.validators = true) :
    (generateProto3Field p file ccTypeName field).1 =
      generateRepeatedCountValidator p.lang (Var.this (p.GetOneOfFieldName field))
          ccTypeName (p.GetOneOfFieldName field) field.validators
        ++ [Stmt.forRange (Var.this (p.GetOneOfFieldName field))
            (generateValidatorsFrom p field Var.item ccTypeName
              (p.GetOneOfFieldName field) 0 field.validators).1] := by
  have hM : field.IsMessage = false := by simp [FieldDescriptor.IsMessage, hscalar]
  have hR : field.IsRepeated = true := hrep
  have hmap : fieldIsProto3Map field = false := by simp [fieldIsProto3Map, hscalar]
  have hlen : ¬ field.validators.length = 0 := by
    intro h
    rw [List.length_eq_zero.mp h] at helem
    exact absurd helem (by decide)
  unfold generateProto3Field
  simp only [getFieldValidatorIfAny, hlen, false_and, if_false, hM, hR, hmap, hone,
    Option.isSome_none, Bool.false_eq_true, Bool.false_or, Bool.true_and, if_true,
    List.append_nil, helem]

/-- The checks of the validators of a field of a type the plugin treats as integer. -/
theorem generateValidatorsFrom_int (p : Plugin) (field : FieldDescriptor) (variableName : Var)
    (ccTypeName fieldName : String) (hint : isSupportedInt field = true) (i : Nat)
    (validators : List FieldValidator) :
    generateValidatorsFrom p field variableName ccTypeName fieldName i validators
      = (validators.flatMap (generateIntValidator p.lang variableName ccTypeName fieldName),
          validators) := by
  have hS : field.IsString = false := by
    unfold isSupportedInt at hint
    unfold FieldDescriptor.IsString
    cases hT : field.Typ <;> simp [hT] at hint ⊢
  induction validators generalizing i with
  | nil => rfl
  | cons v rest ih =>
    simp only [generateValidatorsFrom, hS, hint, Bool.false_eq_true, if_false, if_true, ih,
      List.flatMap_cons]

/-- The integer checks of the validators on one element of a repeated field. -/
theorem exec_intChecks_item (lang : String) (env : Env) (ccTypeName fieldName : String)
    (validators : List FieldValidator) (v : Int) :
    execList { env with item := some (Value.int v) }
        (validators.flatMap (generateIntValidator lang Var.item ccTypeName fieldName))
      = some (validators.flatMap (fun fv => elementViolations lang env fieldName fv v)) := by
  induction validators with
  | nil => rfl
  | cons fv rest ih =>
    rw [List.flatMap_cons, execList_append, ih,
      exec_generateIntValidator lang _ Var.item ccTypeName fieldName fv v (by simp [evalVar]),
      List.flatMap_cons]
    rfl

/-- C20 (amended): for a repeated scalar field of a proto3 message, outside a oneof, whose
validators carry something besides count limits, the code of the field is the count checks
followed by one loop over the elements with the checks the field's type selects.  Its
violations are: first, validator by validator, the count violation of `repeated_count_min` if
it is set and the element count is below it and the one of `repeated_count_max` if it is set
and the count is above it; then, element by element in element order, the violations the
checks of the field's type return for that element; every one of them has the field's own name
as `Field`, with no index segment.  On a field of type int32, int64, uint32, uint64, sint32 or
sint64 the element violations are those of the integer bounds, one for each bound the element
fails; on a field of type fixed32, fixed64, sfixed32 or sfixed64 the integer bounds select no
check, and with validators that set no float constraint only the count violations are
returned. -/
theorem repeated_count_then_elements (p : Plugin) (file : FileDescriptor) (ccTypeName : String)
    (field : FieldDescriptor) (env : Env) (items : List Value)
    (hrep : field.Repeated = true) (hscalar : field.Typ ≠ FieldType.TYPE_MESSAGE)
    (hone : field.OneofIndex = none)
    (helem : validatorWithNonRepeatedConstraint field.validators = true)
    (hv : env.field (p.GetOneOfFieldName field) = Value.list items) :
    (generateProto3Field p file ccTypeName field).1 =
        generateRepeatedCountValidator p.lang (Var.this (p.GetOneOfFieldName field))
            ccTypeName (p.GetOneOfFieldName field) field.validators
          ++ [Stmt.forRange (Var.this (p.GetOneOfFieldName field))
              (generateValidatorsFrom p field Var.item ccTypeName
                (p.GetOneOfFieldName field) 0 field.validators).1]
    ∧ (∀ out : Value → List Violation,
        (∀ it ∈ items, execList { env with item := some it }
            (generateValidatorsFrom p field Var.item ccTypeName
              (p.GetOneOfFieldName field) 0 field.validators).1 = some (out it)) →
        execList env (generateProto3Field p file ccTypeName field).1 =
          some (field.validators.flatMap
              (countViolations p.lang env (Var.this (p.GetOneOfFieldName field))
                (p.GetOneOfFieldName field) items)
            ++ items.flatMap out))
    ∧ (∀ result, execList env (generateProto3Field p file ccTypeName field).1 = some result →
        ∀ viol ∈ result, viol.Field = p.GetOneOfFieldName field)
    ∧ (isSupportedInt field = true → ∀ vs : List Int, items = vs.map Value.int →
        execList env (generateProto3Field p file ccTypeName field).1 =
          some (field.validators.flatMap
              (countViolations p.lang env (Var.this (p.GetOneOfFieldName field))
                (p.GetOneOfFieldName field) items)
            ++ vs.flatMap (fun v => field.validators.flatMap
                (fun fv => elementViolations p.lang env (p.GetOneOfFieldName field) fv v))))
    ∧ (isFixedWidth field = true → (∀ fv ∈ field.validators, noFloatConstraint fv = true) →
        execList env (generateProto3Field p file ccTypeName field).1 =
          some (field.validators.flatMap
              (countViolations p.lang env (Var.this (p.GetOneOfFieldName field))
                (p.GetOneOfFieldName field) items))) := by
  have hshape := generateProto3Field_repeated_scalar p file ccTypeName field hrep hscalar hone
    helem
  have hvar : evalVar env (Var.this (p.GetOneOfFieldName field)) = some (Value.list items) := by
    simp [evalVar, hv]
  have hgen : ∀ out : Value → List Violation,
      (∀ it ∈ items, execList { env with item := some it }
          (generateValidatorsFrom p field Var.item ccTypeName
            (p.GetOneOfFieldName field) 0 field.validators).1 = some (out it)) →
      execList env (generateProto3Field p file ccTypeName field).1 =
        some (field.validators.flatMap
            (countViolations p.lang env (Var.this (p.GetOneOfFieldName field))
              (p.GetOneOfFieldName field) items)
          ++ items.flatMap out) := by
    intro out hout
    rw [hshape, execList_append,
      exec_generateRepeatedCountValidator _ _ _ _ _ _ items hvar, execList_singleton]
    simp only [exec, hvar]
    rw [collect_items env _ items out hout]
    rfl
  refine ⟨hshape, hgen, ?_, ?_, ?_⟩
  · intro result hresult
    apply execList_writesOnly (p.GetOneOfFieldName field) _ env result _ hresult
    rw [hshape, writesOnlyList_append, writesOnlyList_generateRepeatedCountValidator]
    simp [writesOnlyList, writesOnly, writesOnlyList_generateValidatorsFrom]
  · intro hint vs hitems
    rw [hgen (fun it => match it with
      | Value.int v => field.validators.flatMap
          (fun fv => elementViolations p.lang env (p.GetOneOfFieldName field) fv v)
      | _ => [])]
    · rw [hitems, List.flatMap_map]
    · intro it hit
      rw [hitems] at hit
      obtain ⟨v, _, rfl⟩ := List.mem_map.mp hit
      rw [generateValidatorsFrom_int p field _ _ _ hint]
      exact exec_intChecks_item p.lang env ccTypeName _ _ v
  · intro hfix hno
    rw [hgen (fun _ => [])]
    · simp
    · intro it _
      rw [generateValidatorsFrom_fixed p field _ _ _ hfix 0 _ hno]
      rfl

set_option maxRecDepth 100000 in
/-- C20 (as stated, refuted): the repeated `fixed32` field `ticks` with
`repeated_count_max = 2` and the per-element constraint `int_gt = 1` is not an integer field
for the plugin; its code is the count check followed by a loop with an empty body, and on the
elements 5, 1, 0 it returns the count violation alone, where the repeated `int64` field
`scores` returns the count violation and one violation for each of the failing elements 1
and 0. -/
theorem repeated_fixed32_elements_unchecked :
    isSupportedInt (ticksField [{ RepeatedCountMax := some 2, IntGt := some 1 }]) = false
    ∧ (generateProto3Field samplePlugin {} "Msg"
        (ticksField [{ RepeatedCountMax := some 2, IntGt := some 1 }])).1
      = [Stmt.ifThen (Cond.lenGt (Var.this "Ticks") 2)
          [Stmt.appendViolation "Ticks"
            (Desc.sprintf "value '%v' must contain at most 2 elements" (Var.this "Ticks"))],
         Stmt.forRange (Var.this "Ticks") []]
    ∧ execList (sampleEnv (Value.list [Value.int 5, Value.int 1, Value.int 0]))
        (generateProto3Field samplePlugin {} "Msg"
          (ticksField [{ RepeatedCountMax := some 2, IntGt := some 1 }])).1
      = some [{ Field := "Ticks",
                Description := "value '[5 1 0]' must contain at most 2 elements" }]
    ∧ execList (sampleEnv (Value.list [Value.int 5, Value.int 1, Value.int 0]))
        (generateProto3Field samplePlugin {} "Msg"
          (scoresField [{ RepeatedCountMax := some 2, IntGt := some 1 }])).1
      = some [{ Field := "Scores",
                Description := "value '[5 1 0]' must contain at most 2 elements" },
              { Field := "Scores", Description := "value '1' must be greater than '1'" },
              { Field := "Scores", Description := "value '0' must be greater than '1'" }] :=
  ⟨rfl, rfl, rfl, rfl⟩

set_option maxRecDepth 100000 in
/-- The witness of C20 (amended): `scores = [5, 1, 0]` under `repeated_count_max = 2` and
`int_gt = 1` (the count violation first, then one violation for the element 1 and one for the
element 0), and a repeated string field holding an empty and a non-empty text under
`repeated_count_min = 3` and `string_not_empty`. -/
theorem repeated_count_then_elements_witness :
    execList (sampleEnv (Value.list [Value.int 5, Value.int 1, Value.int 0]))
        (generateProto3Field samplePlugin {} "Msg"
          (scoresField [{ RepeatedCountMax := some 2, IntGt := some 1 }])).1
      = some [{ Field := "Scores",
                Description := "value '[5 1 0]' must contain at most 2 elements" },
              { Field := "Scores", Description := "value '1' must be greater than '1'" },
              { Field := "Scores", Description := "value '0' must be greater than '1'" }]
    ∧ execList (sampleEnv (Value.list [Value.str "", Value.str "ab"]))
        (generateProto3Field samplePlugin {} "Msg"
          { idField [{ RepeatedCountMin := some 3, StringNotEmpty := some true }] with
            Repeated := true }).1
      = some [{ Field := "Id", Description := "value '[ ab]' must contain at least 3 elements" },
              { Field := "Id", Description := "must not be an empty string" }] :=
  ⟨((repeated_count_then_elements samplePlugin {} "Msg"
      (scoresField [{ RepeatedCountMax := some 2, IntGt := some 1 }])
      (sampleEnv (Value.list [Value.int 5, Value.int 1, Value.int 0]))
      [Value.int 5, Value.int 1, Value.int 0] rfl (by decide) rfl rfl rfl).2.2.2.1
      rfl [5, 1, 0] rfl).trans rfl,
   ((repeated_count_then_elements samplePlugin {} "Msg"
      { idField [{ RepeatedCountMin := some 3, StringNotEmpty := some true }] with
        Repeated := true }
      (sampleEnv (Value.list [Value.str "", Value.str "ab"]))
      [Value.str "", Value.str "ab"] rfl (by decide) rfl rfl rfl).2.1
      (fun it => match it with
        | Value.str "" => [{ Field := "Id", Description := "must not be an empty string" }]
        | _ => [])
      (by decide)).trans rfl⟩

end ProtoValidators
